import Mathlib

set_option maxHeartbeats 1000000

/-! Verification development for the KATch-LTL SPP engine and fuzzer.

The SPP store (src/spp.rs) implements hash-consed complete quaternary
decision diagrams of depth `num_vars` representing binary relations on
packets.  We embed the store as a pure record with association lists for
the hash-consing table and the per-operation memo tables, and the
store operations as fuel-indexed state-passing functions returning
`Option` (with `none` modelling a panic or fuel exhaustion).

A separate layer of depth-indexed trees (`QTree n`) captures the complete
quaternary diagrams themselves; `toTree` reads a store handle back as a
tree, which is how "handle `h` denotes a complete diagram of depth `n`"
is expressed. -/

/-- Complete quaternary decision diagram of depth `n`: leaves are booleans,
an internal node has four children, one per combination of the input and
output bit of the variable at that level. -/
inductive QTree : Nat → Type where
  | leaf : Bool → QTree 0
  | node : {n : Nat} → QTree n → QTree n → QTree n → QTree n → QTree (n + 1)
deriving DecidableEq

/-- Pointwise union of two depth-`n` diagrams (base cases match the
pre-seeded `union_memo` of the store: union of leaves is boolean or). -/
def tunion : (n : Nat) → QTree n → QTree n → QTree n
  | 0, .leaf a, .leaf b => .leaf (a || b)
  | n + 1, .node a00 a01 a10 a11, .node b00 b01 b10 b11 =>
    .node (tunion n a00 b00) (tunion n a01 b01) (tunion n a10 b10) (tunion n a11 b11)

/-- Pointwise intersection (leaves: boolean and). -/
def tinter : (n : Nat) → QTree n → QTree n → QTree n
  | 0, .leaf a, .leaf b => .leaf (a && b)
  | n + 1, .node a00 a01 a10 a11, .node b00 b01 b10 b11 =>
    .node (tinter n a00 b00) (tinter n a01 b01) (tinter n a10 b10) (tinter n a11 b11)

/-- Pointwise symmetric difference (leaves: boolean xor). -/
def txor : (n : Nat) → QTree n → QTree n → QTree n
  | 0, .leaf a, .leaf b => .leaf (Bool.xor a b)
  | n + 1, .node a00 a01 a10 a11, .node b00 b01 b10 b11 =>
    .node (txor n a00 b00) (txor n a01 b01) (txor n a10 b10) (txor n a11 b11)

/-- Pointwise difference (leaves: `a && !b`, matching the pre-seeded
`difference_memo`: only `difference(1,0) = 1`). -/
def tdiff : (n : Nat) → QTree n → QTree n → QTree n
  | 0, .leaf a, .leaf b => .leaf (a && !b)
  | n + 1, .node a00 a01 a10 a11, .node b00 b01 b10 b11 =>
    .node (tdiff n a00 b00) (tdiff n a01 b01) (tdiff n a10 b10) (tdiff n a11 b11)

/-- Pointwise complement (leaves: boolean not). -/
def tcompl : (n : Nat) → QTree n → QTree n
  | 0, .leaf a => .leaf (!a)
  | n + 1, .node a00 a01 a10 a11 =>
    .node (tcompl n a00) (tcompl n a01) (tcompl n a10) (tcompl n a11)

/-- Relational composition as 2x2 block-matrix multiplication, exactly the
formula in `SPPstore::sequence` (leaves: boolean and, matching the
pre-seeded `sequence_memo`: only `sequence(1,1) = 1`). -/
def tseq : (n : Nat) → QTree n → QTree n → QTree n
  | 0, .leaf a, .leaf b => .leaf (a && b)
  | n + 1, .node a00 a01 a10 a11, .node b00 b01 b10 b11 =>
    .node (tunion n (tseq n a00 b00) (tseq n a01 b10))
          (tunion n (tseq n a00 b01) (tseq n a01 b11))
          (tunion n (tseq n a10 b00) (tseq n a11 b10))
          (tunion n (tseq n a10 b01) (tseq n a11 b11))

/-- Kleene star via the 2x2 block formula used by `SPPstore::star`:
with blocks `(a,b;c,d)`, `d* = star d`, `e = star (a + (b d*) c)`, the
result is `(e, e (b d*), d* (c e), d* + (d* (c e)) (b d*))`.
Both leaves star to the `1` leaf, matching the pre-seeded `star_memo`. -/
def tstar : (n : Nat) → QTree n → QTree n
  | 0, _ => .leaf true
  | n + 1, .node a b c d =>
    let ds := tstar n d
    let bds := tseq n b ds
    let bdsc := tseq n bds c
    let abdc := tunion n a bdsc
    let e := tstar n abdc
    let ebds := tseq n e bds
    let ce := tseq n c e
    let dsce := tseq n ds ce
    let dscebds := tseq n dsce bds
    .node e ebds dsce (tunion n ds dscebds)

/-- The all-zero (empty relation) diagram of depth `n`. -/
def tzero : (n : Nat) → QTree n
  | 0 => .leaf false
  | n + 1 => .node (tzero n) (tzero n) (tzero n) (tzero n)

/-- The all-one (full relation) diagram of depth `n`. -/
def ttop : (n : Nat) → QTree n
  | 0 => .leaf true
  | n + 1 => .node (ttop n) (ttop n) (ttop n) (ttop n)

/-- The identity relation diagram of depth `n`, as built by
`SPPstore::one`: diagonal blocks are identities, off-diagonal blocks are
all-zero. -/
def tone : (n : Nat) → QTree n
  | 0 => .leaf true
  | n + 1 => .node (tone n) (tzero n) (tzero n) (tone n)

/- Handles into the SPP store are plain naturals: `0` and `1` are the leaf
diagrams, handle `h ≥ 2` is the internal node stored at index `h - 2`.
(The Rust `type SPP = u32` alias is rendered as `Nat`.) -/

/-- A node in the SPP store (the four children of `SPPnode` in src/spp.rs). -/
structure SPPnode where
  x00 : Nat
  x01 : Nat
  x10 : Nat
  x11 : Nat
deriving DecidableEq

/-- Association-list lookup, modelling `HashMap::get` (insertion is `cons`,
so a later insert for the same key shadows the earlier one, matching
`HashMap::insert`'s replace semantics as observed through `get`). -/
def alookup {α β : Type} [DecidableEq α] : List (α × β) → α → Option β
  | [], _ => none
  | (k, v) :: rest, a => if a = k then some v else alookup rest a

/-- The SPP store of src/spp.rs: node vector, hash-consing table, cached
`zero`/`one`/`top`, and one memo table per operation. -/
structure SPPstore where mkRaw ::
  num_vars : Nat
  nodes : List SPPnode
  hc : List (SPPnode × Nat)
  zero : Nat
  one : Nat
  top : Nat
  union_memo : List ((Nat × Nat) × Nat)
  intersect_memo : List ((Nat × Nat) × Nat)
  xor_memo : List ((Nat × Nat) × Nat)
  difference_memo : List ((Nat × Nat) × Nat)
  sequence_memo : List ((Nat × Nat) × Nat)
  star_memo : List (Nat × Nat)
  complement_memo : List (Nat × Nat)
  branch_memo : List ((Nat × Nat × Nat × Nat × Nat) × Nat)
deriving DecidableEq

/-- `SPPstore::get`: panics (here `none`) when the handle is a leaf
(`spp < 2`) or `spp - 2` is out of bounds; otherwise returns the stored
node.  The Rust function takes `&self`, so it never modifies the store. -/
def SPPstore.get (s : SPPstore) (spp : Nat) : Option SPPnode :=
  if spp < 2 then none
  else s.nodes[spp - 2]?

/-- `SPPstore::mk`: hash-consing constructor.  Returns the existing handle
when the node content is already in the `hc` table, otherwise appends the
node and returns the fresh handle `nodes.len() + 2`. -/
def SPPstore.mk (s : SPPstore) (x00 x01 x10 x11 : Nat) : SPPstore × Nat :=
  let node : SPPnode := ⟨x00, x01, x10, x11⟩
  match alookup s.hc node with
  | some spp => (s, spp)
  | none =>
    let spp : Nat := s.nodes.length + 2
    ({ s with nodes := s.nodes ++ [node], hc := (node, spp) :: s.hc }, spp)

/-- The loop of `SPPstore::zero` and `SPPstore::top`: iterate
`spp = mk(spp, spp, spp, spp)` a number of times. -/
def mkIter : SPPstore → Nat → Nat → SPPstore × Nat
  | s, spp, 0 => (s, spp)
  | s, spp, c + 1 =>
    let p := s.mk spp spp spp spp
    mkIter p.1 p.2 c

/-- The loop of `SPPstore::one`: iterate
`spp_one = mk(spp_one, spp_zero, spp_zero, spp_one)` followed by
`spp_zero = mk(spp_zero, spp_zero, spp_zero, spp_zero)`. -/
def oneIter : SPPstore → Nat → Nat → Nat → SPPstore × Nat
  | s, spp_one, _, 0 => (s, spp_one)
  | s, spp_one, spp_zero, c + 1 =>
    let p1 := s.mk spp_one spp_zero spp_zero spp_one
    let p2 := p1.1.mk spp_zero spp_zero spp_zero spp_zero
    oneIter p2.1 p1.2 p2.2 c

/-- `SPPstore::new`: pre-seeds every memo table with the leaf base cases,
then builds and caches the depth-`num_vars` `zero`, `one` and `top`
diagrams, in that order. -/
def SPPstore.new (num_vars : Nat) : SPPstore :=
  let s0 : SPPstore := {
    num_vars := num_vars
    nodes := []
    hc := []
    zero := 0
    one := 0
    top := 0
    union_memo := [((0, 0), 0), ((0, 1), 1), ((1, 0), 1), ((1, 1), 1)]
    intersect_memo := [((0, 0), 0), ((0, 1), 0), ((1, 0), 0), ((1, 1), 1)]
    xor_memo := [((0, 0), 0), ((0, 1), 1), ((1, 0), 1), ((1, 1), 0)]
    difference_memo := [((0, 0), 0), ((0, 1), 0), ((1, 0), 1), ((1, 1), 0)]
    sequence_memo := [((0, 0), 0), ((0, 1), 0), ((1, 0), 0), ((1, 1), 1)]
    star_memo := [(0, 1), (1, 1)]
    complement_memo := [(0, 1), (1, 0)]
    branch_memo := [] }
  let pz := mkIter s0 0 num_vars
  let s1 := { pz.1 with zero := pz.2 }
  let po := oneIter s1 1 0 num_vars
  let s2 := { po.1 with one := po.2 }
  let pt := mkIter s2 1 num_vars
  { pt.1 with top := pt.2 }

/-- `SPPstore::union`, with a fuel argument making the non-structural
recursion of the Rust function total; `none` models fuel exhaustion or a
panic in `get`.  Memo lookup first; on a miss both handles must be
internal nodes (the leaf cases are pre-seeded), recurse componentwise,
hash-cons the result and record it in the memo. -/
def unionF : Nat → SPPstore → Nat → Nat → Option (SPPstore × Nat)
  | 0, _, _, _ => none
  | fuel + 1, s, a, b =>
    match alookup s.union_memo (a, b) with
    | some r => some (s, r)
    | none =>
      match s.get a, s.get b with
      | some an, some bn =>
        match unionF fuel s an.x00 bn.x00 with
        | none => none
        | some (s1, r00) =>
          match unionF fuel s1 an.x01 bn.x01 with
          | none => none
          | some (s2, r01) =>
            match unionF fuel s2 an.x10 bn.x10 with
            | none => none
            | some (s3, r10) =>
              match unionF fuel s3 an.x11 bn.x11 with
              | none => none
              | some (s4, r11) =>
                let p := s4.mk r00 r01 r10 r11
                some ({ p.1 with union_memo := ((a, b), p.2) :: p.1.union_memo }, p.2)
      | _, _ => none

/-- `SPPstore::intersect` (same shape as `unionF`). -/
def intersectF : Nat → SPPstore → Nat → Nat → Option (SPPstore × Nat)
  | 0, _, _, _ => none
  | fuel + 1, s, a, b =>
    match alookup s.intersect_memo (a, b) with
    | some r => some (s, r)
    | none =>
      match s.get a, s.get b with
      | some an, some bn =>
        match intersectF fuel s an.x00 bn.x00 with
        | none => none
        | some (s1, r00) =>
          match intersectF fuel s1 an.x01 bn.x01 with
          | none => none
          | some (s2, r01) =>
            match intersectF fuel s2 an.x10 bn.x10 with
            | none => none
            | some (s3, r10) =>
              match intersectF fuel s3 an.x11 bn.x11 with
              | none => none
              | some (s4, r11) =>
                let p := s4.mk r00 r01 r10 r11
                some ({ p.1 with intersect_memo := ((a, b), p.2) :: p.1.intersect_memo }, p.2)
      | _, _ => none

/-- `SPPstore::xor` (same shape as `unionF`). -/
def xorF : Nat → SPPstore → Nat → Nat → Option (SPPstore × Nat)
  | 0, _, _, _ => none
  | fuel + 1, s, a, b =>
    match alookup s.xor_memo (a, b) with
    | some r => some (s, r)
    | none =>
      match s.get a, s.get b with
      | some an, some bn =>
        match xorF fuel s an.x00 bn.x00 with
        | none => none
        | some (s1, r00) =>
          match xorF fuel s1 an.x01 bn.x01 with
          | none => none
          | some (s2, r01) =>
            match xorF fuel s2 an.x10 bn.x10 with
            | none => none
            | some (s3, r10) =>
              match xorF fuel s3 an.x11 bn.x11 with
              | none => none
              | some (s4, r11) =>
                let p := s4.mk r00 r01 r10 r11
                some ({ p.1 with xor_memo := ((a, b), p.2) :: p.1.xor_memo }, p.2)
      | _, _ => none

/-- `SPPstore::difference` (same shape as `unionF`). -/
def differenceF : Nat → SPPstore → Nat → Nat → Option (SPPstore × Nat)
  | 0, _, _, _ => none
  | fuel + 1, s, a, b =>
    match alookup s.difference_memo (a, b) with
    | some r => some (s, r)
    | none =>
      match s.get a, s.get b with
      | some an, some bn =>
        match differenceF fuel s an.x00 bn.x00 with
        | none => none
        | some (s1, r00) =>
          match differenceF fuel s1 an.x01 bn.x01 with
          | none => none
          | some (s2, r01) =>
            match differenceF fuel s2 an.x10 bn.x10 with
            | none => none
            | some (s3, r10) =>
              match differenceF fuel s3 an.x11 bn.x11 with
              | none => none
              | some (s4, r11) =>
                let p := s4.mk r00 r01 r10 r11
                some ({ p.1 with difference_memo := ((a, b), p.2) :: p.1.difference_memo }, p.2)
      | _, _ => none

/-- `SPPstore::complement` (unary analogue of `unionF`). -/
def complementF : Nat → SPPstore → Nat → Option (SPPstore × Nat)
  | 0, _, _ => none
  | fuel + 1, s, a =>
    match alookup s.complement_memo a with
    | some r => some (s, r)
    | none =>
      match s.get a with
      | some an =>
        match complementF fuel s an.x00 with
        | none => none
        | some (s1, r00) =>
          match complementF fuel s1 an.x01 with
          | none => none
          | some (s2, r01) =>
            match complementF fuel s2 an.x10 with
            | none => none
            | some (s3, r10) =>
              match complementF fuel s3 an.x11 with
              | none => none
              | some (s4, r11) =>
                let p := s4.mk r00 r01 r10 r11
                some ({ p.1 with complement_memo := (a, p.2) :: p.1.complement_memo }, p.2)
      | none => none

/-- `SPPstore::sequence`: 2x2 block-matrix multiplication; the eight
block compositions and the four unions are performed in exactly the
order of the Rust source. -/
def sequenceF : Nat → SPPstore → Nat → Nat → Option (SPPstore × Nat)
  | 0, _, _, _ => none
  | fuel + 1, s, a, b =>
    match alookup s.sequence_memo (a, b) with
    | some r => some (s, r)
    | none =>
      match s.get a, s.get b with
      | some an, some bn =>
        match sequenceF fuel s an.x00 bn.x00 with
        | none => none
        | some (s1, a00b00) =>
        match sequenceF fuel s1 an.x01 bn.x10 with
        | none => none
        | some (s2, a01b10) =>
        match sequenceF fuel s2 an.x00 bn.x01 with
        | none => none
        | some (s3, a00b01) =>
        match sequenceF fuel s3 an.x01 bn.x11 with
        | none => none
        | some (s4, a01b11) =>
        match sequenceF fuel s4 an.x10 bn.x00 with
        | none => none
        | some (s5, a10b00) =>
        match sequenceF fuel s5 an.x11 bn.x10 with
        | none => none
        | some (s6, a11b10) =>
        match sequenceF fuel s6 an.x10 bn.x01 with
        | none => none
        | some (s7, a10b01) =>
        match sequenceF fuel s7 an.x11 bn.x11 with
        | none => none
        | some (s8, a11b11) =>
        match unionF fuel s8 a00b00 a01b10 with
        | none => none
        | some (s9, x00) =>
        match unionF fuel s9 a00b01 a01b11 with
        | none => none
        | some (s10, x01) =>
        match unionF fuel s10 a10b00 a11b10 with
        | none => none
        | some (s11, x10) =>
        match unionF fuel s11 a10b01 a11b11 with
        | none => none
        | some (s12, x11) =>
          let p := s12.mk x00 x01 x10 x11
          some ({ p.1 with sequence_memo := ((a, b), p.2) :: p.1.sequence_memo }, p.2)
      | _, _ => none

/-- `SPPstore::star`: the 2x2 block star formula, sub-computations in
exactly the order of the Rust source. -/
def starF : Nat → SPPstore → Nat → Option (SPPstore × Nat)
  | 0, _, _ => none
  | fuel + 1, s, x =>
    match alookup s.star_memo x with
    | some r => some (s, r)
    | none =>
      match s.get x with
      | some xn =>
        match starF fuel s xn.x11 with
        | none => none
        | some (s1, d_star) =>
        match sequenceF fuel s1 xn.x01 d_star with
        | none => none
        | some (s2, bd_star) =>
        match sequenceF fuel s2 bd_star xn.x10 with
        | none => none
        | some (s3, bd_star_c) =>
        match unionF fuel s3 xn.x00 bd_star_c with
        | none => none
        | some (s4, a_plus_bdc) =>
        match starF fuel s4 a_plus_bdc with
        | none => none
        | some (s5, res_a) =>
        match sequenceF fuel s5 res_a bd_star with
        | none => none
        | some (s6, res_a_bd_star) =>
        match sequenceF fuel s6 xn.x10 res_a with
        | none => none
        | some (s7, c_res_a) =>
        match sequenceF fuel s7 d_star c_res_a with
        | none => none
        | some (s8, d_star_c_res_a) =>
        match sequenceF fuel s8 d_star_c_res_a bd_star with
        | none => none
        | some (s9, res_c_bd_star) =>
        match unionF fuel s9 d_star res_c_bd_star with
        | none => none
        | some (s10, res_d) =>
          let p := s10.mk res_a res_a_bd_star d_star_c_res_a res_d
          some ({ p.1 with star_memo := (x, p.2) :: p.1.star_memo }, p.2)
      | none => none

/-- `SPPstore::branch_helper`: quaternary mux.  At `var = 0` each result
child is the matching quadrant of the corresponding argument; at
`var > 0` it recurses componentwise via `SPPstore::branch`, whose
`var < num_vars` assertion is modelled by the guards. -/
def branchH : Nat → SPPstore → Nat → Nat → Nat → Nat → Option (SPPstore × Nat)
  | 0, s, x00, x01, x10, x11 =>
    match alookup s.branch_memo (0, x00, x01, x10, x11) with
    | some r => some (s, r)
    | none =>
      match s.get x00, s.get x01, s.get x10, s.get x11 with
      | some n00, some n01, some n10, some n11 =>
        let p := s.mk n00.x00 n01.x01 n10.x10 n11.x11
        some ({ p.1 with branch_memo := ((0, x00, x01, x10, x11), p.2) :: p.1.branch_memo }, p.2)
      | _, _, _, _ => none
  | v + 1, s, x00, x01, x10, x11 =>
    match alookup s.branch_memo (v + 1, x00, x01, x10, x11) with
    | some r => some (s, r)
    | none =>
      match s.get x00, s.get x01, s.get x10, s.get x11 with
      | some n00, some n01, some n10, some n11 =>
        match (if v < s.num_vars then branchH v s n00.x00 n01.x00 n10.x00 n11.x00 else none) with
        | none => none
        | some (s1, c00) =>
        match (if v < s1.num_vars then branchH v s1 n00.x01 n01.x01 n10.x01 n11.x01 else none) with
        | none => none
        | some (s2, c01) =>
        match (if v < s2.num_vars then branchH v s2 n00.x10 n01.x10 n10.x10 n11.x10 else none) with
        | none => none
        | some (s3, c10) =>
        match (if v < s3.num_vars then branchH v s3 n00.x11 n01.x11 n10.x11 n11.x11 else none) with
        | none => none
        | some (s4, c11) =>
          let p := s4.mk c00 c01 c10 c11
          some ({ p.1 with branch_memo := ((v + 1, x00, x01, x10, x11), p.2) :: p.1.branch_memo }, p.2)
      | _, _, _, _ => none

/-- `SPPstore::branch`: asserts `var < num_vars` then calls the helper. -/
def SPPstore.branch (s : SPPstore) (var : Nat) (x00 x01 x10 x11 : Nat) :
    Option (SPPstore × Nat) :=
  if var < s.num_vars then branchH var s x00 x01 x10 x11 else none

/-- `SPPstore::ifelse`. -/
def SPPstore.ifelse (s : SPPstore) (var : Nat) (thenB elseB : Nat) :
    Option (SPPstore × Nat) :=
  s.branch var thenB thenB elseB elseB

/-- `SPPstore::test`. -/
def SPPstore.test (s : SPPstore) (var : Nat) (value : Bool) :
    Option (SPPstore × Nat) :=
  if value then s.ifelse var s.one s.zero else s.ifelse var s.zero s.one

/-- `SPPstore::assign`. -/
def SPPstore.assign (s : SPPstore) (var : Nat) (value : Bool) :
    Option (SPPstore × Nat) :=
  if value then s.branch var s.zero s.one s.zero s.one
  else s.branch var s.one s.zero s.one s.zero

/-- Read a store handle back as a complete depth-`n` diagram: handles `0`
and `1` are the two leaves (only at depth `0`); an internal handle must
be in range and all four children must themselves read back at depth
`n - 1`.  `toTree nodes n h = some t` is the formal rendering of
"handle `h` denotes a complete diagram of depth `n`". -/
def toTree (nodes : List SPPnode) : (n : Nat) → Nat → Option (QTree n)
  | 0, h =>
    if h = 0 then some (.leaf false)
    else if h = 1 then some (.leaf true) else none
  | n + 1, h =>
    if h < 2 then none
    else
      match nodes[h - 2]? with
      | none => none
      | some nd =>
        match toTree nodes n nd.x00, toTree nodes n nd.x01,
              toTree nodes n nd.x10, toTree nodes n nd.x11 with
        | some t00, some t01, some t10, some t11 => some (.node t00 t01 t10 t11)
        | _, _, _, _ => none

/-- Packets are `num_vars`-bit vectors, one boolean per field. -/
abbrev Pkt (n : Nat) := Fin n → Bool

/-- The relation on packets denoted by a complete depth-`n` diagram: at
each level the child quadrant is selected by the current input bit and
output bit, per the `xvw` convention of the spec (input value `v`,
output value `w`). -/
def evalT : (n : Nat) → QTree n → Pkt n → Pkt n → Bool
  | 0, .leaf b, _, _ => b
  | n + 1, .node a00 a01 a10 a11, p, q =>
    evalT n
      (match p 0, q 0 with
       | false, false => a00
       | false, true => a01
       | true, false => a10
       | true, true => a11)
      (Fin.tail p) (Fin.tail q)

/-- Propositional form of `evalT`. -/
def evalR (n : Nat) (t : QTree n) (p q : Pkt n) : Prop :=
  evalT n t p q = true

/-- Relational composition (diagrammatic order). -/
def relComp {α : Type} (R S : α → α → Prop) : α → α → Prop :=
  fun a c => ∃ b, R a b ∧ S b c

/-- A relation on `Bool × α` assembled from its four blocks, indexed by
the boolean components of the endpoints (the 2x2 matrix view of an SPP
node: `false` is bit value 0). -/
def blockRel {α : Type} (A B C D : α → α → Prop) : Bool × α → Bool × α → Prop :=
  fun x y =>
    match x.1, y.1 with
    | false, false => A x.2 y.2
    | false, true => B x.2 y.2
    | true, false => C x.2 y.2
    | true, true => D x.2 y.2

/-- Every stored node's children are handles created strictly before it,
so appending nodes never changes how existing handles read back. -/
def NodesBounded (nodes : List SPPnode) : Prop :=
  ∀ i nd, nodes[i]? = some nd →
    nd.x00 < i + 2 ∧ nd.x01 < i + 2 ∧ nd.x10 < i + 2 ∧ nd.x11 < i + 2

/-- Coherence of a binary-operation memo entry `((a, b), r)`: all three
handles are in range, and whenever `a` and `b` denote depth-`n` diagrams
the entry's result denotes the `f`-combination of those diagrams. -/
def memoOk2 (nodes : List SPPnode) (f : (n : Nat) → QTree n → QTree n → QTree n)
    (a b r : Nat) : Prop :=
  a < nodes.length + 2 ∧ b < nodes.length + 2 ∧ r < nodes.length + 2 ∧
  ∀ n ta tb, toTree nodes n a = some ta → toTree nodes n b = some tb →
    toTree nodes n r = some (f n ta tb)

/-- Coherence of a unary-operation memo entry. -/
def memoOk1 (nodes : List SPPnode) (f : (n : Nat) → QTree n → QTree n)
    (a r : Nat) : Prop :=
  a < nodes.length + 2 ∧ r < nodes.length + 2 ∧
  ∀ n ta, toTree nodes n a = some ta → toTree nodes n r = some (f n ta)

/-- Store well-formedness.  `bounded` says every stored node's children
were created before it (so appends never change the reading of existing
handles); `hc_iff` says the hash-consing table is exactly the inverse of
the node vector; the `*_coh` fields say every memo entry is semantically
correct for its operation, and the `*_leaf` fields say the pre-seeded
leaf base cases are always present. -/
structure WF (s : SPPstore) : Prop where
  bounded : NodesBounded s.nodes
  hc_iff : ∀ nd h, alookup s.hc nd = some h ↔ (2 ≤ h ∧ s.nodes[h - 2]? = some nd)
  union_coh : ∀ a b r, alookup s.union_memo (a, b) = some r → memoOk2 s.nodes tunion a b r
  union_leaf : ∀ a b, a < 2 → b < 2 → ∃ r, alookup s.union_memo (a, b) = some r
  inter_coh : ∀ a b r, alookup s.intersect_memo (a, b) = some r → memoOk2 s.nodes tinter a b r
  inter_leaf : ∀ a b, a < 2 → b < 2 → ∃ r, alookup s.intersect_memo (a, b) = some r
  xor_coh : ∀ a b r, alookup s.xor_memo (a, b) = some r → memoOk2 s.nodes txor a b r
  xor_leaf : ∀ a b, a < 2 → b < 2 → ∃ r, alookup s.xor_memo (a, b) = some r
  diff_coh : ∀ a b r, alookup s.difference_memo (a, b) = some r → memoOk2 s.nodes tdiff a b r
  diff_leaf : ∀ a b, a < 2 → b < 2 → ∃ r, alookup s.difference_memo (a, b) = some r
  seq_coh : ∀ a b r, alookup s.sequence_memo (a, b) = some r → memoOk2 s.nodes tseq a b r
  seq_leaf : ∀ a b, a < 2 → b < 2 → ∃ r, alookup s.sequence_memo (a, b) = some r
  star_coh : ∀ a r, alookup s.star_memo a = some r → memoOk1 s.nodes tstar a r
  star_leaf : ∀ a, a < 2 → ∃ r, alookup s.star_memo a = some r
  compl_coh : ∀ a r, alookup s.complement_memo a = some r → memoOk1 s.nodes tcompl a r
  compl_leaf : ∀ a, a < 2 → ∃ r, alookup s.complement_memo a = some r

/-- One store state extends another: nodes are only appended and the
configuration and cached `zero`/`one`/`top` handles are unchanged. -/
structure Extends (s s' : SPPstore) : Prop where
  num_vars_eq : s'.num_vars = s.num_vars
  nodes_ext : ∃ ext, s'.nodes = s.nodes ++ ext
  zero_eq : s'.zero = s.zero
  one_eq : s'.one = s.one
  top_eq : s'.top = s.top

/-- A good store: well-formed, and its cached `one` handle denotes the
depth-`num_vars` identity relation (which `SPPstore::new` establishes). -/
def Good (s : SPPstore) : Prop :=
  WF s ∧ toTree s.nodes s.num_vars s.one = some (tone s.num_vars)

/-- The relation `{(p, p[var ← v])}` claimed for `assign`: the output
packet equals the input packet except that bit `var` is overwritten
with `v`. -/
def assignRel (n : Nat) (var : Nat) (v : Bool) (p q : Pkt n) : Prop :=
  ∀ i : Fin n, q i = if i.val = var then v else p i

/-- The expression AST of the repository (`Expr` in src/expr.rs, not under
src/ here): the sixteen variants are exactly those matched exhaustively,
with no wildcard, by `shrink_exp` in src/fuzz.rs. -/
inductive Exp : Type where
  | Zero : Exp
  | One : Exp
  | Top : Exp
  | Dup : Exp
  | End : Exp
  | Assign : Nat → Bool → Exp
  | Test : Nat → Bool → Exp
  | Union : Exp → Exp → Exp
  | Intersect : Exp → Exp → Exp
  | Xor : Exp → Exp → Exp
  | Difference : Exp → Exp → Exp
  | Sequence : Exp → Exp → Exp
  | Star : Exp → Exp
  | Complement : Exp → Exp
  | LtlNext : Exp → Exp
  | LtlUntil : Exp → Exp → Exp
deriving DecidableEq

/-- Modelled from the spec: the smart constructors of src/expr.rs (not
under src/) are total and perform no algebraic simplification, so the
ones with a dedicated AST variant are that variant's constructor. -/
def Expr.zero : Exp := .Zero

/-- Modelled from the spec (see `Expr.zero`). -/
def Expr.one : Exp := .One

/-- Modelled from the spec (see `Expr.zero`). -/
def Expr.top : Exp := .Top

/-- Modelled from the spec (see `Expr.zero`). -/
def Expr.dup : Exp := .Dup

/-- Modelled from the spec (see `Expr.zero`): the `End` history predicate. -/
def Expr.end' : Exp := .End

/-- Modelled from the spec (see `Expr.zero`). -/
def Expr.assign (f : Nat) (v : Bool) : Exp := .Assign f v

/-- Modelled from the spec (see `Expr.zero`). -/
def Expr.test (f : Nat) (v : Bool) : Exp := .Test f v

/-- Modelled from the spec (see `Expr.zero`). -/
def Expr.union (a b : Exp) : Exp := .Union a b

/-- Modelled from the spec (see `Expr.zero`). -/
def Expr.intersect (a b : Exp) : Exp := .Intersect a b

/-- Modelled from the spec (see `Expr.zero`). -/
def Expr.xor (a b : Exp) : Exp := .Xor a b

/-- Modelled from the spec (see `Expr.zero`). -/
def Expr.difference (a b : Exp) : Exp := .Difference a b

/-- Modelled from the spec (see `Expr.zero`). -/
def Expr.sequence (a b : Exp) : Exp := .Sequence a b

/-- Modelled from the spec (see `Expr.zero`). -/
def Expr.star (a : Exp) : Exp := .Star a

/-- Modelled from the spec (see `Expr.zero`). -/
def Expr.complement (a : Exp) : Exp := .Complement a

/-- Modelled from the spec (see `Expr.zero`). -/
def Expr.ltl_next (a : Exp) : Exp := .LtlNext a

/-- Modelled from the spec (see `Expr.zero`). -/
def Expr.ltl_until (a b : Exp) : Exp := .LtlUntil a b

/-- Modelled from the spec: `Finally` has no AST variant (it is absent
from `shrink_exp`'s exhaustive match), so the smart constructor encodes
the standard fixed point `F e = 1 U e`, consistent with the expansion
`F e = e + X (F e)` in the spec.  No claim in this development depends
on the particular encoding chosen for the derived LTL constructors. -/
def Expr.ltl_finally (e : Exp) : Exp := .LtlUntil .One e

/-- Modelled from the spec: `G e = ¬ F ¬ e` (spec identity `¬F e = G ¬e`). -/
def Expr.ltl_globally (e : Exp) : Exp :=
  .Complement (Expr.ltl_finally (.Complement e))

/-- Modelled from the spec: weak next `X' e = End + X e` (from the spec
identity `¬X e = End + X ¬e`). -/
def Expr.ltl_weak_next (e : Exp) : Exp := .Union .End (.LtlNext e)

/-- Modelled from the spec: `a R b = ¬(¬a U ¬b)` (spec identity). -/
def Expr.ltl_release (a b : Exp) : Exp :=
  .Complement (.LtlUntil (.Complement a) (.Complement b))

/-- Modelled from the spec: weak until `a W b = (a U b) + G a`. -/
def Expr.ltl_weak_until (a b : Exp) : Exp :=
  .Union (.LtlUntil a b) (Expr.ltl_globally a)

/-- Modelled from the spec: `a S b = (a R b) & F b` (spec identity). -/
def Expr.ltl_strong_release (a b : Exp) : Exp :=
  .Intersect (Expr.ltl_release a b) (Expr.ltl_finally b)

/-- Result of a fuzzer computation consuming an explicit stream of random
draws: success with the unconsumed rest of the stream, a panic
(`assert!`/`panic!`/`unreachable!` in the source), or exhaustion of the
finite draw stream supplied to the model. -/
inductive RRes (α : Type) where
  | ok : α → List Nat → RRes α
  | panic : RRes α
  | exhausted : RRes α
deriving DecidableEq

/-- Sequencing of draw-consuming computations. -/
def RRes.bind {α β : Type} : RRes α → (α → List Nat → RRes β) → RRes β
  | .ok a rest, f => f a rest
  | .panic, _ => .panic
  | .exhausted, _ => .exhausted

/-- Model of `rand::random_range(0..bound)`: consume one draw and reduce
it modulo the bound (callers never pass bound `0`). -/
def drawNat (bound : Nat) : List Nat → RRes Nat
  | [] => .exhausted
  | d :: rest => .ok (d % bound) rest

/-- Model of `rand::random::<bool>()`: consume one draw; odd means `true`. -/
def drawBool : List Nat → RRes Bool
  | [] => .exhausted
  | d :: rest => .ok (d % 2 == 1) rest

/-- `gen_random_field` (src/fuzz.rs): panics when `k == 0`, otherwise a
uniform draw in `0..k`. -/
def gen_random_field (k : Nat) (draws : List Nat) : RRes Nat :=
  if k = 0 then .panic else drawNat k draws

/-- `gen_random_value` (src/fuzz.rs). -/
def gen_random_value (draws : List Nat) : RRes Bool :=
  drawBool draws

/-- `gen_random_expr` (src/fuzz.rs).  At depth 0 the terminal is drawn
from `0..5`; the `5 => Test` arm of the source match is kept although the
draw can never produce it; the `_ => unreachable!()` arms are `.panic`. -/
def gen_random_expr (num_fields : Nat) : Nat → List Nat → RRes Exp
  | 0, draws =>
    RRes.bind (drawNat 5 draws) fun i rest =>
      match i with
      | 0 => .ok Expr.zero rest
      | 1 => .ok Expr.one rest
      | 2 => .ok Expr.top rest
      | 3 => .ok Expr.dup rest
      | 4 =>
        RRes.bind (gen_random_field num_fields rest) fun f r1 =>
        RRes.bind (gen_random_value r1) fun v r2 =>
          .ok (Expr.assign f v) r2
      | 5 =>
        RRes.bind (gen_random_field num_fields rest) fun f r1 =>
        RRes.bind (gen_random_value r1) fun v r2 =>
          .ok (Expr.test f v) r2
      | _ => .panic
  | max_depth + 1, draws =>
    RRes.bind (drawNat 6 draws) fun i rest =>
      match i with
      | 0 => gen_random_expr num_fields max_depth rest
      | 1 =>
        RRes.bind (gen_random_expr num_fields max_depth rest) fun e r1 =>
          .ok (Expr.star e) r1
      | 2 =>
        RRes.bind (gen_random_expr num_fields max_depth rest) fun e r1 =>
          .ok (Expr.complement e) r1
      | 3 =>
        RRes.bind (gen_random_expr num_fields max_depth rest) fun e1 r1 =>
        RRes.bind (gen_random_expr num_fields max_depth r1) fun e2 r2 =>
          .ok (Expr.union e1 e2) r2
      | 4 =>
        RRes.bind (gen_random_expr num_fields max_depth rest) fun e1 r1 =>
        RRes.bind (gen_random_expr num_fields max_depth r1) fun e2 r2 =>
          .ok (Expr.sequence e1 e2) r2
      | 5 =>
        RRes.bind (gen_random_expr num_fields max_depth rest) fun e1 r1 =>
        RRes.bind (gen_random_expr num_fields max_depth r1) fun e2 r2 =>
          .ok (Expr.intersect e1 e2) r2
      | _ => .panic

/-- The `while f1 == f2` redraw loop of `get_distinct_fields`. -/
def gdfLoop (k f1 : Nat) : List Nat → RRes (Nat × Nat)
  | [] => .exhausted
  | d :: rest => if f1 = d % k then gdfLoop k f1 rest else .ok (f1, d % k) rest

/-- `get_distinct_fields` (src/fuzz.rs): panics when `k < 2`, otherwise
draws `f1` and redraws `f2` until distinct. -/
def get_distinct_fields (k : Nat) (draws : List Nat) : RRes (Nat × Nat) :=
  if k < 2 then .panic
  else
    match draws with
    | [] => .exhausted
    | d :: rest => gdfLoop k (d % k) rest

/-- `flip_equality_rand` (src/fuzz.rs): swap the sides of an equality
with probability one half. -/
def flip_equality_rand (lhs rhs : Exp) (draws : List Nat) : RRes (Exp × Exp) :=
  RRes.bind (drawBool draws) fun b rest =>
    if b then .ok (rhs, lhs) rest else .ok (lhs, rhs) rest

/-- The PA-axiom bucket of `genax` (src/fuzz.rs, the `0 =>` arm of the
outer match): eight packet axioms, each returning its instantiated
`(lhs, rhs)` pair directly. -/
def genaxPA (k : Nat) (draws : List Nat) : RRes (Exp × Exp) :=
  RRes.bind (drawNat 8 draws) fun c rest =>
    match c with
    | 0 =>
      RRes.bind (get_distinct_fields k rest) fun fs r1 =>
      RRes.bind (gen_random_value r1) fun v r2 =>
      RRes.bind (gen_random_value r2) fun v' r3 =>
        .ok (Expr.sequence (Expr.assign fs.1 v) (Expr.assign fs.2 v'),
             Expr.sequence (Expr.assign fs.2 v') (Expr.assign fs.1 v)) r3
    | 1 =>
      RRes.bind (get_distinct_fields k rest) fun fs r1 =>
      RRes.bind (gen_random_value r1) fun v r2 =>
      RRes.bind (gen_random_value r2) fun v' r3 =>
        .ok (Expr.sequence (Expr.assign fs.1 v) (Expr.test fs.2 v'),
             Expr.sequence (Expr.test fs.2 v') (Expr.assign fs.1 v)) r3
    | 2 =>
      RRes.bind (gen_random_field k rest) fun xi r1 =>
      RRes.bind (gen_random_value r1) fun v r2 =>
        .ok (Expr.sequence Expr.dup (Expr.test xi v),
             Expr.sequence (Expr.test xi v) Expr.dup) r2
    | 3 =>
      RRes.bind (gen_random_field k rest) fun xi r1 =>
      RRes.bind (gen_random_value r1) fun v r2 =>
        .ok (Expr.sequence (Expr.assign xi v) (Expr.test xi v),
             Expr.assign xi v) r2
    | 4 =>
      RRes.bind (gen_random_field k rest) fun xi r1 =>
      RRes.bind (gen_random_value r1) fun v r2 =>
        .ok (Expr.sequence (Expr.test xi v) (Expr.assign xi v),
             Expr.test xi v) r2
    | 5 =>
      RRes.bind (gen_random_field k rest) fun xi r1 =>
      RRes.bind (gen_random_value r1) fun v r2 =>
      RRes.bind (gen_random_value r2) fun v' r3 =>
        .ok (Expr.sequence (Expr.assign xi v) (Expr.assign xi v'),
             Expr.assign xi v') r3
    | 6 =>
      RRes.bind (gen_random_field k rest) fun xi r1 =>
        .ok (Expr.sequence (Expr.test xi false) (Expr.test xi true),
             Expr.zero) r1
    | 7 =>
      RRes.bind (gen_random_field k rest) fun xi r1 =>
        .ok (Expr.union (Expr.test xi false) (Expr.test xi true),
             Expr.one) r1
    | _ => .panic

/-- The one-recursive-pair bucket of `genax` (the `1 =>` arm): seventeen
axioms, each combined pair passed through `flip_equality_rand`. -/
def genaxBucket1 (lhs rhs : Exp) (draws : List Nat) : RRes (Exp × Exp) :=
  RRes.bind (drawNat 17 draws) fun c rest =>
    match c with
    | 0 => flip_equality_rand (Expr.union lhs Expr.zero) rhs rest
    | 1 => flip_equality_rand (Expr.union lhs lhs) rhs rest
    | 2 => flip_equality_rand (Expr.sequence Expr.one lhs) rhs rest
    | 3 => flip_equality_rand (Expr.sequence lhs Expr.one) rhs rest
    | 4 => flip_equality_rand (Expr.sequence Expr.zero lhs) Expr.zero rest
    | 5 => flip_equality_rand (Expr.sequence lhs Expr.zero) Expr.zero rest
    | 6 => flip_equality_rand
        (Expr.union Expr.one (Expr.sequence lhs (Expr.star lhs))) (Expr.star rhs) rest
    | 7 => flip_equality_rand
        (Expr.union Expr.one (Expr.sequence (Expr.star lhs) lhs)) (Expr.star rhs) rest
    | 8 => flip_equality_rand (Expr.union lhs Expr.top) Expr.top rest
    | 9 => flip_equality_rand (Expr.union lhs (Expr.complement rhs)) Expr.top rest
    | 10 => flip_equality_rand (Expr.intersect lhs (Expr.complement rhs)) Expr.zero rest
    | 11 => flip_equality_rand (Expr.intersect lhs lhs) rhs rest
    | 12 => flip_equality_rand
        (Expr.complement (Expr.ltl_finally lhs))
        (Expr.ltl_globally (Expr.complement rhs)) rest
    | 13 => flip_equality_rand
        (Expr.complement (Expr.ltl_globally lhs))
        (Expr.ltl_finally (Expr.complement rhs)) rest
    | 14 => flip_equality_rand
        (Expr.complement (Expr.ltl_next lhs))
        (Expr.union Expr.end' (Expr.ltl_next (Expr.complement rhs))) rest
    | 15 => flip_equality_rand
        (Expr.ltl_finally lhs)
        (Expr.union rhs (Expr.ltl_next (Expr.ltl_finally rhs))) rest
    | 16 => flip_equality_rand
        (Expr.ltl_globally lhs)
        (Expr.intersect rhs
          (Expr.union Expr.end' (Expr.ltl_next (Expr.ltl_globally rhs)))) rest
    | _ => .panic

/-- The two-recursive-pair bucket of `genax` (the `2 =>` arm). -/
def genaxBucket2 (p1l p1r p2l p2r : Exp) (draws : List Nat) : RRes (Exp × Exp) :=
  RRes.bind (drawNat 10 draws) fun c rest =>
    match c with
    | 0 => flip_equality_rand (Expr.union p1l p2l) (Expr.union p2r p1r) rest
    | 1 => flip_equality_rand (Expr.intersect p1l p2l) (Expr.intersect p2r p1r) rest
    | 2 => flip_equality_rand
        (Expr.ltl_next (Expr.intersect p1l p2l))
        (Expr.intersect (Expr.ltl_next p1r) (Expr.ltl_next p2r)) rest
    | 3 => flip_equality_rand
        (Expr.ltl_next (Expr.union p1l p2l))
        (Expr.union (Expr.ltl_next p1r) (Expr.ltl_next p2r)) rest
    | 4 => flip_equality_rand
        (Expr.ltl_until p1l p2l)
        (Expr.union p2r
          (Expr.intersect p1r (Expr.ltl_next (Expr.ltl_until p1r p2r)))) rest
    | 5 => flip_equality_rand
        (Expr.ltl_weak_until p1l p2l)
        (Expr.union p2r
          (Expr.intersect p1r (Expr.ltl_weak_next (Expr.ltl_weak_until p1r p2r)))) rest
    | 6 => flip_equality_rand
        (Expr.ltl_release p1l p2l)
        (Expr.complement
          (Expr.ltl_until (Expr.complement p1r) (Expr.complement p2r))) rest
    | 7 => flip_equality_rand
        (Expr.ltl_release p1l p2l)
        (Expr.intersect p2r
          (Expr.union p1r (Expr.ltl_weak_next (Expr.ltl_release p1r p2r)))) rest
    | 8 => flip_equality_rand
        (Expr.complement (Expr.ltl_release p1l p2l))
        (Expr.ltl_until (Expr.complement p1r) (Expr.complement p2r)) rest
    | 9 => flip_equality_rand
        (Expr.ltl_strong_release p1l p2l)
        (Expr.intersect (Expr.ltl_release p1r p2r) (Expr.ltl_finally p2r)) rest
    | _ => .panic

/-- The three-recursive-pair bucket of `genax` (the `3 =>` arm). -/
def genaxBucket3 (p1l p1r p2l p2r p3l p3r : Exp) (draws : List Nat) : RRes (Exp × Exp) :=
  RRes.bind (drawNat 5 draws) fun c rest =>
    match c with
    | 0 => flip_equality_rand
        (Expr.union p1l (Expr.union p2l p3l))
        (Expr.union (Expr.union p1r p2r) p3r) rest
    | 1 => flip_equality_rand
        (Expr.sequence p1l (Expr.sequence p2l p3l))
        (Expr.sequence (Expr.sequence p1r p2r) p3r) rest
    | 2 => flip_equality_rand
        (Expr.sequence p1l (Expr.union p2l p3l))
        (Expr.union (Expr.sequence p1r p2r) (Expr.sequence p1r p3r)) rest
    | 3 => flip_equality_rand
        (Expr.sequence (Expr.union p1l p2l) p3l)
        (Expr.union (Expr.sequence p1r p3r) (Expr.sequence p2r p3r)) rest
    | 4 => flip_equality_rand
        (Expr.union p1l (Expr.intersect p2l p3l))
        (Expr.intersect (Expr.union p1r p2r) (Expr.union p1r p3r)) rest
    | _ => .panic

/-- The pair each arm of the `1 =>` bucket of `genax` (src/fuzz.rs)
passes to `flip_equality_rand`, transcribed arm by arm; indices at or
above `17` are unreachable because the bucket draws modulo `17`. -/
def bucket1Pair (lhs rhs : Exp) : Nat → Exp × Exp
  | 0 => (Expr.union lhs Expr.zero, rhs)
  | 1 => (Expr.union lhs lhs, rhs)
  | 2 => (Expr.sequence Expr.one lhs, rhs)
  | 3 => (Expr.sequence lhs Expr.one, rhs)
  | 4 => (Expr.sequence Expr.zero lhs, Expr.zero)
  | 5 => (Expr.sequence lhs Expr.zero, Expr.zero)
  | 6 => (Expr.union Expr.one (Expr.sequence lhs (Expr.star lhs)), Expr.star rhs)
  | 7 => (Expr.union Expr.one (Expr.sequence (Expr.star lhs) lhs), Expr.star rhs)
  | 8 => (Expr.union lhs Expr.top, Expr.top)
  | 9 => (Expr.union lhs (Expr.complement rhs), Expr.top)
  | 10 => (Expr.intersect lhs (Expr.complement rhs), Expr.zero)
  | 11 => (Expr.intersect lhs lhs, rhs)
  | 12 => (Expr.complement (Expr.ltl_finally lhs),
      Expr.ltl_globally (Expr.complement rhs))
  | 13 => (Expr.complement (Expr.ltl_globally lhs),
      Expr.ltl_finally (Expr.complement rhs))
  | 14 => (Expr.complement (Expr.ltl_next lhs),
      Expr.union Expr.end' (Expr.ltl_next (Expr.complement rhs)))
  | 15 => (Expr.ltl_finally lhs,
      Expr.union rhs (Expr.ltl_next (Expr.ltl_finally rhs)))
  | 16 => (Expr.ltl_globally lhs,
      Expr.intersect rhs (Expr.union Expr.end' (Expr.ltl_next (Expr.ltl_globally rhs))))
  | _ => (Expr.zero, Expr.zero)

/-- The pair each arm of the `2 =>` bucket of `genax` (src/fuzz.rs)
passes to `flip_equality_rand`; indices at or above `10` are
unreachable because the bucket draws modulo `10`. -/
def bucket2Pair (p1l p1r p2l p2r : Exp) : Nat → Exp × Exp
  | 0 => (Expr.union p1l p2l, Expr.union p2r p1r)
  | 1 => (Expr.intersect p1l p2l, Expr.intersect p2r p1r)
  | 2 => (Expr.ltl_next (Expr.intersect p1l p2l),
      Expr.intersect (Expr.ltl_next p1r) (Expr.ltl_next p2r))
  | 3 => (Expr.ltl_next (Expr.union p1l p2l),
      Expr.union (Expr.ltl_next p1r) (Expr.ltl_next p2r))
  | 4 => (Expr.ltl_until p1l p2l,
      Expr.union p2r (Expr.intersect p1r (Expr.ltl_next (Expr.ltl_until p1r p2r))))
  | 5 => (Expr.ltl_weak_until p1l p2l,
      Expr.union p2r
        (Expr.intersect p1r (Expr.ltl_weak_next (Expr.ltl_weak_until p1r p2r))))
  | 6 => (Expr.ltl_release p1l p2l,
      Expr.complement (Expr.ltl_until (Expr.complement p1r) (Expr.complement p2r)))
  | 7 => (Expr.ltl_release p1l p2l,
      Expr.intersect p2r
        (Expr.union p1r (Expr.ltl_weak_next (Expr.ltl_release p1r p2r))))
  | 8 => (Expr.complement (Expr.ltl_release p1l p2l),
      Expr.ltl_until (Expr.complement p1r) (Expr.complement p2r))
  | 9 => (Expr.ltl_strong_release p1l p2l,
      Expr.intersect (Expr.ltl_release p1r p2r) (Expr.ltl_finally p2r))
  | _ => (Expr.zero, Expr.zero)

/-- The pair each arm of the `3 =>` bucket of `genax` (src/fuzz.rs)
passes to `flip_equality_rand`; indices at or above `5` are unreachable
because the bucket draws modulo `5`. -/
def bucket3Pair (p1l p1r p2l p2r p3l p3r : Exp) : Nat → Exp × Exp
  | 0 => (Expr.union p1l (Expr.union p2l p3l), Expr.union (Expr.union p1r p2r) p3r)
  | 1 => (Expr.sequence p1l (Expr.sequence p2l p3l),
      Expr.sequence (Expr.sequence p1r p2r) p3r)
  | 2 => (Expr.sequence p1l (Expr.union p2l p3l),
      Expr.union (Expr.sequence p1r p2r) (Expr.sequence p1r p3r))
  | 3 => (Expr.sequence (Expr.union p1l p2l) p3l,
      Expr.union (Expr.sequence p1r p3r) (Expr.sequence p2r p3r))
  | 4 => (Expr.union p1l (Expr.intersect p2l p3l),
      Expr.intersect (Expr.union p1r p2r) (Expr.union p1r p3r))
  | _ => (Expr.zero, Expr.zero)

/-- `genax` (src/fuzz.rs): asserts `num_fields >= 2`; at `ax_depth = 0`
returns a duplicated random expression; otherwise draws one of four
buckets.  The PA bucket (`0`) returns its pair directly; the other three
make one, two or three recursive calls and every arm passes the combined
pair through `flip_equality_rand`. -/
def genax : Nat → Nat → Nat → List Nat → RRes (Exp × Exp)
  | 0, expr_depth, num_fields, draws =>
    if num_fields < 2 then .panic
    else
      RRes.bind (gen_random_expr num_fields expr_depth draws) fun e rest =>
        .ok (e, e) rest
  | n + 1, expr_depth, num_fields, draws =>
    if num_fields < 2 then .panic
    else
      RRes.bind (drawNat 4 draws) fun bucket rest =>
        match bucket with
        | 0 => genaxPA num_fields rest
        | 1 =>
          RRes.bind (genax n expr_depth num_fields rest) fun pr r1 =>
            genaxBucket1 pr.1 pr.2 r1
        | 2 =>
          RRes.bind (genax n expr_depth num_fields rest) fun p1 r1 =>
          RRes.bind (genax n expr_depth num_fields r1) fun p2 r2 =>
            genaxBucket2 p1.1 p1.2 p2.1 p2.2 r2
        | 3 =>
          RRes.bind (genax n expr_depth num_fields rest) fun p1 r1 =>
          RRes.bind (genax n expr_depth num_fields r1) fun p2 r2 =>
          RRes.bind (genax n expr_depth num_fields r2) fun p3 r3 =>
            genaxBucket3 p1.1 p1.2 p2.1 p2.2 p3.1 p3.2 r3
        | _ => .panic

/-- Modelled from the spec: the claim's reading of `genax`, in which the
pair built by instantiating the chosen axiom is always passed through
the left/right flip — including in the PA bucket.  Identical to `genax`
except that the `0 =>` arm also applies `flip_equality_rand`. -/
def genaxClaim : Nat → Nat → Nat → List Nat → RRes (Exp × Exp)
  | 0, expr_depth, num_fields, draws =>
    if num_fields < 2 then .panic
    else
      RRes.bind (gen_random_expr num_fields expr_depth draws) fun e rest =>
        .ok (e, e) rest
  | n + 1, expr_depth, num_fields, draws =>
    if num_fields < 2 then .panic
    else
      RRes.bind (drawNat 4 draws) fun bucket rest =>
        match bucket with
        | 0 =>
          RRes.bind (genaxPA num_fields rest) fun pr r1 =>
            flip_equality_rand pr.1 pr.2 r1
        | 1 =>
          RRes.bind (genaxClaim n expr_depth num_fields rest) fun pr r1 =>
            genaxBucket1 pr.1 pr.2 r1
        | 2 =>
          RRes.bind (genaxClaim n expr_depth num_fields rest) fun p1 r1 =>
          RRes.bind (genaxClaim n expr_depth num_fields r1) fun p2 r2 =>
            genaxBucket2 p1.1 p1.2 p2.1 p2.2 r2
        | 3 =>
          RRes.bind (genaxClaim n expr_depth num_fields rest) fun p1 r1 =>
          RRes.bind (genaxClaim n expr_depth num_fields r1) fun p2 r2 =>
          RRes.bind (genaxClaim n expr_depth num_fields r2) fun p3 r3 =>
            genaxBucket3 p1.1 p1.2 p2.1 p2.2 p3.1 p3.2 r3
        | _ => .panic

/-- `shrink_exp` (src/fuzz.rs): `Zero` and `One` shrink to the empty
list; the other leaves shrink to `[0, 1]`; binary operators to their two
children; unary operators to their operand. -/
def shrink_exp : Exp → List Exp
  | .Zero | .One => []
  | .Top | .Dup | .End | .Assign _ _ | .Test _ _ => [Expr.zero, Expr.one]
  | .Union e1 e2 | .Intersect e1 e2 | .Xor e1 e2 | .Difference e1 e2
  | .Sequence e1 e2 | .LtlUntil e1 e2 => [e1, e2]
  | .Star e | .Complement e | .LtlNext e => [e]

/-- `gen_leq` (src/fuzz.rs): asserts `num_fields >= 2`; generates a pair
`(e1, e2)` with `e1 ≤ e2` by construction. -/
def gen_leq : Nat → Nat → Nat → List Nat → RRes (Exp × Exp)
  | 0, expr_depth, num_fields, draws =>
    if num_fields < 2 then .panic
    else
      RRes.bind (gen_random_expr num_fields expr_depth draws) fun e r1 =>
      RRes.bind (gen_random_expr num_fields (expr_depth / 2) r1) fun rnd r2 =>
        .ok (e, Expr.union e rnd) r2
  | n + 1, expr_depth, num_fields, draws =>
    if num_fields < 2 then .panic
    else
      RRes.bind (drawNat 4 draws) fun m rest =>
        match m with
        | 0 =>
          RRes.bind (genax n expr_depth num_fields rest) fun pr r1 =>
          RRes.bind (gen_random_expr num_fields (expr_depth / 2) r1) fun rnd r2 =>
            .ok (pr.1, Expr.union pr.2 rnd) r2
        | 1 =>
          RRes.bind (gen_leq n expr_depth num_fields rest) fun pr r1 =>
          RRes.bind (gen_random_expr num_fields (expr_depth / 2) r1) fun rnd r2 =>
            .ok (pr.1, Expr.union pr.2 rnd) r2
        | 2 =>
          RRes.bind (gen_random_expr num_fields expr_depth rest) fun e1 r1 =>
          RRes.bind (gen_random_expr num_fields expr_depth r1) fun e2 r2 =>
          RRes.bind (drawNat 3 r2) fun c r3 =>
            match c with
            | 0 => .ok (Expr.ltl_until e1 e2, Expr.ltl_weak_until e1 e2) r3
            | 1 =>
              RRes.bind (gen_random_expr num_fields (expr_depth / 2) r3) fun rnd r4 =>
                .ok (Expr.ltl_strong_release e1 e2,
                     Expr.union (Expr.ltl_strong_release e1 e2) rnd) r4
            | 2 => .ok (Expr.ltl_next e1, Expr.ltl_weak_next e1) r3
            | _ => .panic
        | 3 =>
          RRes.bind (gen_leq n expr_depth num_fields rest) fun pA r1 =>
          RRes.bind (gen_leq n expr_depth num_fields r1) fun pB r2 =>
          RRes.bind (drawNat 3 r2) fun c r3 =>
            match c with
            | 0 => .ok (Expr.union pA.1 pB.1, Expr.union pA.2 pB.2) r3
            | 1 => .ok (Expr.intersect pA.1 pB.1, Expr.intersect pA.2 pB.2) r3
            | 2 => .ok (Expr.sequence pA.1 pB.1, Expr.sequence pA.2 pB.2) r3
            | _ => .panic
        | _ => .panic

/-- An `(e1, e2)` pair is one of the eight PA axioms of `genax`, in the
orientation written in the source (lhs of the axiom first). -/
def paOriented (e1 e2 : Exp) : Prop :=
  (∃ i j v w, i ≠ j ∧
    e1 = Expr.sequence (Expr.assign i v) (Expr.assign j w) ∧
    e2 = Expr.sequence (Expr.assign j w) (Expr.assign i v)) ∨
  (∃ i j v w, i ≠ j ∧
    e1 = Expr.sequence (Expr.assign i v) (Expr.test j w) ∧
    e2 = Expr.sequence (Expr.test j w) (Expr.assign i v)) ∨
  (∃ i v, e1 = Expr.sequence Expr.dup (Expr.test i v) ∧
    e2 = Expr.sequence (Expr.test i v) Expr.dup) ∨
  (∃ i v, e1 = Expr.sequence (Expr.assign i v) (Expr.test i v) ∧
    e2 = Expr.assign i v) ∨
  (∃ i v, e1 = Expr.sequence (Expr.test i v) (Expr.assign i v) ∧
    e2 = Expr.test i v) ∨
  (∃ i v w, e1 = Expr.sequence (Expr.assign i v) (Expr.assign i w) ∧
    e2 = Expr.assign i w) ∨
  (∃ i, e1 = Expr.sequence (Expr.test i false) (Expr.test i true) ∧
    e2 = Expr.zero) ∨
  (∃ i, e1 = Expr.union (Expr.test i false) (Expr.test i true) ∧
    e2 = Expr.one)

/-- The "E" relation of the 2x2 block star formula over abstract
relations: the reflexive-transitive closure of `A + (B D*) C`. -/
def starE {α : Type} (A B C D : α → α → Prop) : α → α → Prop :=
  Relation.ReflTransGen fun p q =>
    A p q ∨ relComp (relComp B (Relation.ReflTransGen D)) C p q

/-- The four blocks of the star of the 2x2 block relation `(A B; C D)`:
`(E, E (B D*), D* (C E), D* + (D* (C E)) (B D*))` with `E` as in `starE`. -/
def starBlocks {α : Type} (A B C D : α → α → Prop) : Bool × α → Bool × α → Prop :=
  blockRel (starE A B C D)
    (relComp (starE A B C D) (relComp B (Relation.ReflTransGen D)))
    (relComp (Relation.ReflTransGen D) (relComp C (starE A B C D)))
    (fun p q => Relation.ReflTransGen D p q ∨
      relComp (relComp (Relation.ReflTransGen D) (relComp C (starE A B C D)))
        (relComp B (Relation.ReflTransGen D)) p q)

/-! Basic facts about reading handles back as trees. -/

theorem toTree_0_0 (nodes : List SPPnode) : toTree nodes 0 0 = some (.leaf false) := by
  simp [toTree]

theorem toTree_0_1 (nodes : List SPPnode) : toTree nodes 0 1 = some (.leaf true) := by
  simp [toTree]

theorem toTree_n0 {nodes : List SPPnode} {h : Nat} {t : QTree 0}
    (ht : toTree nodes 0 h = some t) :
    (h = 0 ∧ t = .leaf false) ∨ (h = 1 ∧ t = .leaf true) := by
  by_cases h0 : h = 0
  · subst h0
    rw [toTree_0_0] at ht
    exact Or.inl ⟨rfl, (Option.some.injEq _ _ ▸ ht).symm⟩
  · by_cases h1 : h = 1
    · subst h1
      rw [toTree_0_1] at ht
      exact Or.inr ⟨rfl, (Option.some.injEq _ _ ▸ ht).symm⟩
    · simp [toTree, h0, h1] at ht

theorem toTree_succ_elim {nodes : List SPPnode} {n : Nat} {h : Nat} {t : QTree (n + 1)}
    (ht : toTree nodes (n + 1) h = some t) :
    ∃ nd t00 t01 t10 t11, 2 ≤ h ∧ nodes[h - 2]? = some nd ∧
      toTree nodes n nd.x00 = some t00 ∧ toTree nodes n nd.x01 = some t01 ∧
      toTree nodes n nd.x10 = some t10 ∧ toTree nodes n nd.x11 = some t11 ∧
      t = .node t00 t01 t10 t11 := by
  rw [toTree] at ht
  split at ht
  · exact Option.noConfusion ht
  · rename_i h2
    split at ht
    · exact Option.noConfusion ht
    · rename_i nd hnd
      split at ht
      · rename_i t00 t01 t10 t11 h00 h01 h10 h11
        simp only [Option.some.injEq] at ht
        exact ⟨nd, t00, t01, t10, t11, by omega, hnd, h00, h01, h10, h11, ht.symm⟩
      · exact Option.noConfusion ht

theorem toTree_succ_intro {nodes : List SPPnode} {n : Nat} {h : Nat} {nd : SPPnode}
    {t00 t01 t10 t11 : QTree n}
    (h2 : 2 ≤ h) (hnd : nodes[h - 2]? = some nd)
    (h00 : toTree nodes n nd.x00 = some t00) (h01 : toTree nodes n nd.x01 = some t01)
    (h10 : toTree nodes n nd.x10 = some t10) (h11 : toTree nodes n nd.x11 = some t11) :
    toTree nodes (n + 1) h = some (.node t00 t01 t10 t11) := by
  have h2' : ¬ h < 2 := by omega
  simp only [toTree, h2', if_false, hnd, h00, h01, h10, h11]

theorem toTree_lt {nodes : List SPPnode} {n : Nat} {h : Nat} {t : QTree n}
    (ht : toTree nodes n h = some t) : h < nodes.length + 2 := by
  cases n with
  | zero =>
    rcases toTree_n0 ht with ⟨h0, _⟩ | ⟨h0, _⟩ <;> subst h0 <;> omega
  | succ n =>
    obtain ⟨nd, _, _, _, _, h2, hnd, _⟩ := toTree_succ_elim ht
    by_contra hc
    have hge : nodes.length ≤ h - 2 := by omega
    rw [List.getElem?_eq_none hge] at hnd
    exact Option.noConfusion hnd

theorem toTree_succ_ge2 {nodes : List SPPnode} {n : Nat} {h : Nat} {t : QTree (n + 1)}
    (ht : toTree nodes (n + 1) h = some t) : 2 ≤ h := by
  obtain ⟨_, _, _, _, _, h2, _⟩ := toTree_succ_elim ht
  exact h2

theorem toTree_depth_unique {nodes : List SPPnode} :
    ∀ {n m : Nat} {h : Nat} {t : QTree n} {u : QTree m},
      toTree nodes n h = some t → toTree nodes m h = some u → n = m := by
  intro n
  induction n with
  | zero =>
    intro m h t u ht hu
    cases m with
    | zero => rfl
    | succ m =>
      have h2 := toTree_succ_ge2 hu
      rcases toTree_n0 ht with ⟨h0, _⟩ | ⟨h0, _⟩ <;> subst h0 <;> omega
  | succ n ih =>
    intro m h t u ht hu
    cases m with
    | zero =>
      have h2 := toTree_succ_ge2 ht
      rcases toTree_n0 hu with ⟨h0, _⟩ | ⟨h0, _⟩ <;> subst h0 <;> omega
    | succ m =>
      obtain ⟨nd, t00, _, _, _, _, hnd, h00, _⟩ := toTree_succ_elim ht
      obtain ⟨nd', u00, _, _, _, _, hnd', h00', _⟩ := toTree_succ_elim hu
      rw [hnd] at hnd'
      cases hnd'
      exact congrArg Nat.succ (ih h00 h00')

theorem toTree_append {nodes ext : List SPPnode} (hb : NodesBounded nodes) :
    ∀ (n : Nat) {h : Nat}, h < nodes.length + 2 →
      toTree (nodes ++ ext) n h = toTree nodes n h := by
  intro n
  induction n with
  | zero => intro h _; rfl
  | succ n ih =>
    intro h hlt
    by_cases h2 : h < 2
    · rw [toTree, toTree, if_pos h2, if_pos h2]
    · have hidx : h - 2 < nodes.length := by omega
      rw [toTree, toTree, if_neg h2, if_neg h2, List.getElem?_append_left hidx]
      cases hnd : nodes[h - 2]? with
      | none => rfl
      | some nd =>
        obtain ⟨b00, b01, b10, b11⟩ := hb _ _ hnd
        simp only [ih (show nd.x00 < nodes.length + 2 by omega),
          ih (show nd.x01 < nodes.length + 2 by omega),
          ih (show nd.x10 < nodes.length + 2 by omega),
          ih (show nd.x11 < nodes.length + 2 by omega)]

/-! Canonicity and store-extension lemmas. -/

theorem nodes_inj {s : SPPstore} (hWF : WF s) {i j : Nat} {nd : SPPnode}
    (hi : s.nodes[i]? = some nd) (hj : s.nodes[j]? = some nd) : i = j := by
  have h1 : alookup s.hc nd = some (i + 2) :=
    (hWF.hc_iff nd (i + 2)).mpr ⟨by omega, by simpa using hi⟩
  have h2 : alookup s.hc nd = some (j + 2) :=
    (hWF.hc_iff nd (j + 2)).mpr ⟨by omega, by simpa using hj⟩
  rw [h1] at h2
  simpa using h2

theorem toTree_inj {s : SPPstore} (hWF : WF s) :
    ∀ {n : Nat} {h h' : Nat} {t : QTree n},
      toTree s.nodes n h = some t → toTree s.nodes n h' = some t → h = h' := by
  intro n
  induction n with
  | zero =>
    intro h h' t ht ht'
    rcases toTree_n0 ht with ⟨h0, e0⟩ | ⟨h0, e0⟩ <;>
      rcases toTree_n0 ht' with ⟨h1, e1⟩ | ⟨h1, e1⟩ <;>
      subst h0 <;> subst h1 <;> subst e0 <;> simp_all
  | succ n ih =>
    intro h h' t ht ht'
    obtain ⟨nd, t00, t01, t10, t11, h2, hnd, h00, h01, h10, h11, hte⟩ := toTree_succ_elim ht
    obtain ⟨nd', u00, u01, u10, u11, h2', hnd', h00', h01', h10', h11', hte'⟩ :=
      toTree_succ_elim ht'
    subst hte
    injection hte' with en e00 e01 e10 e11
    subst e00; subst e01; subst e10; subst e11
    have ex00 := ih h00 h00'
    have ex01 := ih h01 h01'
    have ex10 := ih h10 h10'
    have ex11 := ih h11 h11'
    have hnd_eq : nd = nd' := by
      cases nd; cases nd'
      simp_all
    subst hnd_eq
    have := nodes_inj hWF hnd hnd'
    omega

theorem Extends.refl (s : SPPstore) : Extends s s :=
  ⟨rfl, ⟨[], by simp⟩, rfl, rfl, rfl⟩

theorem Extends.trans {s1 s2 s3 : SPPstore} (h12 : Extends s1 s2) (h23 : Extends s2 s3) :
    Extends s1 s3 := by
  obtain ⟨e1, ⟨x1, hx1⟩, z1, o1, t1⟩ := h12
  obtain ⟨e2, ⟨x2, hx2⟩, z2, o2, t2⟩ := h23
  exact ⟨by omega, ⟨x1 ++ x2, by rw [hx2, hx1, List.append_assoc]⟩,
    by rw [z2, z1], by rw [o2, o1], by rw [t2, t1]⟩

theorem extends_toTree {s s' : SPPstore} (hE : Extends s s') (hWF : WF s)
    {n : Nat} {h : Nat} {t : QTree n} (ht : toTree s.nodes n h = some t) :
    toTree s'.nodes n h = some t := by
  obtain ⟨ext, hext⟩ := hE.nodes_ext
  rw [hext, toTree_append hWF.bounded n (toTree_lt ht)]
  exact ht

theorem memoOk2_append {nodes : List SPPnode} (hb : NodesBounded nodes) (ext : List SPPnode)
    {f : (n : Nat) → QTree n → QTree n → QTree n} {a b r : Nat}
    (h : memoOk2 nodes f a b r) : memoOk2 (nodes ++ ext) f a b r := by
  obtain ⟨ha, hb', hr, hcoh⟩ := h
  refine ⟨by simp only [List.length_append]; omega,
    by simp only [List.length_append]; omega,
    by simp only [List.length_append]; omega, ?_⟩
  intro n ta tb hta htb
  rw [toTree_append hb n ha] at hta
  rw [toTree_append hb n hb'] at htb
  rw [toTree_append hb n hr]
  exact hcoh n ta tb hta htb

theorem memoOk1_append {nodes : List SPPnode} (hb : NodesBounded nodes) (ext : List SPPnode)
    {f : (n : Nat) → QTree n → QTree n} {a r : Nat}
    (h : memoOk1 nodes f a r) : memoOk1 (nodes ++ ext) f a r := by
  obtain ⟨ha, hr, hcoh⟩ := h
  refine ⟨by simp only [List.length_append]; omega,
    by simp only [List.length_append]; omega, ?_⟩
  intro n ta hta
  rw [toTree_append hb n ha] at hta
  rw [toTree_append hb n hr]
  exact hcoh n ta hta

theorem mk_spec {s : SPPstore} (hWF : WF s) {x00 x01 x10 x11 : Nat}
    (b00 : x00 < s.nodes.length + 2) (b01 : x01 < s.nodes.length + 2)
    (b10 : x10 < s.nodes.length + 2) (b11 : x11 < s.nodes.length + 2) :
    WF (s.mk x00 x01 x10 x11).1 ∧ Extends s (s.mk x00 x01 x10 x11).1 ∧
      2 ≤ (s.mk x00 x01 x10 x11).2 ∧
      (s.mk x00 x01 x10 x11).1.nodes[(s.mk x00 x01 x10 x11).2 - 2]? =
        some ⟨x00, x01, x10, x11⟩ := by
  rw [SPPstore.mk]
  cases hhc : alookup s.hc ⟨x00, x01, x10, x11⟩ with
  | some spp =>
    obtain ⟨h2, hnd⟩ := (hWF.hc_iff _ _).mp hhc
    exact ⟨hWF, Extends.refl s, h2, hnd⟩
  | none =>
    simp only
    constructor
    · constructor
      · -- bounded
        intro i nd hi
        by_cases hilt : i < s.nodes.length
        · rw [List.getElem?_append_left hilt] at hi
          exact hWF.bounded i nd hi
        · by_cases hieq : i = s.nodes.length
          · subst hieq
            rw [List.getElem?_concat_length] at hi
            cases hi
            exact ⟨b00, b01, b10, b11⟩
          · rw [List.getElem?_eq_none (by simp; omega)] at hi
            exact Option.noConfusion hi
      · -- hc_iff
        intro nd h
        simp only [alookup]
        by_cases hnd : nd = (⟨x00, x01, x10, x11⟩ : SPPnode)
        · subst hnd
          rw [if_pos rfl]
          constructor
          · intro hh
            cases hh
            refine ⟨by omega, ?_⟩
            simpa using List.getElem?_concat_length s.nodes _
          · rintro ⟨h2, hget⟩
            by_cases hlt : h - 2 < s.nodes.length
            · rw [List.getElem?_append_left hlt] at hget
              have : alookup s.hc ⟨x00, x01, x10, x11⟩ = some h :=
                (hWF.hc_iff _ _).mpr ⟨h2, hget⟩
              rw [hhc] at this
              exact Option.noConfusion this
            · by_cases heq : h - 2 = s.nodes.length
              · simp only [Option.some.injEq]
                omega
              · rw [List.getElem?_eq_none (by simp; omega)] at hget
                exact Option.noConfusion hget
        · rw [if_neg hnd]
          rw [hWF.hc_iff nd h]
          constructor
          · rintro ⟨h2, hget⟩
            have hlt : h - 2 < s.nodes.length := by
              by_contra hc
              rw [List.getElem?_eq_none (by omega)] at hget
              exact Option.noConfusion hget
            exact ⟨h2, by rw [List.getElem?_append_left hlt]; exact hget⟩
          · rintro ⟨h2, hget⟩
            by_cases hlt : h - 2 < s.nodes.length
            · rw [List.getElem?_append_left hlt] at hget
              exact ⟨h2, hget⟩
            · by_cases heq : h - 2 = s.nodes.length
              · rw [heq, List.getElem?_concat_length] at hget
                cases hget
                exact absurd rfl hnd
              · rw [List.getElem?_eq_none (by simp; omega)] at hget
                exact Option.noConfusion hget
      · exact fun a b r h => memoOk2_append hWF.bounded _ (hWF.union_coh a b r h)
      · exact hWF.union_leaf
      · exact fun a b r h => memoOk2_append hWF.bounded _ (hWF.inter_coh a b r h)
      · exact hWF.inter_leaf
      · exact fun a b r h => memoOk2_append hWF.bounded _ (hWF.xor_coh a b r h)
      · exact hWF.xor_leaf
      · exact fun a b r h => memoOk2_append hWF.bounded _ (hWF.diff_coh a b r h)
      · exact hWF.diff_leaf
      · exact fun a b r h => memoOk2_append hWF.bounded _ (hWF.seq_coh a b r h)
      · exact hWF.seq_leaf
      · exact fun a r h => memoOk1_append hWF.bounded _ (hWF.star_coh a r h)
      · exact hWF.star_leaf
      · exact fun a r h => memoOk1_append hWF.bounded _ (hWF.compl_coh a r h)
      · exact hWF.compl_leaf
    · refine ⟨⟨rfl, ⟨[⟨x00, x01, x10, x11⟩], rfl⟩, rfl, rfl, rfl⟩, by omega, ?_⟩
      simpa using List.getElem?_concat_length s.nodes _

theorem mk_toTree {s : SPPstore} (hWF : WF s) {n : Nat} {a00 a01 a10 a11 : Nat}
    {t00 t01 t10 t11 : QTree n}
    (h00 : toTree s.nodes n a00 = some t00) (h01 : toTree s.nodes n a01 = some t01)
    (h10 : toTree s.nodes n a10 = some t10) (h11 : toTree s.nodes n a11 = some t11) :
    WF (s.mk a00 a01 a10 a11).1 ∧ Extends s (s.mk a00 a01 a10 a11).1 ∧
      toTree (s.mk a00 a01 a10 a11).1.nodes (n + 1) (s.mk a00 a01 a10 a11).2 =
        some (.node t00 t01 t10 t11) := by
  obtain ⟨hWF', hE, h2, hnd⟩ :=
    mk_spec hWF (toTree_lt h00) (toTree_lt h01) (toTree_lt h10) (toTree_lt h11)
  refine ⟨hWF', hE, toTree_succ_intro h2 hnd ?_ ?_ ?_ ?_⟩
  · exact extends_toTree hE hWF h00
  · exact extends_toTree hE hWF h01
  · exact extends_toTree hE hWF h10
  · exact extends_toTree hE hWF h11

/-! Correctness of the store operations: given a well-formed store and
arguments denoting depth-`n` diagrams (with fuel exceeding `n`), each
operation succeeds, preserves well-formedness, only extends the store,
and returns a handle denoting the corresponding tree-level result. -/

theorem unionF_spec :
    ∀ (fuel : Nat) {s : SPPstore} {a b : Nat} {n : Nat} {ta tb : QTree n},
      WF s → toTree s.nodes n a = some ta → toTree s.nodes n b = some tb → n < fuel →
      ∃ s' r, unionF fuel s a b = some (s', r) ∧ WF s' ∧ Extends s s' ∧
        toTree s'.nodes n r = some (tunion n ta tb) := by
  intro fuel
  induction fuel with
  | zero => intro s a b n ta tb _ _ _ hn; omega
  | succ fuel ih =>
    intro s a b n ta tb hWF hta htb hn
    cases hmemo : alookup s.union_memo (a, b) with
    | some r =>
      refine ⟨s, r, ?_, hWF, Extends.refl s, ?_⟩
      · rw [unionF, hmemo]
      · exact (hWF.union_coh a b r hmemo).2.2.2 n ta tb hta htb
    | none =>
      cases n with
      | zero =>
        have ha2 : a < 2 := by
          rcases toTree_n0 hta with ⟨h0, _⟩ | ⟨h0, _⟩ <;> omega
        have hb2 : b < 2 := by
          rcases toTree_n0 htb with ⟨h0, _⟩ | ⟨h0, _⟩ <;> omega
        obtain ⟨r, hr⟩ := hWF.union_leaf a b ha2 hb2
        rw [hmemo] at hr
        exact Option.noConfusion hr
      | succ m =>
        obtain ⟨an, ta00, ta01, ta10, ta11, ha2, hand, ha00, ha01, ha10, ha11, hta_eq⟩ :=
          toTree_succ_elim hta
        obtain ⟨bn, tb00, tb01, tb10, tb11, hb2, hbnd, hb00, hb01, hb10, hb11, htb_eq⟩ :=
          toTree_succ_elim htb
        subst hta_eq; subst htb_eq
        have hgeta : s.get a = some an := by
          rw [SPPstore.get, if_neg (by omega)]; exact hand
        have hgetb : s.get b = some bn := by
          rw [SPPstore.get, if_neg (by omega)]; exact hbnd
        obtain ⟨s1, r00, hu00, hWF1, hE1, ht00⟩ := ih hWF ha00 hb00 (by omega)
        obtain ⟨s2, r01, hu01, hWF2, hE2, ht01⟩ :=
          ih hWF1 (extends_toTree hE1 hWF ha01) (extends_toTree hE1 hWF hb01) (by omega)
        have hE12 := hE1.trans hE2
        obtain ⟨s3, r10, hu10, hWF3, hE3, ht10⟩ :=
          ih hWF2 (extends_toTree hE12 hWF ha10) (extends_toTree hE12 hWF hb10) (by omega)
        have hE13 := hE12.trans hE3
        obtain ⟨s4, r11, hu11, hWF4, hE4, ht11⟩ :=
          ih hWF3 (extends_toTree hE13 hWF ha11) (extends_toTree hE13 hWF hb11) (by omega)
        have hE14 := hE13.trans hE4
        obtain ⟨hWF5, hE5, htres⟩ := mk_toTree hWF4
          (extends_toTree (hE2.trans (hE3.trans hE4)) hWF1 ht00)
          (extends_toTree (hE3.trans hE4) hWF2 ht01)
          (extends_toTree hE4 hWF3 ht10) ht11
        set p := s4.mk r00 r01 r10 r11 with hp
        have hEall : Extends s p.1 := hE14.trans hE5
        have hta_p1 : toTree p.1.nodes (m + 1) a = some (.node ta00 ta01 ta10 ta11) :=
          extends_toTree hEall hWF hta
        have htb_p1 : toTree p.1.nodes (m + 1) b = some (.node tb00 tb01 tb10 tb11) :=
          extends_toTree hEall hWF htb
        refine ⟨{ p.1 with union_memo := ((a, b), p.2) :: p.1.union_memo }, p.2, ?_, ?_, ?_, ?_⟩
        · rw [hp]
          simp only [unionF, hmemo, hgeta, hgetb, hu00, hu01, hu10, hu11]
        · refine ⟨hWF5.bounded, hWF5.hc_iff, ?_, ?_, hWF5.inter_coh, hWF5.inter_leaf,
            hWF5.xor_coh, hWF5.xor_leaf, hWF5.diff_coh, hWF5.diff_leaf,
            hWF5.seq_coh, hWF5.seq_leaf, hWF5.star_coh, hWF5.star_leaf,
            hWF5.compl_coh, hWF5.compl_leaf⟩
          · intro a' b' r' h'
            simp only [alookup] at h'
            by_cases hk : ((a', b') : Nat × Nat) = (a, b)
            · rw [if_pos hk] at h'
              cases hk
              cases h'
              refine ⟨toTree_lt hta_p1, toTree_lt htb_p1, toTree_lt htres, ?_⟩
              intro n' ta' tb' h1 h2
              have hn' := toTree_depth_unique h1 hta_p1
              subst hn'
              rw [h1] at hta_p1
              rw [h2] at htb_p1
              cases hta_p1
              cases htb_p1
              rw [htres]
              rfl
            · rw [if_neg hk] at h'
              exact hWF5.union_coh a' b' r' h'
          · intro a' b' ha' hb'
            by_cases hk : ((a', b') : Nat × Nat) = (a, b)
            · exact ⟨p.2, by simp [alookup, hk]⟩
            · obtain ⟨r', hr'⟩ := hWF5.union_leaf a' b' ha' hb'
              exact ⟨r', by rw [alookup, if_neg hk]; exact hr'⟩
        · exact ⟨hEall.num_vars_eq, hEall.nodes_ext, hEall.zero_eq, hEall.one_eq, hEall.top_eq⟩
        · exact htres

theorem intersectF_spec :
    ∀ (fuel : Nat) {s : SPPstore} {a b : Nat} {n : Nat} {ta tb : QTree n},
      WF s → toTree s.nodes n a = some ta → toTree s.nodes n b = some tb → n < fuel →
      ∃ s' r, intersectF fuel s a b = some (s', r) ∧ WF s' ∧ Extends s s' ∧
        toTree s'.nodes n r = some (tinter n ta tb) := by
  intro fuel
  induction fuel with
  | zero => intro s a b n ta tb _ _ _ hn; omega
  | succ fuel ih =>
    intro s a b n ta tb hWF hta htb hn
    cases hmemo : alookup s.intersect_memo (a, b) with
    | some r =>
      refine ⟨s, r, ?_, hWF, Extends.refl s, ?_⟩
      · rw [intersectF, hmemo]
      · exact (hWF.inter_coh a b r hmemo).2.2.2 n ta tb hta htb
    | none =>
      cases n with
      | zero =>
        have ha2 : a < 2 := by
          rcases toTree_n0 hta with ⟨h0, _⟩ | ⟨h0, _⟩ <;> omega
        have hb2 : b < 2 := by
          rcases toTree_n0 htb with ⟨h0, _⟩ | ⟨h0, _⟩ <;> omega
        obtain ⟨r, hr⟩ := hWF.inter_leaf a b ha2 hb2
        rw [hmemo] at hr
        exact Option.noConfusion hr
      | succ m =>
        obtain ⟨an, ta00, ta01, ta10, ta11, ha2, hand, ha00, ha01, ha10, ha11, hta_eq⟩ :=
          toTree_succ_elim hta
        obtain ⟨bn, tb00, tb01, tb10, tb11, hb2, hbnd, hb00, hb01, hb10, hb11, htb_eq⟩ :=
          toTree_succ_elim htb
        subst hta_eq; subst htb_eq
        have hgeta : s.get a = some an := by
          rw [SPPstore.get, if_neg (by omega)]; exact hand
        have hgetb : s.get b = some bn := by
          rw [SPPstore.get, if_neg (by omega)]; exact hbnd
        obtain ⟨s1, r00, hu00, hWF1, hE1, ht00⟩ := ih hWF ha00 hb00 (by omega)
        obtain ⟨s2, r01, hu01, hWF2, hE2, ht01⟩ :=
          ih hWF1 (extends_toTree hE1 hWF ha01) (extends_toTree hE1 hWF hb01) (by omega)
        have hE12 := hE1.trans hE2
        obtain ⟨s3, r10, hu10, hWF3, hE3, ht10⟩ :=
          ih hWF2 (extends_toTree hE12 hWF ha10) (extends_toTree hE12 hWF hb10) (by omega)
        have hE13 := hE12.trans hE3
        obtain ⟨s4, r11, hu11, hWF4, hE4, ht11⟩ :=
          ih hWF3 (extends_toTree hE13 hWF ha11) (extends_toTree hE13 hWF hb11) (by omega)
        have hE14 := hE13.trans hE4
        obtain ⟨hWF5, hE5, htres⟩ := mk_toTree hWF4
          (extends_toTree (hE2.trans (hE3.trans hE4)) hWF1 ht00)
          (extends_toTree (hE3.trans hE4) hWF2 ht01)
          (extends_toTree hE4 hWF3 ht10) ht11
        set p := s4.mk r00 r01 r10 r11 with hp
        have hEall : Extends s p.1 := hE14.trans hE5
        have hta_p1 : toTree p.1.nodes (m + 1) a = some (.node ta00 ta01 ta10 ta11) :=
          extends_toTree hEall hWF hta
        have htb_p1 : toTree p.1.nodes (m + 1) b = some (.node tb00 tb01 tb10 tb11) :=
          extends_toTree hEall hWF htb
        refine ⟨{ p.1 with intersect_memo := ((a, b), p.2) :: p.1.intersect_memo }, p.2, ?_, ?_, ?_, ?_⟩
        · rw [hp]
          simp only [intersectF, hmemo, hgeta, hgetb, hu00, hu01, hu10, hu11]
        · refine ⟨hWF5.bounded, hWF5.hc_iff, hWF5.union_coh, hWF5.union_leaf, ?_, ?_, hWF5.xor_coh, hWF5.xor_leaf, hWF5.diff_coh, hWF5.diff_leaf, hWF5.seq_coh, hWF5.seq_leaf, hWF5.star_coh, hWF5.star_leaf, hWF5.compl_coh, hWF5.compl_leaf⟩
          · intro a' b' r' h'
            simp only [alookup] at h'
            by_cases hk : ((a', b') : Nat × Nat) = (a, b)
            · rw [if_pos hk] at h'
              cases hk
              cases h'
              refine ⟨toTree_lt hta_p1, toTree_lt htb_p1, toTree_lt htres, ?_⟩
              intro n' ta' tb' h1 h2
              have hn' := toTree_depth_unique h1 hta_p1
              subst hn'
              rw [h1] at hta_p1
              rw [h2] at htb_p1
              cases hta_p1
              cases htb_p1
              rw [htres]
              rfl
            · rw [if_neg hk] at h'
              exact hWF5.inter_coh a' b' r' h'
          · intro a' b' ha' hb'
            by_cases hk : ((a', b') : Nat × Nat) = (a, b)
            · exact ⟨p.2, by simp [alookup, hk]⟩
            · obtain ⟨r', hr'⟩ := hWF5.inter_leaf a' b' ha' hb'
              exact ⟨r', by rw [alookup, if_neg hk]; exact hr'⟩
        · exact ⟨hEall.num_vars_eq, hEall.nodes_ext, hEall.zero_eq, hEall.one_eq, hEall.top_eq⟩
        · exact htres

theorem xorF_spec :
    ∀ (fuel : Nat) {s : SPPstore} {a b : Nat} {n : Nat} {ta tb : QTree n},
      WF s → toTree s.nodes n a = some ta → toTree s.nodes n b = some tb → n < fuel →
      ∃ s' r, xorF fuel s a b = some (s', r) ∧ WF s' ∧ Extends s s' ∧
        toTree s'.nodes n r = some (txor n ta tb) := by
  intro fuel
  induction fuel with
  | zero => intro s a b n ta tb _ _ _ hn; omega
  | succ fuel ih =>
    intro s a b n ta tb hWF hta htb hn
    cases hmemo : alookup s.xor_memo (a, b) with
    | some r =>
      refine ⟨s, r, ?_, hWF, Extends.refl s, ?_⟩
      · rw [xorF, hmemo]
      · exact (hWF.xor_coh a b r hmemo).2.2.2 n ta tb hta htb
    | none =>
      cases n with
      | zero =>
        have ha2 : a < 2 := by
          rcases toTree_n0 hta with ⟨h0, _⟩ | ⟨h0, _⟩ <;> omega
        have hb2 : b < 2 := by
          rcases toTree_n0 htb with ⟨h0, _⟩ | ⟨h0, _⟩ <;> omega
        obtain ⟨r, hr⟩ := hWF.xor_leaf a b ha2 hb2
        rw [hmemo] at hr
        exact Option.noConfusion hr
      | succ m =>
        obtain ⟨an, ta00, ta01, ta10, ta11, ha2, hand, ha00, ha01, ha10, ha11, hta_eq⟩ :=
          toTree_succ_elim hta
        obtain ⟨bn, tb00, tb01, tb10, tb11, hb2, hbnd, hb00, hb01, hb10, hb11, htb_eq⟩ :=
          toTree_succ_elim htb
        subst hta_eq; subst htb_eq
        have hgeta : s.get a = some an := by
          rw [SPPstore.get, if_neg (by omega)]; exact hand
        have hgetb : s.get b = some bn := by
          rw [SPPstore.get, if_neg (by omega)]; exact hbnd
        obtain ⟨s1, r00, hu00, hWF1, hE1, ht00⟩ := ih hWF ha00 hb00 (by omega)
        obtain ⟨s2, r01, hu01, hWF2, hE2, ht01⟩ :=
          ih hWF1 (extends_toTree hE1 hWF ha01) (extends_toTree hE1 hWF hb01) (by omega)
        have hE12 := hE1.trans hE2
        obtain ⟨s3, r10, hu10, hWF3, hE3, ht10⟩ :=
          ih hWF2 (extends_toTree hE12 hWF ha10) (extends_toTree hE12 hWF hb10) (by omega)
        have hE13 := hE12.trans hE3
        obtain ⟨s4, r11, hu11, hWF4, hE4, ht11⟩ :=
          ih hWF3 (extends_toTree hE13 hWF ha11) (extends_toTree hE13 hWF hb11) (by omega)
        have hE14 := hE13.trans hE4
        obtain ⟨hWF5, hE5, htres⟩ := mk_toTree hWF4
          (extends_toTree (hE2.trans (hE3.trans hE4)) hWF1 ht00)
          (extends_toTree (hE3.trans hE4) hWF2 ht01)
          (extends_toTree hE4 hWF3 ht10) ht11
        set p := s4.mk r00 r01 r10 r11 with hp
        have hEall : Extends s p.1 := hE14.trans hE5
        have hta_p1 : toTree p.1.nodes (m + 1) a = some (.node ta00 ta01 ta10 ta11) :=
          extends_toTree hEall hWF hta
        have htb_p1 : toTree p.1.nodes (m + 1) b = some (.node tb00 tb01 tb10 tb11) :=
          extends_toTree hEall hWF htb
        refine ⟨{ p.1 with xor_memo := ((a, b), p.2) :: p.1.xor_memo }, p.2, ?_, ?_, ?_, ?_⟩
        · rw [hp]
          simp only [xorF, hmemo, hgeta, hgetb, hu00, hu01, hu10, hu11]
        · refine ⟨hWF5.bounded, hWF5.hc_iff, hWF5.union_coh, hWF5.union_leaf, hWF5.inter_coh, hWF5.inter_leaf, ?_, ?_, hWF5.diff_coh, hWF5.diff_leaf, hWF5.seq_coh, hWF5.seq_leaf, hWF5.star_coh, hWF5.star_leaf, hWF5.compl_coh, hWF5.compl_leaf⟩
          · intro a' b' r' h'
            simp only [alookup] at h'
            by_cases hk : ((a', b') : Nat × Nat) = (a, b)
            · rw [if_pos hk] at h'
              cases hk
              cases h'
              refine ⟨toTree_lt hta_p1, toTree_lt htb_p1, toTree_lt htres, ?_⟩
              intro n' ta' tb' h1 h2
              have hn' := toTree_depth_unique h1 hta_p1
              subst hn'
              rw [h1] at hta_p1
              rw [h2] at htb_p1
              cases hta_p1
              cases htb_p1
              rw [htres]
              rfl
            · rw [if_neg hk] at h'
              exact hWF5.xor_coh a' b' r' h'
          · intro a' b' ha' hb'
            by_cases hk : ((a', b') : Nat × Nat) = (a, b)
            · exact ⟨p.2, by simp [alookup, hk]⟩
            · obtain ⟨r', hr'⟩ := hWF5.xor_leaf a' b' ha' hb'
              exact ⟨r', by rw [alookup, if_neg hk]; exact hr'⟩
        · exact ⟨hEall.num_vars_eq, hEall.nodes_ext, hEall.zero_eq, hEall.one_eq, hEall.top_eq⟩
        · exact htres

theorem differenceF_spec :
    ∀ (fuel : Nat) {s : SPPstore} {a b : Nat} {n : Nat} {ta tb : QTree n},
      WF s → toTree s.nodes n a = some ta → toTree s.nodes n b = some tb → n < fuel →
      ∃ s' r, differenceF fuel s a b = some (s', r) ∧ WF s' ∧ Extends s s' ∧
        toTree s'.nodes n r = some (tdiff n ta tb) := by
  intro fuel
  induction fuel with
  | zero => intro s a b n ta tb _ _ _ hn; omega
  | succ fuel ih =>
    intro s a b n ta tb hWF hta htb hn
    cases hmemo : alookup s.difference_memo (a, b) with
    | some r =>
      refine ⟨s, r, ?_, hWF, Extends.refl s, ?_⟩
      · rw [differenceF, hmemo]
      · exact (hWF.diff_coh a b r hmemo).2.2.2 n ta tb hta htb
    | none =>
      cases n with
      | zero =>
        have ha2 : a < 2 := by
          rcases toTree_n0 hta with ⟨h0, _⟩ | ⟨h0, _⟩ <;> omega
        have hb2 : b < 2 := by
          rcases toTree_n0 htb with ⟨h0, _⟩ | ⟨h0, _⟩ <;> omega
        obtain ⟨r, hr⟩ := hWF.diff_leaf a b ha2 hb2
        rw [hmemo] at hr
        exact Option.noConfusion hr
      | succ m =>
        obtain ⟨an, ta00, ta01, ta10, ta11, ha2, hand, ha00, ha01, ha10, ha11, hta_eq⟩ :=
          toTree_succ_elim hta
        obtain ⟨bn, tb00, tb01, tb10, tb11, hb2, hbnd, hb00, hb01, hb10, hb11, htb_eq⟩ :=
          toTree_succ_elim htb
        subst hta_eq; subst htb_eq
        have hgeta : s.get a = some an := by
          rw [SPPstore.get, if_neg (by omega)]; exact hand
        have hgetb : s.get b = some bn := by
          rw [SPPstore.get, if_neg (by omega)]; exact hbnd
        obtain ⟨s1, r00, hu00, hWF1, hE1, ht00⟩ := ih hWF ha00 hb00 (by omega)
        obtain ⟨s2, r01, hu01, hWF2, hE2, ht01⟩ :=
          ih hWF1 (extends_toTree hE1 hWF ha01) (extends_toTree hE1 hWF hb01) (by omega)
        have hE12 := hE1.trans hE2
        obtain ⟨s3, r10, hu10, hWF3, hE3, ht10⟩ :=
          ih hWF2 (extends_toTree hE12 hWF ha10) (extends_toTree hE12 hWF hb10) (by omega)
        have hE13 := hE12.trans hE3
        obtain ⟨s4, r11, hu11, hWF4, hE4, ht11⟩ :=
          ih hWF3 (extends_toTree hE13 hWF ha11) (extends_toTree hE13 hWF hb11) (by omega)
        have hE14 := hE13.trans hE4
        obtain ⟨hWF5, hE5, htres⟩ := mk_toTree hWF4
          (extends_toTree (hE2.trans (hE3.trans hE4)) hWF1 ht00)
          (extends_toTree (hE3.trans hE4) hWF2 ht01)
          (extends_toTree hE4 hWF3 ht10) ht11
        set p := s4.mk r00 r01 r10 r11 with hp
        have hEall : Extends s p.1 := hE14.trans hE5
        have hta_p1 : toTree p.1.nodes (m + 1) a = some (.node ta00 ta01 ta10 ta11) :=
          extends_toTree hEall hWF hta
        have htb_p1 : toTree p.1.nodes (m + 1) b = some (.node tb00 tb01 tb10 tb11) :=
          extends_toTree hEall hWF htb
        refine ⟨{ p.1 with difference_memo := ((a, b), p.2) :: p.1.difference_memo }, p.2, ?_, ?_, ?_, ?_⟩
        · rw [hp]
          simp only [differenceF, hmemo, hgeta, hgetb, hu00, hu01, hu10, hu11]
        · refine ⟨hWF5.bounded, hWF5.hc_iff, hWF5.union_coh, hWF5.union_leaf, hWF5.inter_coh, hWF5.inter_leaf, hWF5.xor_coh, hWF5.xor_leaf, ?_, ?_, hWF5.seq_coh, hWF5.seq_leaf, hWF5.star_coh, hWF5.star_leaf, hWF5.compl_coh, hWF5.compl_leaf⟩
          · intro a' b' r' h'
            simp only [alookup] at h'
            by_cases hk : ((a', b') : Nat × Nat) = (a, b)
            · rw [if_pos hk] at h'
              cases hk
              cases h'
              refine ⟨toTree_lt hta_p1, toTree_lt htb_p1, toTree_lt htres, ?_⟩
              intro n' ta' tb' h1 h2
              have hn' := toTree_depth_unique h1 hta_p1
              subst hn'
              rw [h1] at hta_p1
              rw [h2] at htb_p1
              cases hta_p1
              cases htb_p1
              rw [htres]
              rfl
            · rw [if_neg hk] at h'
              exact hWF5.diff_coh a' b' r' h'
          · intro a' b' ha' hb'
            by_cases hk : ((a', b') : Nat × Nat) = (a, b)
            · exact ⟨p.2, by simp [alookup, hk]⟩
            · obtain ⟨r', hr'⟩ := hWF5.diff_leaf a' b' ha' hb'
              exact ⟨r', by rw [alookup, if_neg hk]; exact hr'⟩
        · exact ⟨hEall.num_vars_eq, hEall.nodes_ext, hEall.zero_eq, hEall.one_eq, hEall.top_eq⟩
        · exact htres

theorem complementF_spec :
    ∀ (fuel : Nat) {s : SPPstore} {a : Nat} {n : Nat} {ta : QTree n},
      WF s → toTree s.nodes n a = some ta → n < fuel →
      ∃ s' r, complementF fuel s a = some (s', r) ∧ WF s' ∧ Extends s s' ∧
        toTree s'.nodes n r = some (tcompl n ta) := by
  intro fuel
  induction fuel with
  | zero => intro s a n ta _ _ hn; omega
  | succ fuel ih =>
    intro s a n ta hWF hta hn
    cases hmemo : alookup s.complement_memo a with
    | some r =>
      refine ⟨s, r, ?_, hWF, Extends.refl s, ?_⟩
      · rw [complementF, hmemo]
      · exact (hWF.compl_coh a r hmemo).2.2 n ta hta
    | none =>
      cases n with
      | zero =>
        have ha2 : a < 2 := by
          rcases toTree_n0 hta with ⟨h0, _⟩ | ⟨h0, _⟩ <;> omega
        obtain ⟨r, hr⟩ := hWF.compl_leaf a ha2
        rw [hmemo] at hr
        exact Option.noConfusion hr
      | succ m =>
        obtain ⟨an, ta00, ta01, ta10, ta11, ha2, hand, ha00, ha01, ha10, ha11, hta_eq⟩ :=
          toTree_succ_elim hta
        subst hta_eq
        have hgeta : s.get a = some an := by
          rw [SPPstore.get, if_neg (by omega)]; exact hand
        obtain ⟨s1, r00, hu00, hWF1, hE1, ht00⟩ := ih hWF ha00 (by omega)
        obtain ⟨s2, r01, hu01, hWF2, hE2, ht01⟩ :=
          ih hWF1 (extends_toTree hE1 hWF ha01) (by omega)
        have hE12 := hE1.trans hE2
        obtain ⟨s3, r10, hu10, hWF3, hE3, ht10⟩ :=
          ih hWF2 (extends_toTree hE12 hWF ha10) (by omega)
        have hE13 := hE12.trans hE3
        obtain ⟨s4, r11, hu11, hWF4, hE4, ht11⟩ :=
          ih hWF3 (extends_toTree hE13 hWF ha11) (by omega)
        have hE14 := hE13.trans hE4
        obtain ⟨hWF5, hE5, htres⟩ := mk_toTree hWF4
          (extends_toTree (hE2.trans (hE3.trans hE4)) hWF1 ht00)
          (extends_toTree (hE3.trans hE4) hWF2 ht01)
          (extends_toTree hE4 hWF3 ht10) ht11
        set p := s4.mk r00 r01 r10 r11 with hp
        have hEall : Extends s p.1 := hE14.trans hE5
        have hta_p1 : toTree p.1.nodes (m + 1) a = some (.node ta00 ta01 ta10 ta11) :=
          extends_toTree hEall hWF hta
        refine ⟨{ p.1 with complement_memo := (a, p.2) :: p.1.complement_memo }, p.2,
          ?_, ?_, ?_, ?_⟩
        · rw [hp]
          simp only [complementF, hmemo, hgeta, hu00, hu01, hu10, hu11]
        · refine ⟨hWF5.bounded, hWF5.hc_iff, hWF5.union_coh, hWF5.union_leaf,
            hWF5.inter_coh, hWF5.inter_leaf, hWF5.xor_coh, hWF5.xor_leaf,
            hWF5.diff_coh, hWF5.diff_leaf, hWF5.seq_coh, hWF5.seq_leaf,
            hWF5.star_coh, hWF5.star_leaf, ?_, ?_⟩
          · intro a' r' h'
            simp only [alookup] at h'
            by_cases hk : a' = a
            · rw [if_pos hk] at h'
              cases hk
              cases h'
              refine ⟨toTree_lt hta_p1, toTree_lt htres, ?_⟩
              intro n' ta' h1
              have hn' := toTree_depth_unique h1 hta_p1
              subst hn'
              rw [h1] at hta_p1
              cases hta_p1
              rw [htres]
              rfl
            · rw [if_neg hk] at h'
              exact hWF5.compl_coh a' r' h'
          · intro a' ha'
            by_cases hk : a' = a
            · exact ⟨p.2, by simp [alookup, hk]⟩
            · obtain ⟨r', hr'⟩ := hWF5.compl_leaf a' ha'
              exact ⟨r', by rw [alookup, if_neg hk]; exact hr'⟩
        · exact ⟨hEall.num_vars_eq, hEall.nodes_ext, hEall.zero_eq, hEall.one_eq, hEall.top_eq⟩
        · exact htres

theorem sequenceF_spec :
    ∀ (fuel : Nat) {s : SPPstore} {a b : Nat} {n : Nat} {ta tb : QTree n},
      WF s → toTree s.nodes n a = some ta → toTree s.nodes n b = some tb → n < fuel →
      ∃ s' r, sequenceF fuel s a b = some (s', r) ∧ WF s' ∧ Extends s s' ∧
        toTree s'.nodes n r = some (tseq n ta tb) := by
  intro fuel
  induction fuel with
  | zero => intro s a b n ta tb _ _ _ hn; omega
  | succ fuel ih =>
    intro s a b n ta tb hWF hta htb hn
    cases hmemo : alookup s.sequence_memo (a, b) with
    | some r =>
      refine ⟨s, r, ?_, hWF, Extends.refl s, ?_⟩
      · rw [sequenceF, hmemo]
      · exact (hWF.seq_coh a b r hmemo).2.2.2 n ta tb hta htb
    | none =>
      cases n with
      | zero =>
        have ha2 : a < 2 := by
          rcases toTree_n0 hta with ⟨h0, _⟩ | ⟨h0, _⟩ <;> omega
        have hb2 : b < 2 := by
          rcases toTree_n0 htb with ⟨h0, _⟩ | ⟨h0, _⟩ <;> omega
        obtain ⟨r, hr⟩ := hWF.seq_leaf a b ha2 hb2
        rw [hmemo] at hr
        exact Option.noConfusion hr
      | succ m =>
        obtain ⟨an, ta00, ta01, ta10, ta11, ha2, hand, ha00, ha01, ha10, ha11, hta_eq⟩ :=
          toTree_succ_elim hta
        obtain ⟨bn, tb00, tb01, tb10, tb11, hb2, hbnd, hb00, hb01, hb10, hb11, htb_eq⟩ :=
          toTree_succ_elim htb
        subst hta_eq; subst htb_eq
        have hgeta : s.get a = some an := by
          rw [SPPstore.get, if_neg (by omega)]; exact hand
        have hgetb : s.get b = some bn := by
          rw [SPPstore.get, if_neg (by omega)]; exact hbnd
        obtain ⟨s1, q1, hsq1, hWF1, hE1, htq1⟩ := ih hWF ha00 hb00 (by omega)
        have hA1 : Extends s s1 := hE1
        obtain ⟨s2, q2, hsq2, hWF2, hE2, htq2⟩ :=
          ih hWF1 (extends_toTree hA1 hWF ha01) (extends_toTree hA1 hWF hb10) (by omega)
        have hA2 : Extends s s2 := hA1.trans hE2
        have htq1 := extends_toTree hE2 hWF1 htq1
        obtain ⟨s3, q3, hsq3, hWF3, hE3, htq3⟩ :=
          ih hWF2 (extends_toTree hA2 hWF ha00) (extends_toTree hA2 hWF hb01) (by omega)
        have hA3 : Extends s s3 := hA2.trans hE3
        have htq1 := extends_toTree hE3 hWF2 htq1
        have htq2 := extends_toTree hE3 hWF2 htq2
        obtain ⟨s4, q4, hsq4, hWF4, hE4, htq4⟩ :=
          ih hWF3 (extends_toTree hA3 hWF ha01) (extends_toTree hA3 hWF hb11) (by omega)
        have hA4 : Extends s s4 := hA3.trans hE4
        have htq1 := extends_toTree hE4 hWF3 htq1
        have htq2 := extends_toTree hE4 hWF3 htq2
        have htq3 := extends_toTree hE4 hWF3 htq3
        obtain ⟨s5, q5, hsq5, hWF5, hE5, htq5⟩ :=
          ih hWF4 (extends_toTree hA4 hWF ha10) (extends_toTree hA4 hWF hb00) (by omega)
        have hA5 : Extends s s5 := hA4.trans hE5
        have htq1 := extends_toTree hE5 hWF4 htq1
        have htq2 := extends_toTree hE5 hWF4 htq2
        have htq3 := extends_toTree hE5 hWF4 htq3
        have htq4 := extends_toTree hE5 hWF4 htq4
        obtain ⟨s6, q6, hsq6, hWF6, hE6, htq6⟩ :=
          ih hWF5 (extends_toTree hA5 hWF ha11) (extends_toTree hA5 hWF hb10) (by omega)
        have hA6 : Extends s s6 := hA5.trans hE6
        have htq1 := extends_toTree hE6 hWF5 htq1
        have htq2 := extends_toTree hE6 hWF5 htq2
        have htq3 := extends_toTree hE6 hWF5 htq3
        have htq4 := extends_toTree hE6 hWF5 htq4
        have htq5 := extends_toTree hE6 hWF5 htq5
        obtain ⟨s7, q7, hsq7, hWF7, hE7, htq7⟩ :=
          ih hWF6 (extends_toTree hA6 hWF ha10) (extends_toTree hA6 hWF hb01) (by omega)
        have hA7 : Extends s s7 := hA6.trans hE7
        have htq1 := extends_toTree hE7 hWF6 htq1
        have htq2 := extends_toTree hE7 hWF6 htq2
        have htq3 := extends_toTree hE7 hWF6 htq3
        have htq4 := extends_toTree hE7 hWF6 htq4
        have htq5 := extends_toTree hE7 hWF6 htq5
        have htq6 := extends_toTree hE7 hWF6 htq6
        obtain ⟨s8, q8, hsq8, hWF8, hE8, htq8⟩ :=
          ih hWF7 (extends_toTree hA7 hWF ha11) (extends_toTree hA7 hWF hb11) (by omega)
        have hA8 : Extends s s8 := hA7.trans hE8
        have htq1 := extends_toTree hE8 hWF7 htq1
        have htq2 := extends_toTree hE8 hWF7 htq2
        have htq3 := extends_toTree hE8 hWF7 htq3
        have htq4 := extends_toTree hE8 hWF7 htq4
        have htq5 := extends_toTree hE8 hWF7 htq5
        have htq6 := extends_toTree hE8 hWF7 htq6
        have htq7 := extends_toTree hE8 hWF7 htq7
        obtain ⟨s9, x00, hxu1, hWF9, hF1, htx00⟩ := unionF_spec fuel hWF8 htq1 htq2 (by omega)
        have hA9 : Extends s s9 := hA8.trans hF1
        have htq3 := extends_toTree hF1 hWF8 htq3
        have htq4 := extends_toTree hF1 hWF8 htq4
        have htq5 := extends_toTree hF1 hWF8 htq5
        have htq6 := extends_toTree hF1 hWF8 htq6
        have htq7 := extends_toTree hF1 hWF8 htq7
        have htq8 := extends_toTree hF1 hWF8 htq8
        obtain ⟨s10, x01, hxu2, hWF10, hF2, htx01⟩ := unionF_spec fuel hWF9 htq3 htq4 (by omega)
        have hA10 : Extends s s10 := hA9.trans hF2
        have htq5 := extends_toTree hF2 hWF9 htq5
        have htq6 := extends_toTree hF2 hWF9 htq6
        have htq7 := extends_toTree hF2 hWF9 htq7
        have htq8 := extends_toTree hF2 hWF9 htq8
        have htx00 := extends_toTree hF2 hWF9 htx00
        obtain ⟨s11, x10, hxu3, hWF11, hF3, htx10⟩ := unionF_spec fuel hWF10 htq5 htq6 (by omega)
        have hA11 : Extends s s11 := hA10.trans hF3
        have htq7 := extends_toTree hF3 hWF10 htq7
        have htq8 := extends_toTree hF3 hWF10 htq8
        have htx00 := extends_toTree hF3 hWF10 htx00
        have htx01 := extends_toTree hF3 hWF10 htx01
        obtain ⟨s12, x11, hxu4, hWF12, hF4, htx11⟩ := unionF_spec fuel hWF11 htq7 htq8 (by omega)
        have hA12 : Extends s s12 := hA11.trans hF4
        have htx00 := extends_toTree hF4 hWF11 htx00
        have htx01 := extends_toTree hF4 hWF11 htx01
        have htx10 := extends_toTree hF4 hWF11 htx10
        obtain ⟨hWFm, hEm, htres⟩ := mk_toTree hWF12 htx00 htx01 htx10 htx11
        set p := s12.mk x00 x01 x10 x11 with hp
        have hEall : Extends s p.1 := hA12.trans hEm
        have hta_p1 : toTree p.1.nodes (m + 1) a = some (.node ta00 ta01 ta10 ta11) :=
          extends_toTree hEall hWF hta
        have htb_p1 : toTree p.1.nodes (m + 1) b = some (.node tb00 tb01 tb10 tb11) :=
          extends_toTree hEall hWF htb
        refine ⟨{ p.1 with sequence_memo := ((a, b), p.2) :: p.1.sequence_memo }, p.2,
          ?_, ?_, ?_, ?_⟩
        · rw [hp]
          simp only [sequenceF, hmemo, hgeta, hgetb, hsq1, hsq2, hsq3, hsq4,
            hsq5, hsq6, hsq7, hsq8, hxu1, hxu2, hxu3, hxu4]
        · refine ⟨hWFm.bounded, hWFm.hc_iff, hWFm.union_coh, hWFm.union_leaf,
            hWFm.inter_coh, hWFm.inter_leaf, hWFm.xor_coh, hWFm.xor_leaf,
            hWFm.diff_coh, hWFm.diff_leaf, ?_, ?_, hWFm.star_coh, hWFm.star_leaf,
            hWFm.compl_coh, hWFm.compl_leaf⟩
          · intro a' b' r' h'
            simp only [alookup] at h'
            by_cases hk : ((a', b') : Nat × Nat) = (a, b)
            · rw [if_pos hk] at h'
              cases hk
              cases h'
              refine ⟨toTree_lt hta_p1, toTree_lt htb_p1, toTree_lt htres, ?_⟩
              intro n' ta' tb' h1 h2
              have hn' := toTree_depth_unique h1 hta_p1
              subst hn'
              rw [h1] at hta_p1
              rw [h2] at htb_p1
              cases hta_p1
              cases htb_p1
              rw [htres]
              rfl
            · rw [if_neg hk] at h'
              exact hWFm.seq_coh a' b' r' h'
          · intro a' b' ha' hb'
            by_cases hk : ((a', b') : Nat × Nat) = (a, b)
            · exact ⟨p.2, by simp [alookup, hk]⟩
            · obtain ⟨r', hr'⟩ := hWFm.seq_leaf a' b' ha' hb'
              exact ⟨r', by rw [alookup, if_neg hk]; exact hr'⟩
        · exact ⟨hEall.num_vars_eq, hEall.nodes_ext, hEall.zero_eq, hEall.one_eq, hEall.top_eq⟩
        · exact htres

theorem starF_spec :
    ∀ (fuel : Nat) {s : SPPstore} {x : Nat} {n : Nat} {tx : QTree n},
      WF s → toTree s.nodes n x = some tx → n < fuel →
      ∃ s' r, starF fuel s x = some (s', r) ∧ WF s' ∧ Extends s s' ∧
        toTree s'.nodes n r = some (tstar n tx) := by
  intro fuel
  induction fuel with
  | zero => intro s x n tx _ _ hn; omega
  | succ fuel ih =>
    intro s x n tx hWF htx hn
    cases hmemo : alookup s.star_memo x with
    | some r =>
      refine ⟨s, r, ?_, hWF, Extends.refl s, ?_⟩
      · rw [starF, hmemo]
      · exact (hWF.star_coh x r hmemo).2.2 n tx htx
    | none =>
      cases n with
      | zero =>
        have hx2 : x < 2 := by
          rcases toTree_n0 htx with ⟨h0, _⟩ | ⟨h0, _⟩ <;> omega
        obtain ⟨r, hr⟩ := hWF.star_leaf x hx2
        rw [hmemo] at hr
        exact Option.noConfusion hr
      | succ m =>
        obtain ⟨xn, ta00, ta01, ta10, ta11, hx2, hxnd, ha00, ha01, ha10, ha11, htx_eq⟩ :=
          toTree_succ_elim htx
        subst htx_eq
        have hgetx : s.get x = some xn := by
          rw [SPPstore.get, if_neg (by omega)]; exact hxnd
        -- d_star = star d
        obtain ⟨s1, ds, hc1, hWF1, hE1, htds⟩ := ih hWF ha11 (by omega)
        have hA1 : Extends s s1 := hE1
        -- bd_star = sequence b d_star
        obtain ⟨s2, bds, hc2, hWF2, hE2, htbds⟩ :=
          sequenceF_spec fuel hWF1 (extends_toTree hA1 hWF ha01) htds (by omega)
        have hA2 : Extends s s2 := hA1.trans hE2
        have htds := extends_toTree hE2 hWF1 htds
        -- bd_star_c = sequence bd_star c
        obtain ⟨s3, bdsc, hc3, hWF3, hE3, htbdsc⟩ :=
          sequenceF_spec fuel hWF2 htbds (extends_toTree hA2 hWF ha10) (by omega)
        have hA3 : Extends s s3 := hA2.trans hE3
        have htds := extends_toTree hE3 hWF2 htds
        have htbds := extends_toTree hE3 hWF2 htbds
        -- a_plus_bdc = union a bd_star_c
        obtain ⟨s4, apb, hc4, hWF4, hE4, htapb⟩ :=
          unionF_spec fuel hWF3 (extends_toTree hA3 hWF ha00) htbdsc (by omega)
        have hA4 : Extends s s4 := hA3.trans hE4
        have htds := extends_toTree hE4 hWF3 htds
        have htbds := extends_toTree hE4 hWF3 htbds
        -- res_a = star a_plus_bdc
        obtain ⟨s5, e, hc5, hWF5, hE5, hte⟩ := ih hWF4 htapb (by omega)
        have hA5 : Extends s s5 := hA4.trans hE5
        have htds := extends_toTree hE5 hWF4 htds
        have htbds := extends_toTree hE5 hWF4 htbds
        -- res_a_bd_star = sequence res_a bd_star
        obtain ⟨s6, ebds, hc6, hWF6, hE6, htebds⟩ :=
          sequenceF_spec fuel hWF5 hte htbds (by omega)
        have hA6 : Extends s s6 := hA5.trans hE6
        have htds := extends_toTree hE6 hWF5 htds
        have htbds := extends_toTree hE6 hWF5 htbds
        have hte := extends_toTree hE6 hWF5 hte
        -- c_res_a = sequence c res_a
        obtain ⟨s7, ce, hc7, hWF7, hE7, htce⟩ :=
          sequenceF_spec fuel hWF6 (extends_toTree hA6 hWF ha10) hte (by omega)
        have hA7 : Extends s s7 := hA6.trans hE7
        have htds := extends_toTree hE7 hWF6 htds
        have htbds := extends_toTree hE7 hWF6 htbds
        have hte := extends_toTree hE7 hWF6 hte
        have htebds := extends_toTree hE7 hWF6 htebds
        -- d_star_c_res_a = sequence d_star c_res_a
        obtain ⟨s8, dsce, hc8, hWF8, hE8, htdsce⟩ :=
          sequenceF_spec fuel hWF7 htds htce (by omega)
        have hA8 : Extends s s8 := hA7.trans hE8
        have htds := extends_toTree hE8 hWF7 htds
        have htbds := extends_toTree hE8 hWF7 htbds
        have hte := extends_toTree hE8 hWF7 hte
        have htebds := extends_toTree hE8 hWF7 htebds
        -- res_c_bd_star = sequence d_star_c_res_a bd_star
        obtain ⟨s9, rcbds, hc9, hWF9, hE9, htrcbds⟩ :=
          sequenceF_spec fuel hWF8 htdsce htbds (by omega)
        have hA9 : Extends s s9 := hA8.trans hE9
        have htds := extends_toTree hE9 hWF8 htds
        have hte := extends_toTree hE9 hWF8 hte
        have htebds := extends_toTree hE9 hWF8 htebds
        have htdsce := extends_toTree hE9 hWF8 htdsce
        -- res_d = union d_star res_c_bd_star
        obtain ⟨s10, resd, hc10, hWF10, hE10, htresd⟩ :=
          unionF_spec fuel hWF9 htds htrcbds (by omega)
        have hA10 : Extends s s10 := hA9.trans hE10
        have hte := extends_toTree hE10 hWF9 hte
        have htebds := extends_toTree hE10 hWF9 htebds
        have htdsce := extends_toTree hE10 hWF9 htdsce
        obtain ⟨hWFm, hEm, htres⟩ := mk_toTree hWF10 hte htebds htdsce htresd
        set p := s10.mk e ebds dsce resd with hp
        have hEall : Extends s p.1 := hA10.trans hEm
        have htx_p1 : toTree p.1.nodes (m + 1) x = some (.node ta00 ta01 ta10 ta11) :=
          extends_toTree hEall hWF htx
        refine ⟨{ p.1 with star_memo := (x, p.2) :: p.1.star_memo }, p.2, ?_, ?_, ?_, ?_⟩
        · rw [hp]
          simp only [starF, hmemo, hgetx, hc1, hc2, hc3, hc4, hc5, hc6, hc7, hc8, hc9, hc10]
        · refine ⟨hWFm.bounded, hWFm.hc_iff, hWFm.union_coh, hWFm.union_leaf,
            hWFm.inter_coh, hWFm.inter_leaf, hWFm.xor_coh, hWFm.xor_leaf,
            hWFm.diff_coh, hWFm.diff_leaf, hWFm.seq_coh, hWFm.seq_leaf, ?_, ?_,
            hWFm.compl_coh, hWFm.compl_leaf⟩
          · intro a' r' h'
            simp only [alookup] at h'
            by_cases hk : a' = x
            · rw [if_pos hk] at h'
              cases hk
              cases h'
              refine ⟨toTree_lt htx_p1, toTree_lt htres, ?_⟩
              intro n' tx' h1
              have hn' := toTree_depth_unique h1 htx_p1
              subst hn'
              rw [h1] at htx_p1
              cases htx_p1
              rw [htres]
              rfl
            · rw [if_neg hk] at h'
              exact hWFm.star_coh a' r' h'
          · intro a' ha'
            by_cases hk : a' = x
            · exact ⟨p.2, by simp [alookup, hk]⟩
            · obtain ⟨r', hr'⟩ := hWFm.star_leaf a' ha'
              exact ⟨r', by rw [alookup, if_neg hk]; exact hr'⟩
        · exact ⟨hEall.num_vars_eq, hEall.nodes_ext, hEall.zero_eq, hEall.one_eq, hEall.top_eq⟩
        · exact htres

/-! Well-formedness of a freshly created store. -/

theorem memoOk2_leaf_entry {nodes : List SPPnode}
    {f : (n : Nat) → QTree n → QTree n → QTree n} {a b r : Nat}
    (ha : a < 2) (hb : b < 2) (hr : r < 2)
    (hfe : some (QTree.leaf (decide (r = 1))) =
      some (f 0 (.leaf (decide (a = 1))) (.leaf (decide (b = 1))))) :
    memoOk2 nodes f a b r := by
  refine ⟨by omega, by omega, by omega, ?_⟩
  intro n ta tb h1 h2
  have hn : n = 0 := by
    cases n with
    | zero => rfl
    | succ m => have := toTree_succ_ge2 h1; omega
  subst hn
  have hta : ta = .leaf (decide (a = 1)) := by
    rcases toTree_n0 h1 with ⟨h0, e⟩ | ⟨h0, e⟩ <;> subst h0 <;> simp [e]
  have htb : tb = .leaf (decide (b = 1)) := by
    rcases toTree_n0 h2 with ⟨h0, e⟩ | ⟨h0, e⟩ <;> subst h0 <;> simp [e]
  subst hta; subst htb
  rw [← hfe]
  match r, hr with
  | 0, _ => exact toTree_0_0 _
  | 1, _ => exact toTree_0_1 _

theorem memoOk1_leaf_entry {nodes : List SPPnode}
    {f : (n : Nat) → QTree n → QTree n} {a r : Nat}
    (ha : a < 2) (hr : r < 2)
    (hfe : some (QTree.leaf (decide (r = 1))) = some (f 0 (.leaf (decide (a = 1))))) :
    memoOk1 nodes f a r := by
  refine ⟨by omega, by omega, ?_⟩
  intro n ta h1
  have hn : n = 0 := by
    cases n with
    | zero => rfl
    | succ m => have := toTree_succ_ge2 h1; omega
  subst hn
  have hta : ta = .leaf (decide (a = 1)) := by
    rcases toTree_n0 h1 with ⟨h0, e⟩ | ⟨h0, e⟩ <;> subst h0 <;> simp [e]
  subst hta
  rw [← hfe]
  match r, hr with
  | 0, _ => exact toTree_0_0 _
  | 1, _ => exact toTree_0_1 _

theorem WF_set_zero {s : SPPstore} (hWF : WF s) (z : Nat) : WF { s with zero := z } :=
  ⟨hWF.bounded, hWF.hc_iff, hWF.union_coh, hWF.union_leaf, hWF.inter_coh, hWF.inter_leaf,
   hWF.xor_coh, hWF.xor_leaf, hWF.diff_coh, hWF.diff_leaf, hWF.seq_coh, hWF.seq_leaf,
   hWF.star_coh, hWF.star_leaf, hWF.compl_coh, hWF.compl_leaf⟩

theorem WF_set_one {s : SPPstore} (hWF : WF s) (z : Nat) : WF { s with one := z } :=
  ⟨hWF.bounded, hWF.hc_iff, hWF.union_coh, hWF.union_leaf, hWF.inter_coh, hWF.inter_leaf,
   hWF.xor_coh, hWF.xor_leaf, hWF.diff_coh, hWF.diff_leaf, hWF.seq_coh, hWF.seq_leaf,
   hWF.star_coh, hWF.star_leaf, hWF.compl_coh, hWF.compl_leaf⟩

theorem WF_set_top {s : SPPstore} (hWF : WF s) (z : Nat) : WF { s with top := z } :=
  ⟨hWF.bounded, hWF.hc_iff, hWF.union_coh, hWF.union_leaf, hWF.inter_coh, hWF.inter_leaf,
   hWF.xor_coh, hWF.xor_leaf, hWF.diff_coh, hWF.diff_leaf, hWF.seq_coh, hWF.seq_leaf,
   hWF.star_coh, hWF.star_leaf, hWF.compl_coh, hWF.compl_leaf⟩

theorem mkIter_zero_spec :
    ∀ (c : Nat) {s : SPPstore} {h : Nat} {n : Nat},
      WF s → toTree s.nodes n h = some (tzero n) →
      ∃ s' h', mkIter s h c = (s', h') ∧ WF s' ∧ Extends s s' ∧
        toTree s'.nodes (n + c) h' = some (tzero (n + c)) := by
  intro c
  induction c with
  | zero => intro s h n hWF ht; exact ⟨s, h, rfl, hWF, Extends.refl s, ht⟩
  | succ c ih =>
    intro s h n hWF ht
    obtain ⟨hWF1, hE1, ht1⟩ := mk_toTree hWF ht ht ht ht
    obtain ⟨s', h', heq, hWF', hE', ht'⟩ := ih hWF1 ht1
    refine ⟨s', h', ?_, hWF', hE1.trans hE', ?_⟩
    · rw [mkIter]; exact heq
    · have harith : n + 1 + c = n + (c + 1) := by omega
      rw [harith] at ht'
      exact ht'

theorem mkIter_top_spec :
    ∀ (c : Nat) {s : SPPstore} {h : Nat} {n : Nat},
      WF s → toTree s.nodes n h = some (ttop n) →
      ∃ s' h', mkIter s h c = (s', h') ∧ WF s' ∧ Extends s s' ∧
        toTree s'.nodes (n + c) h' = some (ttop (n + c)) := by
  intro c
  induction c with
  | zero => intro s h n hWF ht; exact ⟨s, h, rfl, hWF, Extends.refl s, ht⟩
  | succ c ih =>
    intro s h n hWF ht
    obtain ⟨hWF1, hE1, ht1⟩ := mk_toTree hWF ht ht ht ht
    obtain ⟨s', h', heq, hWF', hE', ht'⟩ := ih hWF1 ht1
    refine ⟨s', h', ?_, hWF', hE1.trans hE', ?_⟩
    · rw [mkIter]; exact heq
    · have harith : n + 1 + c = n + (c + 1) := by omega
      rw [harith] at ht'
      exact ht'

theorem oneIter_spec :
    ∀ (c : Nat) {s : SPPstore} {h1 h0 : Nat} {n : Nat},
      WF s → toTree s.nodes n h1 = some (tone n) → toTree s.nodes n h0 = some (tzero n) →
      ∃ s' h', oneIter s h1 h0 c = (s', h') ∧ WF s' ∧ Extends s s' ∧
        toTree s'.nodes (n + c) h' = some (tone (n + c)) := by
  intro c
  induction c with
  | zero => intro s h1 h0 n hWF ht1 ht0; exact ⟨s, h1, rfl, hWF, Extends.refl s, ht1⟩
  | succ c ih =>
    intro s h1 h0 n hWF ht1 ht0
    obtain ⟨hWFa, hEa, hta⟩ := mk_toTree hWF ht1 ht0 ht0 ht1
    have ht0a := extends_toTree hEa hWF ht0
    obtain ⟨hWFb, hEb, htb⟩ := mk_toTree hWFa ht0a ht0a ht0a ht0a
    have htab := extends_toTree hEb hWFa hta
    obtain ⟨s', h', heq, hWF', hE', ht'⟩ := ih hWFb htab htb
    refine ⟨s', h', ?_, hWF', (hEa.trans hEb).trans hE', ?_⟩
    · rw [oneIter]; exact heq
    · have harith : n + 1 + c = n + (c + 1) := by omega
      rw [harith] at ht'
      exact ht'

theorem new_spec (k : Nat) :
    WF (SPPstore.new k) ∧ (SPPstore.new k).num_vars = k ∧
      toTree (SPPstore.new k).nodes k (SPPstore.new k).zero = some (tzero k) ∧
      toTree (SPPstore.new k).nodes k (SPPstore.new k).one = some (tone k) ∧
      toTree (SPPstore.new k).nodes k (SPPstore.new k).top = some (ttop k) := by
  have hWF0 : WF
      { num_vars := k, nodes := [], hc := [], zero := 0, one := 0, top := 0,
        union_memo := [((0, 0), 0), ((0, 1), 1), ((1, 0), 1), ((1, 1), 1)],
        intersect_memo := [((0, 0), 0), ((0, 1), 0), ((1, 0), 0), ((1, 1), 1)],
        xor_memo := [((0, 0), 0), ((0, 1), 1), ((1, 0), 1), ((1, 1), 0)],
        difference_memo := [((0, 0), 0), ((0, 1), 0), ((1, 0), 1), ((1, 1), 0)],
        sequence_memo := [((0, 0), 0), ((0, 1), 0), ((1, 0), 0), ((1, 1), 1)],
        star_memo := [(0, 1), (1, 1)],
        complement_memo := [(0, 1), (1, 0)],
        branch_memo := [] } := by
    refine ⟨?_, ?_, ?_, ?_, ?_, ?_, ?_, ?_, ?_, ?_, ?_, ?_, ?_, ?_, ?_, ?_⟩
    · intro i nd h
      simp at h
    · intro nd h
      constructor
      · intro hl
        simp [alookup] at hl
      · rintro ⟨h2, hget⟩
        simp at hget
    · intro a b r h
      simp only [alookup] at h
      split_ifs at h with k1 k2 k3 k4
      · injection k1 with e1 e2
        subst e1; subst e2; cases h
        exact memoOk2_leaf_entry (by omega) (by omega) (by omega) (by decide)
      · injection k2 with e1 e2
        subst e1; subst e2; cases h
        exact memoOk2_leaf_entry (by omega) (by omega) (by omega) (by decide)
      · injection k3 with e1 e2
        subst e1; subst e2; cases h
        exact memoOk2_leaf_entry (by omega) (by omega) (by omega) (by decide)
      · injection k4 with e1 e2
        subst e1; subst e2; cases h
        exact memoOk2_leaf_entry (by omega) (by omega) (by omega) (by decide)
    · intro a b ha hb
      interval_cases a <;> interval_cases b <;> exact ⟨_, rfl⟩
    · intro a b r h
      simp only [alookup] at h
      split_ifs at h with k1 k2 k3 k4
      · injection k1 with e1 e2
        subst e1; subst e2; cases h
        exact memoOk2_leaf_entry (by omega) (by omega) (by omega) (by decide)
      · injection k2 with e1 e2
        subst e1; subst e2; cases h
        exact memoOk2_leaf_entry (by omega) (by omega) (by omega) (by decide)
      · injection k3 with e1 e2
        subst e1; subst e2; cases h
        exact memoOk2_leaf_entry (by omega) (by omega) (by omega) (by decide)
      · injection k4 with e1 e2
        subst e1; subst e2; cases h
        exact memoOk2_leaf_entry (by omega) (by omega) (by omega) (by decide)
    · intro a b ha hb
      interval_cases a <;> interval_cases b <;> exact ⟨_, rfl⟩
    · intro a b r h
      simp only [alookup] at h
      split_ifs at h with k1 k2 k3 k4
      · injection k1 with e1 e2
        subst e1; subst e2; cases h
        exact memoOk2_leaf_entry (by omega) (by omega) (by omega) (by decide)
      · injection k2 with e1 e2
        subst e1; subst e2; cases h
        exact memoOk2_leaf_entry (by omega) (by omega) (by omega) (by decide)
      · injection k3 with e1 e2
        subst e1; subst e2; cases h
        exact memoOk2_leaf_entry (by omega) (by omega) (by omega) (by decide)
      · injection k4 with e1 e2
        subst e1; subst e2; cases h
        exact memoOk2_leaf_entry (by omega) (by omega) (by omega) (by decide)
    · intro a b ha hb
      interval_cases a <;> interval_cases b <;> exact ⟨_, rfl⟩
    · intro a b r h
      simp only [alookup] at h
      split_ifs at h with k1 k2 k3 k4
      · injection k1 with e1 e2
        subst e1; subst e2; cases h
        exact memoOk2_leaf_entry (by omega) (by omega) (by omega) (by decide)
      · injection k2 with e1 e2
        subst e1; subst e2; cases h
        exact memoOk2_leaf_entry (by omega) (by omega) (by omega) (by decide)
      · injection k3 with e1 e2
        subst e1; subst e2; cases h
        exact memoOk2_leaf_entry (by omega) (by omega) (by omega) (by decide)
      · injection k4 with e1 e2
        subst e1; subst e2; cases h
        exact memoOk2_leaf_entry (by omega) (by omega) (by omega) (by decide)
    · intro a b ha hb
      interval_cases a <;> interval_cases b <;> exact ⟨_, rfl⟩
    · intro a b r h
      simp only [alookup] at h
      split_ifs at h with k1 k2 k3 k4
      · injection k1 with e1 e2
        subst e1; subst e2; cases h
        exact memoOk2_leaf_entry (by omega) (by omega) (by omega) (by decide)
      · injection k2 with e1 e2
        subst e1; subst e2; cases h
        exact memoOk2_leaf_entry (by omega) (by omega) (by omega) (by decide)
      · injection k3 with e1 e2
        subst e1; subst e2; cases h
        exact memoOk2_leaf_entry (by omega) (by omega) (by omega) (by decide)
      · injection k4 with e1 e2
        subst e1; subst e2; cases h
        exact memoOk2_leaf_entry (by omega) (by omega) (by omega) (by decide)
    · intro a b ha hb
      interval_cases a <;> interval_cases b <;> exact ⟨_, rfl⟩
    · intro a r h
      simp only [alookup] at h
      split_ifs at h with k1 k2
      · subst k1; cases h
        exact memoOk1_leaf_entry (by omega) (by omega) (by decide)
      · subst k2; cases h
        exact memoOk1_leaf_entry (by omega) (by omega) (by decide)
    · intro a ha
      interval_cases a <;> exact ⟨_, rfl⟩
    · intro a r h
      simp only [alookup] at h
      split_ifs at h with k1 k2
      · subst k1; cases h
        exact memoOk1_leaf_entry (by omega) (by omega) (by decide)
      · subst k2; cases h
        exact memoOk1_leaf_entry (by omega) (by omega) (by decide)
    · intro a ha
      interval_cases a <;> exact ⟨_, rfl⟩
  obtain ⟨sz, z, heqz, hWFz, hEz, htz⟩ :=
    mkIter_zero_spec k hWF0 (toTree_0_0 _)
  rw [Nat.zero_add] at htz
  have hWF1 : WF { sz with zero := z } := WF_set_zero hWFz z
  obtain ⟨so, o, heqo, hWFo, hEo, hto⟩ :=
    oneIter_spec (s := { sz with zero := z }) k hWF1 (toTree_0_1 _) (toTree_0_0 _)
  rw [Nat.zero_add] at hto
  have hWF2 : WF { so with one := o } := WF_set_one hWFo o
  obtain ⟨st, t, heqt, hWFt, hEt, htt⟩ :=
    mkIter_top_spec (s := { so with one := o }) k hWF2 (toTree_0_1 _)
  rw [Nat.zero_add] at htt
  have hnew : SPPstore.new k = { st with top := t } := by
    rw [SPPstore.new]
    simp only [heqz, heqo, heqt]
  have hz_st : toTree st.nodes k z = some (tzero k) :=
    extends_toTree hEt hWF2 (extends_toTree hEo hWF1 htz)
  have ho_st : toTree st.nodes k o = some (tone k) :=
    extends_toTree hEt hWF2 hto
  have e1 : st.zero = so.zero := hEt.zero_eq
  have e2 : so.zero = z := hEo.zero_eq
  have hzeq : st.zero = z := e1.trans e2
  have hoeq : st.one = o := hEt.one_eq
  have n1 : st.num_vars = so.num_vars := hEt.num_vars_eq
  have n2 : so.num_vars = sz.num_vars := hEo.num_vars_eq
  have n3 : sz.num_vars = k := hEz.num_vars_eq
  have hnv : st.num_vars = k := (n1.trans n2).trans n3
  rw [hnew]
  refine ⟨WF_set_top hWFt t, ?_, ?_, ?_, ?_⟩
  · show st.num_vars = k
    exact hnv
  · show toTree st.nodes k st.zero = some (tzero k)
    rw [hzeq]; exact hz_st
  · show toTree st.nodes k st.one = some (tone k)
    rw [hoeq]; exact ho_st
  · show toTree st.nodes k t = some (ttop k)
    exact htt

/-! The relation denoted by a tree: basic lemmas. -/

theorem evalT_cons {n : Nat} (a00 a01 a10 a11 : QTree n) (v w : Bool) (p q : Pkt n) :
    evalT (n + 1) (.node a00 a01 a10 a11) (Fin.cons v p) (Fin.cons w q) =
      evalT n (match v, w with
               | false, false => a00
               | false, true => a01
               | true, false => a10
               | true, true => a11) p q := by
  simp [evalT, Fin.cons_zero, Fin.tail_cons]

theorem qtree_ext : ∀ {n : Nat} {t u : QTree n},
    (∀ p q : Pkt n, evalT n t p q = evalT n u p q) → t = u := by
  intro n
  induction n with
  | zero =>
    intro t u h
    cases t with | leaf a =>
    cases u with | leaf b =>
    have := h (fun i => i.elim0) (fun i => i.elim0)
    simpa [evalT] using this
  | succ n ih =>
    intro t u h
    cases t with | node a00 a01 a10 a11 =>
    cases u with | node b00 b01 b10 b11 =>
    have e00 : a00 = b00 := ih fun p q => by
      have := h (Fin.cons false p) (Fin.cons false q)
      simpa [evalT_cons] using this
    have e01 : a01 = b01 := ih fun p q => by
      have := h (Fin.cons false p) (Fin.cons true q)
      simpa [evalT_cons] using this
    have e10 : a10 = b10 := ih fun p q => by
      have := h (Fin.cons true p) (Fin.cons false q)
      simpa [evalT_cons] using this
    have e11 : a11 = b11 := ih fun p q => by
      have := h (Fin.cons true p) (Fin.cons true q)
      simpa [evalT_cons] using this
    rw [e00, e01, e10, e11]

theorem evalT_tunion : ∀ (n : Nat) (t u : QTree n) (p q : Pkt n),
    evalT n (tunion n t u) p q = (evalT n t p q || evalT n u p q) := by
  intro n
  induction n with
  | zero => intro t u p q; cases t; cases u; rfl
  | succ n ih =>
    intro t u p q
    cases t with | node a00 a01 a10 a11 =>
    cases u with | node b00 b01 b10 b11 =>
    simp only [tunion, evalT]
    cases hp : p 0 <;> cases hq : q 0 <;> simp only [ih]

theorem evalT_tzero : ∀ (n : Nat) (p q : Pkt n), evalT n (tzero n) p q = false := by
  intro n
  induction n with
  | zero => intro p q; rfl
  | succ n ih =>
    intro p q
    simp only [tzero, evalT]
    cases hp : p 0 <;> cases hq : q 0 <;> simp only [ih]

theorem evalT_tone : ∀ (n : Nat) (p q : Pkt n),
    evalT n (tone n) p q = true ↔ p = q := by
  intro n
  induction n with
  | zero =>
    intro p q
    simp only [tone, evalT]
    constructor
    · intro _
      funext i
      exact i.elim0
    · intro _
      trivial
  | succ n ih =>
    intro p q
    have hp : p = Fin.cons (p 0) (Fin.tail p) := (Fin.cons_self_tail p).symm
    have hq : q = Fin.cons (q 0) (Fin.tail q) := (Fin.cons_self_tail q).symm
    rw [hp, hq]
    simp only [tone, evalT_cons]
    cases p 0 <;> cases q 0 <;>
      simp only [ih, evalT_tzero, Fin.cons_eq_cons] <;> simp

theorem exists_pkt_succ {n : Nat} (P : Pkt (n + 1) → Prop) :
    (∃ m : Pkt (n + 1), P m) ↔ ∃ (b : Bool) (m : Pkt n), P (Fin.cons b m) := by
  constructor
  · rintro ⟨m, hm⟩
    exact ⟨m 0, Fin.tail m, by rwa [Fin.cons_self_tail]⟩
  · rintro ⟨b, m, hm⟩
    exact ⟨Fin.cons b m, hm⟩

theorem evalT_tseq : ∀ (n : Nat) (t u : QTree n) (p q : Pkt n),
    evalT n (tseq n t u) p q = true ↔
      ∃ m : Pkt n, evalT n t p m = true ∧ evalT n u m q = true := by
  intro n
  induction n with
  | zero =>
    intro t u p q
    cases t with | leaf a =>
    cases u with | leaf b =>
    simp only [tseq, evalT, Bool.and_eq_true]
    constructor
    · rintro ⟨h1, h2⟩
      exact ⟨p, h1, h2⟩
    · rintro ⟨m, h1, h2⟩
      exact ⟨h1, h2⟩
  | succ n ih =>
    intro t u p q
    cases t with | node a00 a01 a10 a11 =>
    cases u with | node b00 b01 b10 b11 =>
    have key : ∀ (v w : Bool) (p' q' : Pkt n),
        evalT (n + 1) (tseq (n + 1) (.node a00 a01 a10 a11) (.node b00 b01 b10 b11))
            (Fin.cons v p') (Fin.cons w q') = true ↔
          ∃ m : Pkt (n + 1),
            evalT (n + 1) (.node a00 a01 a10 a11) (Fin.cons v p') m = true ∧
            evalT (n + 1) (.node b00 b01 b10 b11) m (Fin.cons w q') = true := by
      intro v w p' q'
      rw [exists_pkt_succ]
      simp only [Bool.exists_bool]
      cases v <;> cases w <;>
        simp only [tseq, evalT_cons, evalT_tunion, Bool.or_eq_true, ih] <;>
        tauto
    have hp : p = Fin.cons (p 0) (Fin.tail p) := (Fin.cons_self_tail p).symm
    have hq : q = Fin.cons (q 0) (Fin.tail q) := (Fin.cons_self_tail q).symm
    rw [hp, hq]
    exact key (p 0) (q 0) (Fin.tail p) (Fin.tail q)

/-! Reflexive-transitive-closure machinery and the 2x2 block star lemma. -/

theorem rtc_congr {α : Type} {r r' : α → α → Prop} (h : ∀ a b, r a b ↔ r' a b) :
    ∀ {x y : α}, Relation.ReflTransGen r x y ↔ Relation.ReflTransGen r' x y := by
  intro x y
  constructor
  · intro hr
    induction hr with
    | refl => exact .refl
    | tail _ hstep ihh => exact ihh.tail ((h _ _).mp hstep)
  · intro hr
    induction hr with
    | refl => exact .refl
    | tail _ hstep ihh => exact ihh.tail ((h _ _).mpr hstep)

theorem rtc_comap_iff {β γ : Type} (f : β → γ) (g : γ → β)
    (hgf : ∀ b, g (f b) = b) (hfg : ∀ c, f (g c) = c) (R : γ → γ → Prop) (x y : β) :
    Relation.ReflTransGen (fun u v => R (f u) (f v)) x y ↔
      Relation.ReflTransGen R (f x) (f y) := by
  constructor
  · intro h
    induction h with
    | refl => exact .refl
    | tail _ hstep ihh => exact ihh.tail hstep
  · intro h
    have aux : ∀ c d, Relation.ReflTransGen R c d →
        Relation.ReflTransGen (fun u v => R (f u) (f v)) (g c) (g d) := by
      intro c d hcd
      induction hcd with
      | refl => exact .refl
      | tail _ hstep ihh =>
        refine ihh.tail ?_
        show R (f (g _)) (f (g _))
        rw [hfg, hfg]
        exact hstep
    have h2 := aux _ _ h
    rw [hgf, hgf] at h2
    exact h2

theorem starE_refl {α : Type} {A B C D : α → α → Prop} (p : α) : starE A B C D p p :=
  Relation.ReflTransGen.refl

theorem starE_tail_A {α : Type} {A B C D : α → α → Prop} {p q r : α}
    (h : starE A B C D p q) (ha : A q r) : starE A B C D p r :=
  Relation.ReflTransGen.tail h (Or.inl ha)

theorem starE_tail_BDC {α : Type} {A B C D : α → α → Prop} {p q m m' r : α}
    (h : starE A B C D p q) (hb : B q m) (hd : Relation.ReflTransGen D m m')
    (hc : C m' r) : starE A B C D p r :=
  Relation.ReflTransGen.tail h (Or.inr ⟨m', ⟨m, hb, hd⟩, hc⟩)

theorem starBlocks_step {α : Type} {A B C D : α → α → Prop} {x y z : Bool × α}
    (hxy : starBlocks A B C D x y) (hyz : blockRel A B C D y z) :
    starBlocks A B C D x z := by
  obtain ⟨vx, px⟩ := x
  obtain ⟨vy, py⟩ := y
  obtain ⟨vz, pz⟩ := z
  cases vx <;> cases vy <;> cases vz <;>
    simp only [starBlocks, blockRel, relComp] at hxy hyz ⊢
  · exact starE_tail_A hxy hyz
  · exact ⟨py, hxy, pz, hyz, Relation.ReflTransGen.refl⟩
  · obtain ⟨y', he, x', hb, hd⟩ := hxy
    exact starE_tail_BDC he hb hd hyz
  · obtain ⟨y', he, x', hb, hd⟩ := hxy
    exact ⟨y', he, x', hb, Relation.ReflTransGen.tail hd hyz⟩
  · obtain ⟨y', hd, x', hc, he⟩ := hxy
    exact ⟨y', hd, x', hc, starE_tail_A he hyz⟩
  · exact Or.inr ⟨py, hxy, pz, hyz, Relation.ReflTransGen.refl⟩
  · cases hxy with
    | inl hd => exact ⟨py, hd, pz, hyz, starE_refl pz⟩
    | inr hh =>
      obtain ⟨y', ⟨w, hd1, v, hc1, he⟩, x', hb, hd2⟩ := hh
      exact ⟨w, hd1, v, hc1, starE_tail_BDC he hb hd2 hyz⟩
  · cases hxy with
    | inl hd => exact Or.inl (Relation.ReflTransGen.tail hd hyz)
    | inr hh =>
      obtain ⟨y', hfront, x', hb, hd2⟩ := hh
      exact Or.inr ⟨y', hfront, x', hb, Relation.ReflTransGen.tail hd2 hyz⟩

theorem rtc_block_to_starBlocks {α : Type} {A B C D : α → α → Prop} {x y : Bool × α}
    (h : Relation.ReflTransGen (blockRel A B C D) x y) : starBlocks A B C D x y := by
  induction h with
  | refl =>
    obtain ⟨vx, px⟩ := x
    cases vx <;> simp only [starBlocks, blockRel]
    · exact starE_refl px
    · exact Or.inl Relation.ReflTransGen.refl
  | tail _ hstep ihh => exact starBlocks_step ihh hstep

theorem Ds_sub_rtc_block {α : Type} {A B C D : α → α → Prop} {p q : α}
    (h : Relation.ReflTransGen D p q) :
    Relation.ReflTransGen (blockRel A B C D) (true, p) (true, q) := by
  induction h with
  | refl => exact .refl
  | tail _ hstep ihh =>
    exact ihh.tail (show blockRel A B C D (true, _) (true, _) from hstep)

theorem starE_sub_rtc_block {α : Type} {A B C D : α → α → Prop} {p q : α}
    (h : starE A B C D p q) :
    Relation.ReflTransGen (blockRel A B C D) (false, p) (false, q) := by
  induction h with
  | refl => exact .refl
  | tail _ hstep ihh =>
    cases hstep with
    | inl ha => exact ihh.tail (show blockRel A B C D (false, _) (false, _) from ha)
    | inr hcomp =>
      obtain ⟨m', ⟨m, hb, hd⟩, hc⟩ := hcomp
      refine Relation.ReflTransGen.trans ihh ?_
      refine Relation.ReflTransGen.trans (Relation.ReflTransGen.single
        (show blockRel A B C D (false, _) (true, m) from hb)) ?_
      refine Relation.ReflTransGen.trans (Ds_sub_rtc_block hd) ?_
      exact Relation.ReflTransGen.single (show blockRel A B C D (true, m') (false, _) from hc)

theorem starBlocks_sub_rtc {α : Type} {A B C D : α → α → Prop} {x y : Bool × α}
    (h : starBlocks A B C D x y) : Relation.ReflTransGen (blockRel A B C D) x y := by
  obtain ⟨vx, px⟩ := x
  obtain ⟨vy, py⟩ := y
  cases vx <;> cases vy <;> simp only [starBlocks, blockRel, relComp] at h
  · exact starE_sub_rtc_block h
  · obtain ⟨y', he, x', hb, hd⟩ := h
    exact ((starE_sub_rtc_block he).tail
      (show blockRel A B C D (false, y') (true, x') from hb)).trans (Ds_sub_rtc_block hd)
  · obtain ⟨y', hd, x', hc, he⟩ := h
    exact ((Ds_sub_rtc_block hd).tail
      (show blockRel A B C D (true, y') (false, x') from hc)).trans (starE_sub_rtc_block he)
  · cases h with
    | inl hd => exact Ds_sub_rtc_block hd
    | inr hh =>
      obtain ⟨y', ⟨w, hd1, v, hc1, he⟩, x', hb, hd2⟩ := hh
      exact ((((Ds_sub_rtc_block hd1).tail
        (show blockRel A B C D (true, w) (false, v) from hc1)).trans
        ((starE_sub_rtc_block he).tail
          (show blockRel A B C D (false, y') (true, x') from hb))).trans
        (Ds_sub_rtc_block hd2))

theorem block_star {α : Type} (A B C D : α → α → Prop) (x y : Bool × α) :
    Relation.ReflTransGen (blockRel A B C D) x y ↔ starBlocks A B C D x y :=
  ⟨rtc_block_to_starBlocks, starBlocks_sub_rtc⟩

theorem evalT_tstar : ∀ (n : Nat) (t : QTree n) (p q : Pkt n),
    evalT n (tstar n t) p q = true ↔
      Relation.ReflTransGen (fun x y => evalT n t x y = true) p q := by
  intro n
  induction n with
  | zero =>
    intro t p q
    cases t with | leaf b =>
    have hpq : p = q := by funext i; exact i.elim0
    subst hpq
    simp only [tstar, evalT]
    constructor
    · intro _
      exact .refl
    · intro _
      trivial
  | succ n ih =>
    intro t p q
    cases t with | node a b c d =>
    have hDs : ∀ u v, evalT n (tstar n d) u v = true ↔
        Relation.ReflTransGen (fun x y => evalT n d x y = true) u v := fun u v => ih d u v
    have hbds : ∀ u v, evalT n (tseq n b (tstar n d)) u v = true ↔
        relComp (fun x y => evalT n b x y = true)
          (Relation.ReflTransGen (fun x y => evalT n d x y = true)) u v := by
      intro u v
      rw [evalT_tseq]
      simp only [relComp]
      exact exists_congr fun m => and_congr Iff.rfl (hDs m v)
    have hbdsc : ∀ u v, evalT n (tseq n (tseq n b (tstar n d)) c) u v = true ↔
        relComp (relComp (fun x y => evalT n b x y = true)
            (Relation.ReflTransGen (fun x y => evalT n d x y = true)))
          (fun x y => evalT n c x y = true) u v := by
      intro u v
      rw [evalT_tseq]
      simp only [relComp]
      exact exists_congr fun m => and_congr (hbds u m) Iff.rfl
    have hE : ∀ u v,
        evalT n (tstar n (tunion n a (tseq n (tseq n b (tstar n d)) c))) u v = true ↔
        starE (fun x y => evalT n a x y = true) (fun x y => evalT n b x y = true)
          (fun x y => evalT n c x y = true) (fun x y => evalT n d x y = true) u v := by
      intro u v
      rw [ih]
      simp only [starE]
      apply rtc_congr
      intro x y
      rw [evalT_tunion]
      simp only [Bool.or_eq_true]
      exact or_congr Iff.rfl (hbdsc x y)
    have hebds : ∀ u v,
        evalT n (tseq n (tstar n (tunion n a (tseq n (tseq n b (tstar n d)) c)))
          (tseq n b (tstar n d))) u v = true ↔
        relComp (starE (fun x y => evalT n a x y = true) (fun x y => evalT n b x y = true)
            (fun x y => evalT n c x y = true) (fun x y => evalT n d x y = true))
          (relComp (fun x y => evalT n b x y = true)
            (Relation.ReflTransGen (fun x y => evalT n d x y = true))) u v := by
      intro u v
      rw [evalT_tseq]
      simp only [relComp]
      exact exists_congr fun m => and_congr (hE u m) (hbds m v)
    have hce : ∀ u v,
        evalT n (tseq n c (tstar n (tunion n a (tseq n (tseq n b (tstar n d)) c)))) u v = true ↔
        relComp (fun x y => evalT n c x y = true)
          (starE (fun x y => evalT n a x y = true) (fun x y => evalT n b x y = true)
            (fun x y => evalT n c x y = true) (fun x y => evalT n d x y = true)) u v := by
      intro u v
      rw [evalT_tseq]
      simp only [relComp]
      exact exists_congr fun m => and_congr Iff.rfl (hE m v)
    have hdsce : ∀ u v,
        evalT n (tseq n (tstar n d)
          (tseq n c (tstar n (tunion n a (tseq n (tseq n b (tstar n d)) c))))) u v = true ↔
        relComp (Relation.ReflTransGen (fun x y => evalT n d x y = true))
          (relComp (fun x y => evalT n c x y = true)
            (starE (fun x y => evalT n a x y = true) (fun x y => evalT n b x y = true)
              (fun x y => evalT n c x y = true) (fun x y => evalT n d x y = true))) u v := by
      intro u v
      rw [evalT_tseq]
      simp only [relComp]
      exact exists_congr fun m => and_congr (hDs u m) (hce m v)
    have hdscebds : ∀ u v,
        evalT n (tseq n (tseq n (tstar n d)
            (tseq n c (tstar n (tunion n a (tseq n (tseq n b (tstar n d)) c)))))
          (tseq n b (tstar n d))) u v = true ↔
        relComp (relComp (Relation.ReflTransGen (fun x y => evalT n d x y = true))
            (relComp (fun x y => evalT n c x y = true)
              (starE (fun x y => evalT n a x y = true) (fun x y => evalT n b x y = true)
                (fun x y => evalT n c x y = true) (fun x y => evalT n d x y = true))))
          (relComp (fun x y => evalT n b x y = true)
            (Relation.ReflTransGen (fun x y => evalT n d x y = true))) u v := by
      intro u v
      rw [evalT_tseq]
      simp only [relComp]
      exact exists_congr fun m => and_congr (hdsce u m) (hbds m v)
    have key : ∀ (v w : Bool) (p' q' : Pkt n),
        evalT (n + 1) (tstar (n + 1) (.node a b c d)) (Fin.cons v p') (Fin.cons w q') = true ↔
          Relation.ReflTransGen (fun x y => evalT (n + 1) (.node a b c d) x y = true)
            (Fin.cons v p') (Fin.cons w q') := by
      intro v w p' q'
      have hgf : ∀ x : Bool × Pkt n,
          ((Fin.cons x.1 x.2 : Pkt (n + 1)) 0, Fin.tail (Fin.cons x.1 x.2 : Pkt (n + 1))) = x := by
        intro x
        obtain ⟨xb, xp⟩ := x
        simp
      have hfg : ∀ pk : Pkt (n + 1), (Fin.cons (pk 0) (Fin.tail pk) : Pkt (n + 1)) = pk := by
        intro pk
        exact Fin.cons_self_tail pk
      have hstep1 :
          Relation.ReflTransGen (fun u v' : Bool × Pkt n =>
            evalT (n + 1) (QTree.node a b c d)
              (Fin.cons u.1 u.2) (Fin.cons v'.1 v'.2) = true) (v, p') (w, q') ↔
          Relation.ReflTransGen (fun x y => evalT (n + 1) (QTree.node a b c d) x y = true)
            (Fin.cons v p') (Fin.cons w q') :=
        rtc_comap_iff (fun x : Bool × Pkt n => Fin.cons x.1 x.2)
          (fun pk => (pk 0, Fin.tail pk)) hgf hfg
          (fun x y => evalT (n + 1) (QTree.node a b c d) x y = true) (v, p') (w, q')
      have hstep0 : ∀ u v' : Bool × Pkt n,
          evalT (n + 1) (QTree.node a b c d) (Fin.cons u.1 u.2) (Fin.cons v'.1 v'.2) = true ↔
          blockRel (fun x y => evalT n a x y = true) (fun x y => evalT n b x y = true)
            (fun x y => evalT n c x y = true) (fun x y => evalT n d x y = true) u v' := by
        intro u v'
        obtain ⟨ub, up⟩ := u
        obtain ⟨vb, vp⟩ := v'
        cases ub <;> cases vb <;> simp [evalT_cons, blockRel]
      have hright :
          Relation.ReflTransGen (fun x y => evalT (n + 1) (QTree.node a b c d) x y = true)
            (Fin.cons v p') (Fin.cons w q') ↔
          starBlocks (fun x y => evalT n a x y = true) (fun x y => evalT n b x y = true)
            (fun x y => evalT n c x y = true) (fun x y => evalT n d x y = true)
            (v, p') (w, q') :=
        hstep1.symm.trans ((rtc_congr hstep0).trans
          (block_star _ _ _ _ (v, p') (w, q')))
      rw [hright]
      simp only [tstar]
      cases v <;> cases w <;>
        rw [evalT_cons] <;> simp only [starBlocks, blockRel]
      · exact hE p' q'
      · exact hebds p' q'
      · exact hdsce p' q'
      · rw [evalT_tunion]
        simp only [Bool.or_eq_true]
        exact or_congr (hDs p' q') (hdscebds p' q')
    have hp : p = Fin.cons (p 0) (Fin.tail p) := (Fin.cons_self_tail p).symm
    have hq : q = Fin.cons (q 0) (Fin.tail q) := (Fin.cons_self_tail q).symm
    rw [hp, hq]
    exact key (p 0) (q 0) (Fin.tail p) (Fin.tail q)

theorem bool_eq_of_iff {a b : Bool} (h : a = true ↔ b = true) : a = b := by
  cases a <;> cases b <;> simp_all

theorem tstar_unroll_l (n : Nat) (t : QTree n) :
    tunion n (tone n) (tseq n t (tstar n t)) = tstar n t := by
  apply qtree_ext
  intro p q
  apply bool_eq_of_iff
  rw [evalT_tunion, Bool.or_eq_true, evalT_tstar,
    Relation.ReflTransGen.cases_head_iff]
  apply or_congr
  · exact evalT_tone n p q
  · rw [evalT_tseq]
    exact exists_congr fun m => and_congr Iff.rfl (evalT_tstar n t m q)

theorem tstar_unroll_r (n : Nat) (t : QTree n) :
    tunion n (tone n) (tseq n (tstar n t) t) = tstar n t := by
  apply qtree_ext
  intro p q
  apply bool_eq_of_iff
  rw [evalT_tunion, Bool.or_eq_true, evalT_tstar,
    Relation.ReflTransGen.cases_tail_iff]
  apply or_congr
  · exact (evalT_tone n p q).trans eq_comm
  · rw [evalT_tseq]
    exact exists_congr fun m => and_congr (evalT_tstar n t p m) Iff.rfl

theorem tstar_idem (n : Nat) (t : QTree n) : tstar n (tstar n t) = tstar n t := by
  apply qtree_ext
  intro p q
  apply bool_eq_of_iff
  rw [evalT_tstar, evalT_tstar]
  constructor
  · intro h
    induction h with
    | refl => exact .refl
    | tail _ hstep ihh => exact ihh.trans ((evalT_tstar n t _ _).mp hstep)
  · intro h
    exact Relation.ReflTransGen.single ((evalT_tstar n t p q).mpr h)

/-! Claim theorems for the SPP store. -/

/-- C1: for every SPP handle argument denoting a complete quaternary
decision diagram of depth `k` (the store's `num_vars`), each of the
operations union, intersect, xor, difference, complement, sequence and
star returns an SPP handle denoting a complete diagram of depth `k`
(with enough fuel for the fuelled embedding of the Rust recursion). -/
theorem c1_ops_preserve_depth (s : SPPstore) (fuel : Nat) (a b : Nat)
    (ta tb : QTree s.num_vars) (hWF : WF s)
    (hta : toTree s.nodes s.num_vars a = some ta)
    (htb : toTree s.nodes s.num_vars b = some tb)
    (hfuel : s.num_vars < fuel) :
    (∃ s' r t', unionF fuel s a b = some (s', r) ∧
      toTree s'.nodes s.num_vars r = some t') ∧
    (∃ s' r t', intersectF fuel s a b = some (s', r) ∧
      toTree s'.nodes s.num_vars r = some t') ∧
    (∃ s' r t', xorF fuel s a b = some (s', r) ∧
      toTree s'.nodes s.num_vars r = some t') ∧
    (∃ s' r t', differenceF fuel s a b = some (s', r) ∧
      toTree s'.nodes s.num_vars r = some t') ∧
    (∃ s' r t', complementF fuel s a = some (s', r) ∧
      toTree s'.nodes s.num_vars r = some t') ∧
    (∃ s' r t', sequenceF fuel s a b = some (s', r) ∧
      toTree s'.nodes s.num_vars r = some t') ∧
    (∃ s' r t', starF fuel s a = some (s', r) ∧
      toTree s'.nodes s.num_vars r = some t') := by
  refine ⟨?_, ?_, ?_, ?_, ?_, ?_, ?_⟩
  · obtain ⟨s', r, heq, _, _, ht⟩ := unionF_spec fuel hWF hta htb hfuel
    exact ⟨s', r, _, heq, ht⟩
  · obtain ⟨s', r, heq, _, _, ht⟩ := intersectF_spec fuel hWF hta htb hfuel
    exact ⟨s', r, _, heq, ht⟩
  · obtain ⟨s', r, heq, _, _, ht⟩ := xorF_spec fuel hWF hta htb hfuel
    exact ⟨s', r, _, heq, ht⟩
  · obtain ⟨s', r, heq, _, _, ht⟩ := differenceF_spec fuel hWF hta htb hfuel
    exact ⟨s', r, _, heq, ht⟩
  · obtain ⟨s', r, heq, _, _, ht⟩ := complementF_spec fuel hWF hta hfuel
    exact ⟨s', r, _, heq, ht⟩
  · obtain ⟨s', r, heq, _, _, ht⟩ := sequenceF_spec fuel hWF hta htb hfuel
    exact ⟨s', r, _, heq, ht⟩
  · obtain ⟨s', r, heq, _, _, ht⟩ := starF_spec fuel hWF hta hfuel
    exact ⟨s', r, _, heq, ht⟩

/-- Witness for C1 at the concrete store `SPPstore.new 1` with both
arguments the cached depth-1 `zero` diagram. -/
theorem c1_ops_preserve_depth_witness :
    ∃ s' r t', unionF 2 (SPPstore.new 1) (SPPstore.new 1).zero (SPPstore.new 1).zero =
        some (s', r) ∧
      toTree s'.nodes (SPPstore.new 1).num_vars r = some t' :=
  (c1_ops_preserve_depth (SPPstore.new 1) 2 (SPPstore.new 1).zero (SPPstore.new 1).zero
    (tzero 1) (tzero 1) (new_spec 1).1 (new_spec 1).2.2.1 (new_spec 1).2.2.1 (by decide)).1

/-- C2: for every depth-`k` SPP `x` in a good store (well-formed, with
`one` denoting the identity), star satisfies both unrolling laws:
`star x = union(one, sequence(x, star x))` and
`star x = union(one, sequence(star x, x))`, as handle equalities on the
stores produced by running the operations. -/
theorem c2_star_unroll (s : SPPstore) (fuel : Nat) (x : Nat) (t : QTree s.num_vars)
    (hG : Good s) (htx : toTree s.nodes s.num_vars x = some t)
    (hfuel : s.num_vars < fuel) :
    ∃ s1 r1, starF fuel s x = some (s1, r1) ∧
      (∃ s2 r2 s3 r3, sequenceF fuel s1 x r1 = some (s2, r2) ∧
        unionF fuel s2 s2.one r2 = some (s3, r3) ∧ r3 = r1) ∧
      (∃ s2 r2 s3 r3, sequenceF fuel s1 r1 x = some (s2, r2) ∧
        unionF fuel s2 s2.one r2 = some (s3, r3) ∧ r3 = r1) := by
  obtain ⟨hWF, hone⟩ := hG
  obtain ⟨s1, r1, heq1, hWF1, hE1, ht1⟩ := starF_spec fuel hWF htx hfuel
  refine ⟨s1, r1, heq1, ?_, ?_⟩
  · obtain ⟨s2, r2, heq2, hWF2, hE2, ht2⟩ :=
      sequenceF_spec fuel hWF1 (extends_toTree hE1 hWF htx) ht1 hfuel
    have hone2 : toTree s2.nodes s.num_vars s2.one = some (tone s.num_vars) := by
      have e1 : s2.one = s.one := by rw [hE2.one_eq, hE1.one_eq]
      rw [e1]
      exact extends_toTree (hE1.trans hE2) hWF hone
    obtain ⟨s3, r3, heq3, hWF3, hE3, ht3⟩ := unionF_spec fuel hWF2 hone2 ht2 hfuel
    refine ⟨s2, r2, s3, r3, heq2, heq3, ?_⟩
    have ht1' : toTree s3.nodes s.num_vars r1 = some (tstar s.num_vars t) :=
      extends_toTree (hE2.trans hE3) hWF1 ht1
    rw [tstar_unroll_l] at ht3
    exact toTree_inj hWF3 ht3 ht1'
  · obtain ⟨s2, r2, heq2, hWF2, hE2, ht2⟩ :=
      sequenceF_spec fuel hWF1 ht1 (extends_toTree hE1 hWF htx) hfuel
    have hone2 : toTree s2.nodes s.num_vars s2.one = some (tone s.num_vars) := by
      have e1 : s2.one = s.one := by rw [hE2.one_eq, hE1.one_eq]
      rw [e1]
      exact extends_toTree (hE1.trans hE2) hWF hone
    obtain ⟨s3, r3, heq3, hWF3, hE3, ht3⟩ := unionF_spec fuel hWF2 hone2 ht2 hfuel
    refine ⟨s2, r2, s3, r3, heq2, heq3, ?_⟩
    have ht1' : toTree s3.nodes s.num_vars r1 = some (tstar s.num_vars t) :=
      extends_toTree (hE2.trans hE3) hWF1 ht1
    rw [tstar_unroll_r] at ht3
    exact toTree_inj hWF3 ht3 ht1'

/-- Witness for C2 at `SPPstore.new 1` with `x` the cached depth-1
`zero` diagram. -/
theorem c2_star_unroll_witness :
    ∃ s1 r1, starF 2 (SPPstore.new 1) (SPPstore.new 1).zero = some (s1, r1) ∧
      (∃ s2 r2 s3 r3, sequenceF 2 s1 (SPPstore.new 1).zero r1 = some (s2, r2) ∧
        unionF 2 s2 s2.one r2 = some (s3, r3) ∧ r3 = r1) ∧
      (∃ s2 r2 s3 r3, sequenceF 2 s1 r1 (SPPstore.new 1).zero = some (s2, r2) ∧
        unionF 2 s2 s2.one r2 = some (s3, r3) ∧ r3 = r1) :=
  c2_star_unroll (SPPstore.new 1) 2 (SPPstore.new 1).zero (tzero 1)
    ⟨(new_spec 1).1, (new_spec 1).2.2.2.1⟩ (new_spec 1).2.2.1 (by decide)

/-- C3: star maps both leaf handles to `1` (immediately, from the
pre-seeded memo, without changing the store), and star is idempotent on
every depth-`k` SPP in the store: `star (star x) = star x` as handles. -/
theorem c3_star_leaves_idem (s : SPPstore) (fuel : Nat) (x : Nat) (t : QTree s.num_vars)
    (hG : Good s) (htx : toTree s.nodes s.num_vars x = some t)
    (hfuel : s.num_vars < fuel) :
    starF fuel s 0 = some (s, 1) ∧ starF fuel s 1 = some (s, 1) ∧
      ∃ s1 r1 s2 r2, starF fuel s x = some (s1, r1) ∧ starF fuel s1 r1 = some (s2, r2) ∧
        r2 = r1 := by
  obtain ⟨hWF, _⟩ := hG
  obtain ⟨f, rfl⟩ : ∃ f, fuel = f + 1 := ⟨fuel - 1, by omega⟩
  refine ⟨?_, ?_, ?_⟩
  · obtain ⟨r0, hr0⟩ := hWF.star_leaf 0 (by omega)
    have hco := (hWF.star_coh 0 r0 hr0).2.2 0 (.leaf false) (toTree_0_0 _)
    have hr0_1 : r0 = 1 := by
      rcases toTree_n0 hco with ⟨h0, e⟩ | ⟨h0, e⟩
      · exact absurd e (by simp [tstar])
      · exact h0
    subst hr0_1
    rw [starF, hr0]
  · obtain ⟨r0, hr0⟩ := hWF.star_leaf 1 (by omega)
    have hco := (hWF.star_coh 1 r0 hr0).2.2 0 (.leaf true) (toTree_0_1 _)
    have hr0_1 : r0 = 1 := by
      rcases toTree_n0 hco with ⟨h0, e⟩ | ⟨h0, e⟩
      · exact absurd e (by simp [tstar])
      · exact h0
    subst hr0_1
    rw [starF, hr0]
  · obtain ⟨s1, r1, heq1, hWF1, hE1, ht1⟩ := starF_spec (f + 1) hWF htx hfuel
    have hnv1 : s1.num_vars = s.num_vars := hE1.num_vars_eq
    obtain ⟨s2, r2, heq2, hWF2, hE2, ht2⟩ := starF_spec (f + 1) hWF1 ht1 hfuel
    refine ⟨s1, r1, s2, r2, heq1, heq2, ?_⟩
    rw [tstar_idem] at ht2
    exact toTree_inj hWF2 ht2 (extends_toTree hE2 hWF1 ht1)

/-- Witness for C3 at `SPPstore.new 1` with `x` the cached depth-1
`zero` diagram. -/
theorem c3_star_leaves_idem_witness :
    starF 2 (SPPstore.new 1) 0 = some (SPPstore.new 1, 1) ∧
      starF 2 (SPPstore.new 1) 1 = some (SPPstore.new 1, 1) ∧
      ∃ s1 r1 s2 r2, starF 2 (SPPstore.new 1) (SPPstore.new 1).zero = some (s1, r1) ∧
        starF 2 s1 r1 = some (s2, r2) ∧ r2 = r1 :=
  c3_star_leaves_idem (SPPstore.new 1) 2 (SPPstore.new 1).zero (tzero 1)
    ⟨(new_spec 1).1, (new_spec 1).2.2.2.1⟩ (new_spec 1).2.2.1 (by decide)

/-- C5: within one well-formed store, `mk` is a hash-consing bijection:
the handle returned for a second node equals the handle returned for a
first node exactly when the two four-child tuples are structurally
equal; `mk` never returns the leaf handles `0`/`1`; and when the content
is new the handle is the next consecutive one, `nodes.len() + 2`, with
the node appended in creation order. -/
theorem c5_mk_hashcons (s : SPPstore) (hWF : WF s) (x00 x01 x10 x11 y00 y01 y10 y11 : Nat)
    (b00 : x00 < s.nodes.length + 2) (b01 : x01 < s.nodes.length + 2)
    (b10 : x10 < s.nodes.length + 2) (b11 : x11 < s.nodes.length + 2) :
    2 ≤ (s.mk x00 x01 x10 x11).2 ∧
      (((s.mk x00 x01 x10 x11).1.mk y00 y01 y10 y11).2 = (s.mk x00 x01 x10 x11).2 ↔
        (SPPnode.mk y00 y01 y10 y11) = (SPPnode.mk x00 x01 x10 x11)) ∧
      (alookup s.hc ⟨x00, x01, x10, x11⟩ = none →
        (s.mk x00 x01 x10 x11).2 = s.nodes.length + 2 ∧
        (s.mk x00 x01 x10 x11).1.nodes = s.nodes ++ [⟨x00, x01, x10, x11⟩]) := by
  obtain ⟨hWF1, hE1, h2le, hnd1⟩ := mk_spec hWF b00 b01 b10 b11
  refine ⟨h2le, ?_, ?_⟩
  · rw [SPPstore.mk]
    cases hl2 : alookup (s.mk x00 x01 x10 x11).1.hc ⟨y00, y01, y10, y11⟩ with
    | some h2 =>
      simp only
      obtain ⟨hge2, hnd2⟩ := (hWF1.hc_iff _ _).mp hl2
      constructor
      · intro heq
        rw [heq] at hnd2
        rw [hnd1] at hnd2
        exact (Option.some.injEq _ _ ▸ hnd2).symm ▸ rfl
      · intro heq
        rw [heq] at hl2
        have : alookup (s.mk x00 x01 x10 x11).1.hc ⟨x00, x01, x10, x11⟩ =
            some (s.mk x00 x01 x10 x11).2 := (hWF1.hc_iff _ _).mpr ⟨h2le, hnd1⟩
        rw [hl2] at this
        exact (Option.some.injEq _ _ ▸ this)
    | none =>
      simp only
      have hlt : (s.mk x00 x01 x10 x11).2 < (s.mk x00 x01 x10 x11).1.nodes.length + 2 := by
        have : (s.mk x00 x01 x10 x11).2 - 2 < (s.mk x00 x01 x10 x11).1.nodes.length := by
          by_contra hc
          rw [List.getElem?_eq_none (by omega)] at hnd1
          exact Option.noConfusion hnd1
        omega
      constructor
      · intro heq
        omega
      · intro heq
        have : alookup (s.mk x00 x01 x10 x11).1.hc ⟨y00, y01, y10, y11⟩ =
            some (s.mk x00 x01 x10 x11).2 := by
          rw [heq]
          exact (hWF1.hc_iff _ _).mpr ⟨h2le, hnd1⟩
        rw [hl2] at this
        exact Option.noConfusion this
  · intro hnone
    rw [SPPstore.mk, hnone]
    exact ⟨rfl, rfl⟩

/-- Witness for C5 at `SPPstore.new 1` with a node content already
present (the all-zero node) and a fresh one. -/
theorem c5_mk_hashcons_witness :
    2 ≤ ((SPPstore.new 1).mk 0 0 0 0).2 ∧
      ((((SPPstore.new 1).mk 0 0 0 0).1.mk 1 1 1 1).2 = ((SPPstore.new 1).mk 0 0 0 0).2 ↔
        (SPPnode.mk 1 1 1 1) = (SPPnode.mk 0 0 0 0)) ∧
      (alookup (SPPstore.new 1).hc ⟨0, 0, 0, 0⟩ = none →
        ((SPPstore.new 1).mk 0 0 0 0).2 = (SPPstore.new 1).nodes.length + 2 ∧
        ((SPPstore.new 1).mk 0 0 0 0).1.nodes = (SPPstore.new 1).nodes ++ [⟨0, 0, 0, 0⟩]) :=
  c5_mk_hashcons (SPPstore.new 1) (new_spec 1).1 0 0 0 0 1 1 1 1
    (by decide) (by decide) (by decide) (by decide)

/-- C8: `get` fails (panics, modelled as `none`) exactly when the handle
is a leaf (`spp < 2`) or out of range, and otherwise returns the stored
node at index `spp - 2`; being `&self` in Rust (a pure function here),
it never modifies the store. -/
theorem c8_get_spec (s : SPPstore) (h : Nat) :
    (s.get h = none ↔ h < 2 ∨ s.nodes.length ≤ h - 2) ∧
    (∀ nd, 2 ≤ h → s.nodes[h - 2]? = some nd → s.get h = some nd) := by
  constructor
  · rw [SPPstore.get]
    by_cases h2 : h < 2
    · simp [h2]
    · rw [if_neg h2]
      simp only [List.getElem?_eq_none_iff]
      constructor
      · intro hn
        exact Or.inr hn
      · intro hn
        rcases hn with hn | hn
        · omega
        · exact hn
  · intro nd h2 hnd
    rw [SPPstore.get, if_neg (by omega)]
    exact hnd

/-- Witness for C8 at the concrete store `SPPstore.new 1` and handle 2
(in range) plus the leaf/out-of-range characterisation. -/
theorem c8_get_spec_witness :
    ((SPPstore.new 1).get 0 = none ↔ 0 < 2 ∨ (SPPstore.new 1).nodes.length ≤ 0 - 2) ∧
    (∀ nd, 2 ≤ (0 : Nat) → (SPPstore.new 1).nodes[0 - 2]? = some nd →
      (SPPstore.new 1).get 0 = some nd) :=
  c8_get_spec (SPPstore.new 1) 0

/-- C4 (code bug): the spec claims `assign(var, v)` denotes the relation
`{(p, p[var ← v])}`.  Running the embedded code on the concrete store
`SPPstore.new 1` with `var = 0`, `v = true`, the returned SPP is the
node `(0, 0, 0, 1)`, which denotes `{(p, p) | p[0] = 1}` — a filter,
not an assignment: the claimed relation `assignRel` holds at the pair
`p = [0], q = [1]` but the returned diagram evaluates to `false` there
(the pair is missing). -/
theorem c4_assign_failing_input :
    (((SPPstore.new 1).assign 0 true).map (fun pr => (pr.2, toTree pr.1.nodes 1 pr.2)) =
      some (5, some (.node (.leaf false) (.leaf false) (.leaf false) (.leaf true)))) ∧
    evalT 1 (.node (.leaf false) (.leaf false) (.leaf false) (.leaf true))
      (fun _ => false) (fun _ => true) = false ∧
    assignRel 1 0 true (fun _ => false) (fun _ => true) := by
  refine ⟨by decide, rfl, ?_⟩
  intro i
  have h0 : (i : Nat) = 0 := by have := i.isLt; omega
  simp [h0]

/-! Fuzzer lemmas: panic-freedom of the generators. -/

theorem RRes.bind_ne_panic {α β : Type} {r : RRes α} {f : α → List Nat → RRes β}
    (hr : r ≠ .panic) (hf : ∀ a ds, f a ds ≠ .panic) : RRes.bind r f ≠ .panic := by
  cases r with
  | ok a ds => exact hf a ds
  | panic => exact absurd rfl hr
  | exhausted => simp [RRes.bind]

theorem bind_drawNat_ne_panic {β : Type} (b : Nat) (hb : 0 < b) (draws : List Nat)
    (f : Nat → List Nat → RRes β) (hf : ∀ a ds, a < b → f a ds ≠ .panic) :
    RRes.bind (drawNat b draws) f ≠ .panic := by
  cases draws with
  | nil => simp [drawNat, RRes.bind]
  | cons d rest =>
    show f (d % b) rest ≠ .panic
    exact hf _ _ (Nat.mod_lt _ hb)

theorem drawBool_ne_panic (draws : List Nat) : drawBool draws ≠ .panic := by
  cases draws <;> simp [drawBool]

theorem gen_random_value_ne_panic (draws : List Nat) : gen_random_value draws ≠ .panic :=
  drawBool_ne_panic draws

theorem gen_random_field_ne_panic (k : Nat) (draws : List Nat) (hk : k ≠ 0) :
    gen_random_field k draws ≠ .panic := by
  rw [gen_random_field, if_neg hk]
  cases draws <;> simp [drawNat]

theorem gen_random_expr_ne_panic (k : Nat) (hk : 0 < k) :
    ∀ (d : Nat) (draws : List Nat), gen_random_expr k d draws ≠ .panic := by
  intro d
  induction d with
  | zero =>
    intro draws
    simp only [gen_random_expr]
    apply bind_drawNat_ne_panic 5 (by omega)
    intro a ds ha
    interval_cases a
    · simp
    · simp
    · simp
    · simp
    · apply RRes.bind_ne_panic (gen_random_field_ne_panic k ds (by omega))
      intro f ds2
      apply RRes.bind_ne_panic (gen_random_value_ne_panic ds2)
      intro v ds3
      simp
  | succ d ih =>
    intro draws
    simp only [gen_random_expr]
    apply bind_drawNat_ne_panic 6 (by omega)
    intro a ds ha
    interval_cases a
    · exact ih ds
    · exact RRes.bind_ne_panic (ih ds) fun e r1 => by simp
    · exact RRes.bind_ne_panic (ih ds) fun e r1 => by simp
    · exact RRes.bind_ne_panic (ih ds) fun e r1 =>
        RRes.bind_ne_panic (ih r1) fun e2 r2 => by simp
    · exact RRes.bind_ne_panic (ih ds) fun e r1 =>
        RRes.bind_ne_panic (ih r1) fun e2 r2 => by simp
    · exact RRes.bind_ne_panic (ih ds) fun e r1 =>
        RRes.bind_ne_panic (ih r1) fun e2 r2 => by simp

theorem gdfLoop_ne_panic (k f1 : Nat) :
    ∀ draws : List Nat, gdfLoop k f1 draws ≠ .panic := by
  intro draws
  induction draws with
  | nil => simp [gdfLoop]
  | cons d rest ih =>
    simp only [gdfLoop]
    split
    · exact ih
    · simp

theorem get_distinct_fields_ne_panic (k : Nat) (hk : 2 ≤ k) (draws : List Nat) :
    get_distinct_fields k draws ≠ .panic := by
  cases draws with
  | nil =>
    show (if k < 2 then RRes.panic else RRes.exhausted) ≠ RRes.panic
    rw [if_neg (by omega)]
    simp
  | cons d rest =>
    show (if k < 2 then RRes.panic else gdfLoop k (d % k) rest) ≠ RRes.panic
    rw [if_neg (by omega)]
    exact gdfLoop_ne_panic k (d % k) rest

theorem flip_equality_rand_ne_panic (l r : Exp) (draws : List Nat) :
    flip_equality_rand l r draws ≠ .panic := by
  apply RRes.bind_ne_panic (drawBool_ne_panic draws)
  intro b ds
  split <;> simp

theorem genaxPA_ne_panic (k : Nat) (hk : 2 ≤ k) (draws : List Nat) :
    genaxPA k draws ≠ .panic := by
  apply bind_drawNat_ne_panic 8 (by omega)
  intro c ds hc
  interval_cases c
  · apply RRes.bind_ne_panic (get_distinct_fields_ne_panic k hk ds)
    intro fs ds1
    apply RRes.bind_ne_panic (gen_random_value_ne_panic ds1)
    intro v ds2
    apply RRes.bind_ne_panic (gen_random_value_ne_panic ds2)
    intro v2 ds3
    simp
  · apply RRes.bind_ne_panic (get_distinct_fields_ne_panic k hk ds)
    intro fs ds1
    apply RRes.bind_ne_panic (gen_random_value_ne_panic ds1)
    intro v ds2
    apply RRes.bind_ne_panic (gen_random_value_ne_panic ds2)
    intro v2 ds3
    simp
  · apply RRes.bind_ne_panic (gen_random_field_ne_panic k ds (by omega))
    intro xi ds1
    apply RRes.bind_ne_panic (gen_random_value_ne_panic ds1)
    intro v ds2
    simp
  · apply RRes.bind_ne_panic (gen_random_field_ne_panic k ds (by omega))
    intro xi ds1
    apply RRes.bind_ne_panic (gen_random_value_ne_panic ds1)
    intro v ds2
    simp
  · apply RRes.bind_ne_panic (gen_random_field_ne_panic k ds (by omega))
    intro xi ds1
    apply RRes.bind_ne_panic (gen_random_value_ne_panic ds1)
    intro v ds2
    simp
  · apply RRes.bind_ne_panic (gen_random_field_ne_panic k ds (by omega))
    intro xi ds1
    apply RRes.bind_ne_panic (gen_random_value_ne_panic ds1)
    intro v ds2
    apply RRes.bind_ne_panic (gen_random_value_ne_panic ds2)
    intro v2 ds3
    simp
  · apply RRes.bind_ne_panic (gen_random_field_ne_panic k ds (by omega))
    intro xi ds1
    simp
  · apply RRes.bind_ne_panic (gen_random_field_ne_panic k ds (by omega))
    intro xi ds1
    simp

theorem genaxBucket1_flip (lhs rhs : Exp) (draws : List Nat) :
    ∃ l r ds, genaxBucket1 lhs rhs draws = flip_equality_rand l r ds := by
  cases draws with
  | nil =>
    exact ⟨lhs, rhs, [], by simp [genaxBucket1, drawNat, RRes.bind,
      flip_equality_rand, drawBool]⟩
  | cons c cs =>
    show ∃ l r ds,
      (match c % 17 with
       | 0 => flip_equality_rand (Expr.union lhs Expr.zero) rhs cs
       | 1 => flip_equality_rand (Expr.union lhs lhs) rhs cs
       | 2 => flip_equality_rand (Expr.sequence Expr.one lhs) rhs cs
       | 3 => flip_equality_rand (Expr.sequence lhs Expr.one) rhs cs
       | 4 => flip_equality_rand (Expr.sequence Expr.zero lhs) Expr.zero cs
       | 5 => flip_equality_rand (Expr.sequence lhs Expr.zero) Expr.zero cs
       | 6 => flip_equality_rand
          (Expr.union Expr.one (Expr.sequence lhs (Expr.star lhs))) (Expr.star rhs) cs
       | 7 => flip_equality_rand
          (Expr.union Expr.one (Expr.sequence (Expr.star lhs) lhs)) (Expr.star rhs) cs
       | 8 => flip_equality_rand (Expr.union lhs Expr.top) Expr.top cs
       | 9 => flip_equality_rand (Expr.union lhs (Expr.complement rhs)) Expr.top cs
       | 10 => flip_equality_rand (Expr.intersect lhs (Expr.complement rhs)) Expr.zero cs
       | 11 => flip_equality_rand (Expr.intersect lhs lhs) rhs cs
       | 12 => flip_equality_rand
          (Expr.complement (Expr.ltl_finally lhs))
          (Expr.ltl_globally (Expr.complement rhs)) cs
       | 13 => flip_equality_rand
          (Expr.complement (Expr.ltl_globally lhs))
          (Expr.ltl_finally (Expr.complement rhs)) cs
       | 14 => flip_equality_rand
          (Expr.complement (Expr.ltl_next lhs))
          (Expr.union Expr.end' (Expr.ltl_next (Expr.complement rhs))) cs
       | 15 => flip_equality_rand
          (Expr.ltl_finally lhs)
          (Expr.union rhs (Expr.ltl_next (Expr.ltl_finally rhs))) cs
       | 16 => flip_equality_rand
          (Expr.ltl_globally lhs)
          (Expr.intersect rhs
            (Expr.union Expr.end' (Expr.ltl_next (Expr.ltl_globally rhs)))) cs
       | _ => RRes.panic) = flip_equality_rand l r ds
    have hlt : c % 17 < 17 := Nat.mod_lt _ (by omega)
    set m := c % 17 with hm
    clear_value m
    interval_cases m <;> exact ⟨_, _, cs, rfl⟩

theorem genaxBucket2_flip (p1l p1r p2l p2r : Exp) (draws : List Nat) :
    ∃ l r ds, genaxBucket2 p1l p1r p2l p2r draws = flip_equality_rand l r ds := by
  cases draws with
  | nil =>
    exact ⟨p1l, p1r, [], by simp [genaxBucket2, drawNat, RRes.bind,
      flip_equality_rand, drawBool]⟩
  | cons c cs =>
    have hlt : c % 10 < 10 := Nat.mod_lt _ (by omega)
    rw [genaxBucket2]
    show ∃ l r ds, (match c % 10 with
       | 0 => flip_equality_rand (Expr.union p1l p2l) (Expr.union p2r p1r) cs
       | 1 => flip_equality_rand (Expr.intersect p1l p2l) (Expr.intersect p2r p1r) cs
       | 2 => flip_equality_rand
          (Expr.ltl_next (Expr.intersect p1l p2l))
          (Expr.intersect (Expr.ltl_next p1r) (Expr.ltl_next p2r)) cs
       | 3 => flip_equality_rand
          (Expr.ltl_next (Expr.union p1l p2l))
          (Expr.union (Expr.ltl_next p1r) (Expr.ltl_next p2r)) cs
       | 4 => flip_equality_rand
          (Expr.ltl_until p1l p2l)
          (Expr.union p2r
            (Expr.intersect p1r (Expr.ltl_next (Expr.ltl_until p1r p2r)))) cs
       | 5 => flip_equality_rand
          (Expr.ltl_weak_until p1l p2l)
          (Expr.union p2r
            (Expr.intersect p1r (Expr.ltl_weak_next (Expr.ltl_weak_until p1r p2r)))) cs
       | 6 => flip_equality_rand
          (Expr.ltl_release p1l p2l)
          (Expr.complement
            (Expr.ltl_until (Expr.complement p1r) (Expr.complement p2r))) cs
       | 7 => flip_equality_rand
          (Expr.ltl_release p1l p2l)
          (Expr.intersect p2r
            (Expr.union p1r (Expr.ltl_weak_next (Expr.ltl_release p1r p2r)))) cs
       | 8 => flip_equality_rand
          (Expr.complement (Expr.ltl_release p1l p2l))
          (Expr.ltl_until (Expr.complement p1r) (Expr.complement p2r)) cs
       | 9 => flip_equality_rand
          (Expr.ltl_strong_release p1l p2l)
          (Expr.intersect (Expr.ltl_release p1r p2r) (Expr.ltl_finally p2r)) cs
       | _ => RRes.panic) = flip_equality_rand l r ds
    set m := c % 10 with hm
    clear_value m
    interval_cases m <;> exact ⟨_, _, cs, rfl⟩

theorem genaxBucket3_flip (p1l p1r p2l p2r p3l p3r : Exp) (draws : List Nat) :
    ∃ l r ds, genaxBucket3 p1l p1r p2l p2r p3l p3r draws = flip_equality_rand l r ds := by
  cases draws with
  | nil =>
    exact ⟨p1l, p1r, [], by simp [genaxBucket3, drawNat, RRes.bind,
      flip_equality_rand, drawBool]⟩
  | cons c cs =>
    have hlt : c % 5 < 5 := Nat.mod_lt _ (by omega)
    show ∃ l r ds, (match c % 5 with
       | 0 => flip_equality_rand
          (Expr.union p1l (Expr.union p2l p3l))
          (Expr.union (Expr.union p1r p2r) p3r) cs
       | 1 => flip_equality_rand
          (Expr.sequence p1l (Expr.sequence p2l p3l))
          (Expr.sequence (Expr.sequence p1r p2r) p3r) cs
       | 2 => flip_equality_rand
          (Expr.sequence p1l (Expr.union p2l p3l))
          (Expr.union (Expr.sequence p1r p2r) (Expr.sequence p1r p3r)) cs
       | 3 => flip_equality_rand
          (Expr.sequence (Expr.union p1l p2l) p3l)
          (Expr.union (Expr.sequence p1r p3r) (Expr.sequence p2r p3r)) cs
       | 4 => flip_equality_rand
          (Expr.union p1l (Expr.intersect p2l p3l))
          (Expr.intersect (Expr.union p1r p2r) (Expr.union p1r p3r)) cs
       | _ => RRes.panic) = flip_equality_rand l r ds
    set m := c % 5 with hm
    clear_value m
    interval_cases m <;> exact ⟨_, _, cs, rfl⟩

theorem genaxBucket1_ne_panic (lhs rhs : Exp) (draws : List Nat) :
    genaxBucket1 lhs rhs draws ≠ .panic := by
  obtain ⟨l, r, ds, heq⟩ := genaxBucket1_flip lhs rhs draws
  rw [heq]
  exact flip_equality_rand_ne_panic l r ds

theorem genaxBucket2_ne_panic (p1l p1r p2l p2r : Exp) (draws : List Nat) :
    genaxBucket2 p1l p1r p2l p2r draws ≠ .panic := by
  obtain ⟨l, r, ds, heq⟩ := genaxBucket2_flip p1l p1r p2l p2r draws
  rw [heq]
  exact flip_equality_rand_ne_panic l r ds

theorem genaxBucket3_ne_panic (p1l p1r p2l p2r p3l p3r : Exp) (draws : List Nat) :
    genaxBucket3 p1l p1r p2l p2r p3l p3r draws ≠ .panic := by
  obtain ⟨l, r, ds, heq⟩ := genaxBucket3_flip p1l p1r p2l p2r p3l p3r draws
  rw [heq]
  exact flip_equality_rand_ne_panic l r ds

theorem genax_ne_panic (k : Nat) (hk : 2 ≤ k) :
    ∀ (n d : Nat) (draws : List Nat), genax n d k draws ≠ .panic := by
  intro n
  induction n with
  | zero =>
    intro d draws
    simp only [genax, if_neg (by omega : ¬ k < 2)]
    apply RRes.bind_ne_panic (gen_random_expr_ne_panic k (by omega) d draws)
    intro e ds
    simp
  | succ n ih =>
    intro d draws
    simp only [genax, if_neg (by omega : ¬ k < 2)]
    apply bind_drawNat_ne_panic 4 (by omega)
    intro bucket ds hb
    interval_cases bucket
    · exact genaxPA_ne_panic k hk ds
    · exact RRes.bind_ne_panic (ih d ds) fun pr r1 => genaxBucket1_ne_panic pr.1 pr.2 r1
    · exact RRes.bind_ne_panic (ih d ds) fun p1 r1 =>
        RRes.bind_ne_panic (ih d r1) fun p2 r2 =>
          genaxBucket2_ne_panic p1.1 p1.2 p2.1 p2.2 r2
    · exact RRes.bind_ne_panic (ih d ds) fun p1 r1 =>
        RRes.bind_ne_panic (ih d r1) fun p2 r2 =>
          RRes.bind_ne_panic (ih d r2) fun p3 r3 =>
            genaxBucket3_ne_panic p1.1 p1.2 p2.1 p2.2 p3.1 p3.2 r3

theorem gen_leq_ne_panic (k : Nat) (hk : 2 ≤ k) :
    ∀ (n d : Nat) (draws : List Nat), gen_leq n d k draws ≠ .panic := by
  intro n
  induction n with
  | zero =>
    intro d draws
    simp only [gen_leq, if_neg (by omega : ¬ k < 2)]
    apply RRes.bind_ne_panic (gen_random_expr_ne_panic k (by omega) d draws)
    intro e ds
    apply RRes.bind_ne_panic (gen_random_expr_ne_panic k (by omega) (d / 2) ds)
    intro e2 ds2
    simp
  | succ n ih =>
    intro d draws
    simp only [gen_leq, if_neg (by omega : ¬ k < 2)]
    apply bind_drawNat_ne_panic 4 (by omega)
    intro m ds hm
    interval_cases m
    · apply RRes.bind_ne_panic (genax_ne_panic k hk n d ds)
      intro pr r1
      apply RRes.bind_ne_panic (gen_random_expr_ne_panic k (by omega) (d / 2) r1)
      intro e ds2
      simp
    · apply RRes.bind_ne_panic (ih d ds)
      intro pr r1
      apply RRes.bind_ne_panic (gen_random_expr_ne_panic k (by omega) (d / 2) r1)
      intro e ds2
      simp
    · apply RRes.bind_ne_panic (gen_random_expr_ne_panic k (by omega) d ds)
      intro e1 r1
      apply RRes.bind_ne_panic (gen_random_expr_ne_panic k (by omega) d r1)
      intro e2 r2
      apply bind_drawNat_ne_panic 3 (by omega)
      intro c r3 hc
      interval_cases c
      · simp
      · apply RRes.bind_ne_panic (gen_random_expr_ne_panic k (by omega) (d / 2) r3)
        intro e3 r4
        simp
      · simp
    · apply RRes.bind_ne_panic (ih d ds)
      intro pA r1
      apply RRes.bind_ne_panic (ih d r1)
      intro pB r2
      apply bind_drawNat_ne_panic 3 (by omega)
      intro c r3 hc
      interval_cases c
      · simp
      · simp
      · simp

/-- C9: `genax` and `gen_leq` panic exactly on the configuration error
`num_fields < 2`, before generating any expression, and never panic when
`num_fields ≥ 2`; `gen_random_field` panics exactly when `num_fields = 0`. -/
theorem c9_fail_fast (n d k : Nat) (draws : List Nat) :
    (k < 2 → genax n d k draws = .panic) ∧
    (k < 2 → gen_leq n d k draws = .panic) ∧
    (2 ≤ k → genax n d k draws ≠ .panic) ∧
    (2 ≤ k → gen_leq n d k draws ≠ .panic) ∧
    (gen_random_field k draws = .panic ↔ k = 0) := by
  refine ⟨?_, ?_, ?_, ?_, ?_, ?_⟩
  · intro hk
    cases n <;> simp only [genax, if_pos hk]
  · intro hk
    cases n <;> simp only [gen_leq, if_pos hk]
  · intro hk
    exact genax_ne_panic k hk n d draws
  · intro hk
    exact gen_leq_ne_panic k hk n d draws
  · intro hp
    by_contra hne
    exact absurd hp (gen_random_field_ne_panic k draws hne)
  · intro h0
    rw [gen_random_field, if_pos h0]

/-- Witness for C9 at concrete inputs: panic at `k = 1`, no panic at
`k = 2`, and `gen_random_field` panic at `k = 0`. -/
theorem c9_fail_fast_witness :
    genax 1 0 1 [0] = .panic ∧ gen_leq 1 0 1 [0] = .panic ∧
    genax 1 0 2 [0] ≠ .panic ∧ gen_leq 1 0 2 [0] ≠ .panic ∧
    (gen_random_field 0 [] = .panic ↔ (0 : Nat) = 0) :=
  ⟨(c9_fail_fast 1 0 1 [0]).1 (by decide),
   (c9_fail_fast 1 0 1 [0]).2.1 (by decide),
   (c9_fail_fast 1 0 2 [0]).2.2.1 (by decide),
   (c9_fail_fast 1 0 2 [0]).2.2.2.1 (by decide),
   (c9_fail_fast 0 0 0 []).2.2.2.2⟩

/-- C7 counterexample: the claim says every leaf, including `Zero` and
`One`, shrinks to the two-element list `[0, 1]`; in the code the
`Zero | One` arm of `shrink_exp` returns the empty list. -/
theorem c7_shrink_counterexample :
    shrink_exp Exp.Zero = [] ∧ shrink_exp Exp.One = [] ∧
    shrink_exp Exp.Zero ≠ [Expr.zero, Expr.one] ∧
    shrink_exp Exp.One ≠ [Expr.zero, Expr.one] :=
  ⟨rfl, rfl, by decide, by decide⟩

/-- C7 amended: `Zero` and `One` shrink to the empty list; every other
leaf (`Top`, `Dup`, `End`, `Assign`, `Test`) shrinks to `[0, 1]`; every
binary operator shrinks to the list of its two children; every unary
operator shrinks to its operand. -/
theorem c7_shrink_amended :
    shrink_exp .Zero = [] ∧ shrink_exp .One = [] ∧
    shrink_exp .Top = [Expr.zero, Expr.one] ∧
    shrink_exp .Dup = [Expr.zero, Expr.one] ∧
    shrink_exp .End = [Expr.zero, Expr.one] ∧
    (∀ f v, shrink_exp (.Assign f v) = [Expr.zero, Expr.one]) ∧
    (∀ f v, shrink_exp (.Test f v) = [Expr.zero, Expr.one]) ∧
    (∀ e1 e2, shrink_exp (.Union e1 e2) = [e1, e2]) ∧
    (∀ e1 e2, shrink_exp (.Intersect e1 e2) = [e1, e2]) ∧
    (∀ e1 e2, shrink_exp (.Xor e1 e2) = [e1, e2]) ∧
    (∀ e1 e2, shrink_exp (.Difference e1 e2) = [e1, e2]) ∧
    (∀ e1 e2, shrink_exp (.Sequence e1 e2) = [e1, e2]) ∧
    (∀ e1 e2, shrink_exp (.LtlUntil e1 e2) = [e1, e2]) ∧
    (∀ e, shrink_exp (.Star e) = [e]) ∧
    (∀ e, shrink_exp (.Complement e) = [e]) ∧
    (∀ e, shrink_exp (.LtlNext e) = [e]) :=
  ⟨rfl, rfl, rfl, rfl, rfl, fun _ _ => rfl, fun _ _ => rfl,
   fun _ _ => rfl, fun _ _ => rfl, fun _ _ => rfl, fun _ _ => rfl,
   fun _ _ => rfl, fun _ _ => rfl, fun _ => rfl, fun _ => rfl, fun _ => rfl⟩

/-! Inversion helpers for `RRes`. -/

theorem RRes.bind_ok_inv {α β : Type} {r : RRes α} {f : α → List Nat → RRes β}
    {b : β} {rest : List Nat} (h : RRes.bind r f = .ok b rest) :
    ∃ a ds, r = .ok a ds ∧ f a ds = .ok b rest := by
  cases r with
  | ok a ds => exact ⟨a, ds, rfl, h⟩
  | panic => exact absurd h (by simp [RRes.bind])
  | exhausted => exact absurd h (by simp [RRes.bind])

theorem drawNat_ok_inv {b : Nat} {draws : List Nat} {a : Nat} {rest : List Nat}
    (h : drawNat b draws = .ok a rest) :
    ∃ d, draws = d :: rest ∧ a = d % b := by
  cases draws with
  | nil => exact absurd h (by simp [drawNat])
  | cons d cs =>
    injection h with h1 h2
    exact ⟨d, by rw [h2], h1.symm⟩

/-- C10: at depth `0` with `num_fields > 0`, `gen_random_expr` only
returns `Zero`, `One`, `Top`, `Dup` or an `Assign`, never a `Test`: the
base case draws from `0..5` and the `Test` arm is labelled `5`. -/
theorem c10_no_test_at_depth0 (k : Nat) (draws : List Nat) (e : Exp) (rest : List Nat)
    (hk : 0 < k) (hgen : gen_random_expr k 0 draws = .ok e rest) :
    (e = .Zero ∨ e = .One ∨ e = .Top ∨ e = .Dup ∨ ∃ f v, e = .Assign f v) ∧
    ∀ f v, e ≠ .Test f v := by
  simp only [gen_random_expr] at hgen
  obtain ⟨i, ds, hdraw, hf⟩ := RRes.bind_ok_inv hgen
  obtain ⟨d, hdr, hi⟩ := drawNat_ok_inv hdraw
  subst hi
  have h5 : d % 5 < 5 := Nat.mod_lt _ (by omega)
  set m := d % 5 with hm
  clear_value m
  interval_cases m
  · injection hf with h1 h2
    subst h1
    exact ⟨Or.inl rfl, fun f v h => Exp.noConfusion h⟩
  · injection hf with h1 h2
    subst h1
    exact ⟨Or.inr (Or.inl rfl), fun f v h => Exp.noConfusion h⟩
  · injection hf with h1 h2
    subst h1
    exact ⟨Or.inr (Or.inr (Or.inl rfl)), fun f v h => Exp.noConfusion h⟩
  · injection hf with h1 h2
    subst h1
    exact ⟨Or.inr (Or.inr (Or.inr (Or.inl rfl))), fun f v h => Exp.noConfusion h⟩
  · obtain ⟨fld, ds1, hfld, hf2⟩ := RRes.bind_ok_inv hf
    obtain ⟨v, ds2, hval, hf3⟩ := RRes.bind_ok_inv hf2
    injection hf3 with h1 h2
    subst h1
    exact ⟨Or.inr (Or.inr (Or.inr (Or.inr ⟨fld, v, rfl⟩))),
      fun f v h => Exp.noConfusion h⟩

/-- Witness for C10: with one field and draws `[4, 0, 1]` the base case
produces `Assign 0 true`, which is not a `Test`. -/
theorem c10_no_test_at_depth0_witness :
    (0 : Nat) < 1 ∧
    gen_random_expr 1 0 [4, 0, 1] = .ok (Expr.assign 0 true) [] ∧
    ((Expr.assign 0 true = Exp.Zero ∨ Expr.assign 0 true = Exp.One ∨
      Expr.assign 0 true = Exp.Top ∨ Expr.assign 0 true = Exp.Dup ∨
      ∃ f v, Expr.assign 0 true = Exp.Assign f v) ∧
     ∀ f v, Expr.assign 0 true ≠ Exp.Test f v) :=
  ⟨by decide, by decide,
   c10_no_test_at_depth0 1 [4, 0, 1] (Expr.assign 0 true) [] (by decide) (by decide)⟩

theorem gdfLoop_ok_inv (k f1 : Nat) :
    ∀ (draws : List Nat) {pr : Nat × Nat} {rest : List Nat},
      gdfLoop k f1 draws = .ok pr rest → pr.1 = f1 ∧ pr.1 ≠ pr.2 := by
  intro draws
  induction draws with
  | nil =>
    intro pr rest h
    exact absurd h (by simp [gdfLoop])
  | cons d cs ih =>
    intro pr rest h
    simp only [gdfLoop] at h
    split at h
    · exact ih h
    · rename_i hne
      injection h with h1 h2
      subst h1
      exact ⟨rfl, hne⟩

theorem get_distinct_fields_distinct {k : Nat} {draws : List Nat} {pr : Nat × Nat}
    {rest : List Nat} (h : get_distinct_fields k draws = .ok pr rest) :
    pr.1 ≠ pr.2 := by
  cases draws with
  | nil =>
    have h' : (if k < 2 then RRes.panic else RRes.exhausted) = RRes.ok pr rest := h
    split at h' <;> exact absurd h' (by simp)
  | cons d cs =>
    have h' : (if k < 2 then RRes.panic else gdfLoop k (d % k) cs) = RRes.ok pr rest := h
    split at h'
    · exact absurd h' (by simp)
    · exact (gdfLoop_ok_inv k (d % k) cs h').2

theorem genaxPA_oriented {k : Nat} {draws : List Nat} {e1 e2 : Exp} {rest : List Nat}
    (h : genaxPA k draws = .ok (e1, e2) rest) : paOriented e1 e2 := by
  obtain ⟨c, ds, hdraw, hf⟩ := RRes.bind_ok_inv h
  obtain ⟨d, hdr, hc⟩ := drawNat_ok_inv hdraw
  subst hc
  have h8 : d % 8 < 8 := Nat.mod_lt _ (by omega)
  set m := d % 8 with hm
  clear_value m
  interval_cases m
  · obtain ⟨fs, r1, hgdf, h1⟩ := RRes.bind_ok_inv hf
    obtain ⟨v, r2, hv, h2⟩ := RRes.bind_ok_inv h1
    obtain ⟨v', r3, hv', h3⟩ := RRes.bind_ok_inv h2
    injection h3 with hpr hrest
    injection hpr with he1 he2
    exact Or.inl ⟨fs.1, fs.2, v, v', get_distinct_fields_distinct hgdf,
      he1.symm, he2.symm⟩
  · obtain ⟨fs, r1, hgdf, h1⟩ := RRes.bind_ok_inv hf
    obtain ⟨v, r2, hv, h2⟩ := RRes.bind_ok_inv h1
    obtain ⟨v', r3, hv', h3⟩ := RRes.bind_ok_inv h2
    injection h3 with hpr hrest
    injection hpr with he1 he2
    exact Or.inr (Or.inl ⟨fs.1, fs.2, v, v', get_distinct_fields_distinct hgdf,
      he1.symm, he2.symm⟩)
  · obtain ⟨xi, r1, hxi, h1⟩ := RRes.bind_ok_inv hf
    obtain ⟨v, r2, hv, h2⟩ := RRes.bind_ok_inv h1
    injection h2 with hpr hrest
    injection hpr with he1 he2
    exact Or.inr (Or.inr (Or.inl ⟨xi, v, he1.symm, he2.symm⟩))
  · obtain ⟨xi, r1, hxi, h1⟩ := RRes.bind_ok_inv hf
    obtain ⟨v, r2, hv, h2⟩ := RRes.bind_ok_inv h1
    injection h2 with hpr hrest
    injection hpr with he1 he2
    exact Or.inr (Or.inr (Or.inr (Or.inl ⟨xi, v, he1.symm, he2.symm⟩)))
  · obtain ⟨xi, r1, hxi, h1⟩ := RRes.bind_ok_inv hf
    obtain ⟨v, r2, hv, h2⟩ := RRes.bind_ok_inv h1
    injection h2 with hpr hrest
    injection hpr with he1 he2
    exact Or.inr (Or.inr (Or.inr (Or.inr (Or.inl ⟨xi, v, he1.symm, he2.symm⟩))))
  · obtain ⟨xi, r1, hxi, h1⟩ := RRes.bind_ok_inv hf
    obtain ⟨v, r2, hv, h2⟩ := RRes.bind_ok_inv h1
    obtain ⟨v', r3, hv', h3⟩ := RRes.bind_ok_inv h2
    injection h3 with hpr hrest
    injection hpr with he1 he2
    exact Or.inr (Or.inr (Or.inr (Or.inr (Or.inr (Or.inl
      ⟨xi, v, v', he1.symm, he2.symm⟩)))))
  · obtain ⟨xi, r1, hxi, h1⟩ := RRes.bind_ok_inv hf
    injection h1 with hpr hrest
    injection hpr with he1 he2
    exact Or.inr (Or.inr (Or.inr (Or.inr (Or.inr (Or.inr (Or.inl
      ⟨xi, he1.symm, he2.symm⟩))))))
  · obtain ⟨xi, r1, hxi, h1⟩ := RRes.bind_ok_inv hf
    injection h1 with hpr hrest
    injection hpr with he1 he2
    exact Or.inr (Or.inr (Or.inr (Or.inr (Or.inr (Or.inr (Or.inr
      ⟨xi, he1.symm, he2.symm⟩))))))

/-- C6 counterexample: with draws `[0, 3, 0, 1, 1]` (packet-axiom bucket,
axiom 3, field 0, value true, flip draw 1), `genax` returns the packet
axiom pair unflipped with the flip draw unconsumed, while the claim's
reading (`genaxClaim`, in which the packet-axiom bucket also passes the
pair through `flip_equality_rand`) swaps it. -/
theorem c6_pa_unflipped_counterexample :
    genax 1 0 2 [0, 3, 0, 1, 1] ≠ genaxClaim 1 0 2 [0, 3, 0, 1, 1] ∧
    genax 1 0 2 [0, 3, 0, 1, 1] =
      .ok (Expr.sequence (Expr.assign 0 true) (Expr.test 0 true), Expr.assign 0 true) [1] ∧
    genaxClaim 1 0 2 [0, 3, 0, 1, 1] =
      .ok (Expr.assign 0 true, Expr.sequence (Expr.assign 0 true) (Expr.test 0 true)) [] :=
  ⟨by decide, by decide, by decide⟩

theorem genaxBucket1_eq (lhs rhs : Exp) (c : Nat) (cs : List Nat) :
    genaxBucket1 lhs rhs (c :: cs) =
      flip_equality_rand (bucket1Pair lhs rhs (c % 17)).1
        (bucket1Pair lhs rhs (c % 17)).2 cs := by
  show (match c % 17 with
     | 0 => flip_equality_rand (Expr.union lhs Expr.zero) rhs cs
     | 1 => flip_equality_rand (Expr.union lhs lhs) rhs cs
     | 2 => flip_equality_rand (Expr.sequence Expr.one lhs) rhs cs
     | 3 => flip_equality_rand (Expr.sequence lhs Expr.one) rhs cs
     | 4 => flip_equality_rand (Expr.sequence Expr.zero lhs) Expr.zero cs
     | 5 => flip_equality_rand (Expr.sequence lhs Expr.zero) Expr.zero cs
     | 6 => flip_equality_rand
        (Expr.union Expr.one (Expr.sequence lhs (Expr.star lhs))) (Expr.star rhs) cs
     | 7 => flip_equality_rand
        (Expr.union Expr.one (Expr.sequence (Expr.star lhs) lhs)) (Expr.star rhs) cs
     | 8 => flip_equality_rand (Expr.union lhs Expr.top) Expr.top cs
     | 9 => flip_equality_rand (Expr.union lhs (Expr.complement rhs)) Expr.top cs
     | 10 => flip_equality_rand (Expr.intersect lhs (Expr.complement rhs)) Expr.zero cs
     | 11 => flip_equality_rand (Expr.intersect lhs lhs) rhs cs
     | 12 => flip_equality_rand
        (Expr.complement (Expr.ltl_finally lhs))
        (Expr.ltl_globally (Expr.complement rhs)) cs
     | 13 => flip_equality_rand
        (Expr.complement (Expr.ltl_globally lhs))
        (Expr.ltl_finally (Expr.complement rhs)) cs
     | 14 => flip_equality_rand
        (Expr.complement (Expr.ltl_next lhs))
        (Expr.union Expr.end' (Expr.ltl_next (Expr.complement rhs))) cs
     | 15 => flip_equality_rand
        (Expr.ltl_finally lhs)
        (Expr.union rhs (Expr.ltl_next (Expr.ltl_finally rhs))) cs
     | 16 => flip_equality_rand
        (Expr.ltl_globally lhs)
        (Expr.intersect rhs
          (Expr.union Expr.end' (Expr.ltl_next (Expr.ltl_globally rhs)))) cs
     | _ => RRes.panic) =
    flip_equality_rand (bucket1Pair lhs rhs (c % 17)).1
      (bucket1Pair lhs rhs (c % 17)).2 cs
  have hlt : c % 17 < 17 := Nat.mod_lt _ (by omega)
  set m := c % 17 with hm
  clear_value m
  interval_cases m <;> rfl

theorem genaxBucket2_eq (p1l p1r p2l p2r : Exp) (c : Nat) (cs : List Nat) :
    genaxBucket2 p1l p1r p2l p2r (c :: cs) =
      flip_equality_rand (bucket2Pair p1l p1r p2l p2r (c % 10)).1
        (bucket2Pair p1l p1r p2l p2r (c % 10)).2 cs := by
  show (match c % 10 with
     | 0 => flip_equality_rand (Expr.union p1l p2l) (Expr.union p2r p1r) cs
     | 1 => flip_equality_rand (Expr.intersect p1l p2l) (Expr.intersect p2r p1r) cs
     | 2 => flip_equality_rand
        (Expr.ltl_next (Expr.intersect p1l p2l))
        (Expr.intersect (Expr.ltl_next p1r) (Expr.ltl_next p2r)) cs
     | 3 => flip_equality_rand
        (Expr.ltl_next (Expr.union p1l p2l))
        (Expr.union (Expr.ltl_next p1r) (Expr.ltl_next p2r)) cs
     | 4 => flip_equality_rand
        (Expr.ltl_until p1l p2l)
        (Expr.union p2r
          (Expr.intersect p1r (Expr.ltl_next (Expr.ltl_until p1r p2r)))) cs
     | 5 => flip_equality_rand
        (Expr.ltl_weak_until p1l p2l)
        (Expr.union p2r
          (Expr.intersect p1r (Expr.ltl_weak_next (Expr.ltl_weak_until p1r p2r)))) cs
     | 6 => flip_equality_rand
        (Expr.ltl_release p1l p2l)
        (Expr.complement
          (Expr.ltl_until (Expr.complement p1r) (Expr.complement p2r))) cs
     | 7 => flip_equality_rand
        (Expr.ltl_release p1l p2l)
        (Expr.intersect p2r
          (Expr.union p1r (Expr.ltl_weak_next (Expr.ltl_release p1r p2r)))) cs
     | 8 => flip_equality_rand
        (Expr.complement (Expr.ltl_release p1l p2l))
        (Expr.ltl_until (Expr.complement p1r) (Expr.complement p2r)) cs
     | 9 => flip_equality_rand
        (Expr.ltl_strong_release p1l p2l)
        (Expr.intersect (Expr.ltl_release p1r p2r) (Expr.ltl_finally p2r)) cs
     | _ => RRes.panic) =
    flip_equality_rand (bucket2Pair p1l p1r p2l p2r (c % 10)).1
      (bucket2Pair p1l p1r p2l p2r (c % 10)).2 cs
  have hlt : c % 10 < 10 := Nat.mod_lt _ (by omega)
  set m := c % 10 with hm
  clear_value m
  interval_cases m <;> rfl

theorem genaxBucket3_eq (p1l p1r p2l p2r p3l p3r : Exp) (c : Nat) (cs : List Nat) :
    genaxBucket3 p1l p1r p2l p2r p3l p3r (c :: cs) =
      flip_equality_rand (bucket3Pair p1l p1r p2l p2r p3l p3r (c % 5)).1
        (bucket3Pair p1l p1r p2l p2r p3l p3r (c % 5)).2 cs := by
  show (match c % 5 with
     | 0 => flip_equality_rand
        (Expr.union p1l (Expr.union p2l p3l))
        (Expr.union (Expr.union p1r p2r) p3r) cs
     | 1 => flip_equality_rand
        (Expr.sequence p1l (Expr.sequence p2l p3l))
        (Expr.sequence (Expr.sequence p1r p2r) p3r) cs
     | 2 => flip_equality_rand
        (Expr.sequence p1l (Expr.union p2l p3l))
        (Expr.union (Expr.sequence p1r p2r) (Expr.sequence p1r p3r)) cs
     | 3 => flip_equality_rand
        (Expr.sequence (Expr.union p1l p2l) p3l)
        (Expr.union (Expr.sequence p1r p3r) (Expr.sequence p2r p3r)) cs
     | 4 => flip_equality_rand
        (Expr.union p1l (Expr.intersect p2l p3l))
        (Expr.intersect (Expr.union p1r p2r) (Expr.union p1r p3r)) cs
     | _ => RRes.panic) =
    flip_equality_rand (bucket3Pair p1l p1r p2l p2r p3l p3r (c % 5)).1
      (bucket3Pair p1l p1r p2l p2r p3l p3r (c % 5)).2 cs
  have hlt : c % 5 < 5 := Nat.mod_lt _ (by omega)
  set m := c % 5 with hm
  clear_value m
  interval_cases m <;> rfl

/-- C6 amended: for `ax_depth = n + 1` and `k ≥ 2`, each recursive
bucket (draw mod 4 = 1, 2, 3) draws a combinator, builds the combined
pair from the recursive results, and returns exactly
`flip_equality_rand` applied to that pair and the remaining draw
stream, where `flip_equality_rand` returns the pair swapped when the
draw it consumes is odd and unswapped when it is even; the packet-axiom
bucket (draw mod 4 = 0) instead returns the instantiated packet axiom
in its written orientation, unflipped. -/
theorem c6_flip_amended (n d k dr : Nat) (rest : List Nat) (hk : 2 ≤ k) :
    (dr % 4 = 0 → ∀ e1 e2 rest2,
      genax (n + 1) d k (dr :: rest) = .ok (e1, e2) rest2 → paOriented e1 e2) ∧
    (dr % 4 = 1 → ∀ pr r1 c cs,
      genax n d k rest = .ok pr r1 → r1 = c :: cs →
      genax (n + 1) d k (dr :: rest) =
        flip_equality_rand (bucket1Pair pr.1 pr.2 (c % 17)).1
          (bucket1Pair pr.1 pr.2 (c % 17)).2 cs) ∧
    (dr % 4 = 2 → ∀ p1 r1 p2 r2 c cs,
      genax n d k rest = .ok p1 r1 → genax n d k r1 = .ok p2 r2 → r2 = c :: cs →
      genax (n + 1) d k (dr :: rest) =
        flip_equality_rand (bucket2Pair p1.1 p1.2 p2.1 p2.2 (c % 10)).1
          (bucket2Pair p1.1 p1.2 p2.1 p2.2 (c % 10)).2 cs) ∧
    (dr % 4 = 3 → ∀ p1 r1 p2 r2 p3 r3 c cs,
      genax n d k rest = .ok p1 r1 → genax n d k r1 = .ok p2 r2 →
      genax n d k r2 = .ok p3 r3 → r3 = c :: cs →
      genax (n + 1) d k (dr :: rest) =
        flip_equality_rand (bucket3Pair p1.1 p1.2 p2.1 p2.2 p3.1 p3.2 (c % 5)).1
          (bucket3Pair p1.1 p1.2 p2.1 p2.2 p3.1 p3.2 (c % 5)).2 cs) ∧
    (∀ l r b ds, flip_equality_rand l r (b :: ds) =
      if b % 2 == 1 then .ok (r, l) ds else .ok (l, r) ds) := by
  have hunf : genax (n + 1) d k (dr :: rest) =
      match dr % 4 with
      | 0 => genaxPA k rest
      | 1 => RRes.bind (genax n d k rest) fun pr r1 => genaxBucket1 pr.1 pr.2 r1
      | 2 =>
        RRes.bind (genax n d k rest) fun p1 r1 =>
        RRes.bind (genax n d k r1) fun p2 r2 =>
          genaxBucket2 p1.1 p1.2 p2.1 p2.2 r2
      | 3 =>
        RRes.bind (genax n d k rest) fun p1 r1 =>
        RRes.bind (genax n d k r1) fun p2 r2 =>
        RRes.bind (genax n d k r2) fun p3 r3 =>
          genaxBucket3 p1.1 p1.2 p2.1 p2.2 p3.1 p3.2 r3
      | _ => RRes.panic := by
    simp only [genax, if_neg (show ¬ k < 2 by omega), drawNat, RRes.bind]
  refine ⟨?_, ?_, ?_, ?_, ?_⟩
  · intro h0 e1 e2 rest2 hgen
    rw [hunf, h0] at hgen
    exact genaxPA_oriented hgen
  · intro h1 pr r1 c cs hrec hr1
    subst hr1
    rw [hunf, h1]
    show RRes.bind (genax n d k rest) (fun q s => genaxBucket1 q.1 q.2 s) = _
    rw [hrec]
    exact genaxBucket1_eq pr.1 pr.2 c cs
  · intro h2 p1 r1 p2 r2 c cs hrec1 hrec2 hr2
    subst hr2
    rw [hunf, h2]
    show RRes.bind (genax n d k rest)
        (fun q1 s1 => RRes.bind (genax n d k s1) fun q2 s2 =>
          genaxBucket2 q1.1 q1.2 q2.1 q2.2 s2) = _
    rw [hrec1]
    show RRes.bind (genax n d k r1)
        (fun q2 s2 => genaxBucket2 p1.1 p1.2 q2.1 q2.2 s2) = _
    rw [hrec2]
    exact genaxBucket2_eq p1.1 p1.2 p2.1 p2.2 c cs
  · intro h3 p1 r1 p2 r2 p3 r3 c cs hrec1 hrec2 hrec3 hr3
    subst hr3
    rw [hunf, h3]
    show RRes.bind (genax n d k rest)
        (fun q1 s1 => RRes.bind (genax n d k s1) fun q2 s2 =>
          RRes.bind (genax n d k s2) fun q3 s3 =>
            genaxBucket3 q1.1 q1.2 q2.1 q2.2 q3.1 q3.2 s3) = _
    rw [hrec1]
    show RRes.bind (genax n d k r1)
        (fun q2 s2 => RRes.bind (genax n d k s2) fun q3 s3 =>
          genaxBucket3 p1.1 p1.2 q2.1 q2.2 q3.1 q3.2 s3) = _
    rw [hrec2]
    show RRes.bind (genax n d k r2)
        (fun q3 s3 => genaxBucket3 p1.1 p1.2 p2.1 p2.2 q3.1 q3.2 s3) = _
    rw [hrec3]
    exact genaxBucket3_eq p1.1 p1.2 p2.1 p2.2 p3.1 p3.2 c cs
  · intro l r b ds
    rfl

/-- Witness for C6 amended at concrete draws: the packet-axiom bucket
yields an unflipped axiom pair; each recursive bucket yields exactly
`flip_equality_rand` of its combined pair on the remaining draws; and
the flip swaps the pair on an odd draw. -/
theorem c6_flip_amended_witness :
    ((2 : Nat) ≤ 2 ∧ (0 : Nat) % 4 = 0 ∧
      genax 1 0 2 [0, 3, 0, 1, 1] =
        .ok (Expr.sequence (Expr.assign 0 true) (Expr.test 0 true), Expr.assign 0 true) [1] ∧
      paOriented (Expr.sequence (Expr.assign 0 true) (Expr.test 0 true))
        (Expr.assign 0 true)) ∧
    genax 1 0 2 [1, 3, 0, 1, 1] =
      flip_equality_rand (Expr.union Expr.dup Expr.zero) Expr.dup [1, 1] ∧
    genax 1 0 2 [2, 3, 3, 0, 1, 1] =
      flip_equality_rand (Expr.union Expr.dup Expr.dup)
        (Expr.union Expr.dup Expr.dup) [1, 1] ∧
    genax 1 0 2 [3, 3, 3, 3, 0, 1, 1] =
      flip_equality_rand (Expr.union Expr.dup (Expr.union Expr.dup Expr.dup))
        (Expr.union (Expr.union Expr.dup Expr.dup) Expr.dup) [1, 1] ∧
    flip_equality_rand Expr.zero Expr.one [1] =
      (if 1 % 2 == 1 then RRes.ok (Expr.one, Expr.zero) []
       else RRes.ok (Expr.zero, Expr.one) []) :=
  ⟨⟨by decide, by decide, by decide,
    (c6_flip_amended 0 0 2 0 [3, 0, 1, 1] (by decide)).1 (by decide)
      (Expr.sequence (Expr.assign 0 true) (Expr.test 0 true)) (Expr.assign 0 true)
      [1] (by decide)⟩,
   (c6_flip_amended 0 0 2 1 [3, 0, 1, 1] (by decide)).2.1 (by decide)
     (Expr.dup, Expr.dup) [0, 1, 1] 0 [1, 1] (by decide) rfl,
   (c6_flip_amended 0 0 2 2 [3, 3, 0, 1, 1] (by decide)).2.2.1 (by decide)
     (Expr.dup, Expr.dup) [3, 0, 1, 1] (Expr.dup, Expr.dup) [0, 1, 1] 0 [1, 1]
     (by decide) (by decide) rfl,
   (c6_flip_amended 0 0 2 3 [3, 3, 3, 0, 1, 1] (by decide)).2.2.2.1 (by decide)
     (Expr.dup, Expr.dup) [3, 3, 0, 1, 1] (Expr.dup, Expr.dup) [3, 0, 1, 1]
     (Expr.dup, Expr.dup) [0, 1, 1] 0 [1, 1] (by decide) (by decide) (by decide) rfl,
   (c6_flip_amended 0 0 2 0 [] (by decide)).2.2.2.2 Expr.zero Expr.one 1 []⟩
